import Mathlib

/-!
# tofu-ls: module pipeline, job bodies and scheduling of module decoding

A shallow embedding of the job bodies in `internal/features/modules/jobs`,
`internal/features/rootmodules/jobs` and of the event handlers of
`internal/features/modules/events.go`.

Stateful code is written in explicit state-passing style over a `World`
(the module table, the root-module table and the ordered trace of every store
call and every `EnqueueJob` call).  Collaborators that are interfaces or
external libraries in the source (the job store, the early decoder, the
language decoder, the tool executor, the filesystem) are fields of `Env`.
-/

namespace TofuLS

/-! ## Data model -/

/-- Modelled from the spec: the stage state tag of package `operation`, which is
not under src: "a state tag per stage drawn from {Unknown, Loading, LoadedOk,
LoadedErr}". -/
inductive OpState
  | OpStateUnknown
  | OpStateLoading
  | OpStateLoadedOk
  | OpStateLoadedErr
  deriving DecidableEq, Repr

/-- Modelled from the spec: `document.DirHandle` is not under src; a directory handle
is identified by the directory path it was made from (`Path()` gives it back). -/
structure DirHandle where
  URI : String
  deriving DecidableEq, Repr

/-- Modelled from the spec: `document.DirHandleFromPath`, not under src. -/
def DirHandleFromPath (path : String) : DirHandle := ⟨path⟩

/-- Modelled from the spec: `DirHandle.Path`, not under src. -/
def DirHandle.Path (dir : DirHandle) : String := dir.URI

/-- The two JSON-RPC error codes the embedded handlers use (`jrpc2.MethodNotFound`,
`jrpc2.InvalidParams`). -/
inductive JrpcCode
  | MethodNotFound
  | InvalidParams
  deriving DecidableEq, Repr

/-- Error values that the embedded code creates, tests for, or receives. -/
inductive Error
  /-- The sentinel `job.StateNotChangedErr` of `job/ignore_state.go`. -/
  | StateNotChangedErr (Dir : DirHandle)
  /-- The error of a store lookup for a directory without a record. -/
  | ModuleNotFound (Dir : String)
  /-- The `globalState.AlreadyExistsError` of a duplicate insert. -/
  | AlreadyExistsError (Idx : String)
  /-- The `module.NoTofuExecPathErr` of `tofu/module/errors.go`. -/
  | NoTofuExecPathErr
  /-- A non-empty `hcl.Diagnostics` value used as an error. -/
  | Diagnostics (diags : List String)
  /-- Any other error, identified by its message. -/
  | Failure (msg : String)
  /-- An error wrapping another one (`fmt.Errorf` with the wrapping verb). -/
  | Wrap (msg : String) (err : Error)
  /-- The `registry.ClientError` of `registry/module.go`. -/
  | ClientError (StatusCode : Nat) (Body : String)
  /-- The error value of a JSON-RPC code (`code.Err()`). -/
  | CodeErr (code : JrpcCode)
  /-- A JSON-RPC error with a message (`jrpc2.Errorf`), and data when `WithData` was
  applied. -/
  | JrpcError (code : JrpcCode) (Message : String) (Data : Option String)
  /-- An error wrapping another one, the text of the wrapped error coming first
  (`fmt.Errorf` with the wrapping verb at the start of the format). -/
  | WrapThen (err : Error) (msg : String)
  deriving DecidableEq, Repr

/-- The three diagnostic sources the validation jobs write to. -/
inductive DiagnosticSource
  | SchemaValidationSource
  | ReferenceValidationSource
  | TofuValidateSource
  deriving DecidableEq, Repr

/-- File name to diagnostics (`ast.ModDiags`). -/
abbrev ModDiags := List (String × List String)

/-- The kinds of module source address that `decodeDeclaredModuleCalls` switches on. -/
inductive ModuleSourceAddr
  | LocalSourceAddr (s : String)
  | Module (s : String)
  | RemoteSourceAddr (s : String)
  | UnknownSourceAddr (s : String)
  deriving DecidableEq, Repr

/-- A declared module call (`tfmod.DeclaredModuleCall`). -/
structure DeclaredModuleCall where
  LocalName : String
  SourceAddr : ModuleSourceAddr
  deriving DecidableEq, Repr

/-- Version-independent module metadata (`tfmod.Meta`), maps as association lists. -/
structure ModuleMeta where
  ProviderRequirements : List (String × String)
  ProviderReferences : List (String × String)
  ModuleCalls : List DeclaredModuleCall
  deriving DecidableEq, Repr

/-- Modelled from the spec: the module record of `features/modules/state`, which is not
under src: "Keyed by absolute directory path. Attributes: the set of parsed files,
extracted metadata, ..., per-source diagnostic bags, and a state tag per stage". -/
structure ModuleRecord where
  path : String
  ParsedModuleFiles : List (String × String)
  Meta : ModuleMeta
  MetaErr : Option Error
  MetaState : OpState
  ModuleDiagnostics : List (DiagnosticSource × ModDiags)
  ModuleDiagnosticsState : List (DiagnosticSource × OpState)
  deriving DecidableEq, Repr

/-- Modelled from the spec: the root-module record of `features/rootmodules/state`,
which is not under src: the install manifest (module source to installed relative
path), the error of parsing it, and the state tag of the manifest stage. -/
structure RootRecord where
  path : String
  ModManifest : Option (List (String × String))
  ModManifestErr : Option Error
  ModManifestState : OpState
  deriving DecidableEq, Repr

/-- Reading a Go map of stage states: a missing key reads as the zero value, Unknown. -/
def stateOf (m : List (DiagnosticSource × OpState)) (src : DiagnosticSource) : OpState :=
  match m.find? (fun e => e.1 == src) with
  | some e => e.2
  | none => .OpStateUnknown

/-- Writing a key of a Go map kept as an association list. -/
def mapSet {κ ν : Type} [DecidableEq κ] (m : List (κ × ν)) (k : κ) (v : ν) : List (κ × ν) :=
  if m.any (fun e => e.1 == k) then
    m.map (fun e => if e.1 == k then (k, v) else e)
  else
    m ++ [(k, v)]

/-- Reading a key of a Go map kept as an association list (the comma-ok form). -/
def mapGet {κ ν : Type} [DecidableEq κ] (m : List (κ × ν)) (k : κ) : Option ν :=
  (m.find? (fun e => e.1 == k)).map (fun e => e.2)

/-- Copying a Go map entry by entry into a fresh map (the two loops of
`LoadModuleMetadata`). -/
def copyMap {κ ν : Type} [DecidableEq κ] (m : List (κ × ν)) : List (κ × ν) :=
  m.foldl (fun acc e => mapSet acc e.1 e.2) []

/-! ## Request context -/

/-- The validation options carried by the request context. -/
structure ValidationOptions where
  EnableEnhancedValidation : Bool
  deriving DecidableEq, Repr

/-- The RPC document context (`lsctx.Document`) read by schema validation. -/
structure DocumentCtx where
  Method : String
  LanguageID : String
  URI : String
  deriving DecidableEq, Repr

/-- One `context.WithValue` layer; the constructor is the (private) key. -/
inductive CtxValue
  | ignoreState (v : Bool)
  | validationOptions (o : ValidationOptions)
  | document (d : DocumentCtx)
  deriving DecidableEq, Repr

/-- A Go `context.Context` as its chain of values, innermost first. -/
abbrev Context := List CtxValue

/-- The lookup `ctx.Value(ignoreState{}).(bool)`: the innermost value under the key. -/
def Context.valueIgnoreState : Context → Option Bool
  | [] => none
  | .ignoreState v :: _ => some v
  | _ :: rest => Context.valueIgnoreState rest

/-- The function `job.IgnoreState` of `job/ignore_state.go`. -/
def IgnoreState (ctx : Context) : Bool :=
  match ctx.valueIgnoreState with
  | none => false
  | some v => v

/-- The function `job.WithIgnoreState` of `job/ignore_state.go`. -/
def WithIgnoreState (ctx : Context) (ignore : Bool) : Context :=
  .ignoreState ignore :: ctx

/-- The lookup of the validation options value in the context chain. -/
def Context.valueValidationOptions : Context → Option ValidationOptions
  | [] => none
  | .validationOptions o :: _ => some o
  | _ :: rest => Context.valueValidationOptions rest

/-- Modelled from the spec: `lsctx.ValidationOptions` is not under src; by the comment
at its call site, when the options cannot be read from the context the returned value
has `EnableEnhancedValidation` false and an error is returned next to it. -/
def ValidationOptionsOf (ctx : Context) : ValidationOptions × Option Error :=
  match ctx.valueValidationOptions with
  | some o => (o, none)
  | none => (⟨false⟩, some (.Failure "no validation options"))

/-- The lookup of the RPC document value in the context chain. -/
def Context.valueDocument : Context → Option DocumentCtx
  | [] => none
  | .document d :: _ => some d
  | _ :: rest => Context.valueDocument rest

/-- Modelled from the spec: `lsctx.DocumentContext` is not under src; an absent value
reads as the zero `Document`. -/
def DocumentContext (ctx : Context) : DocumentCtx :=
  match ctx.valueDocument with
  | some d => d
  | none => ⟨"", "", ""⟩

/-! ## Jobs -/

/-- Modelled from the spec: `job.ID` is declared in `job/job.go`, which is not under
src: "an opaque identifier". -/
abbrev ID := String

/-- Modelled from the spec: `job.Priority` is declared in `job/job.go`, which is not
under src: "priority {High, Low}"; `Unset` is the field of a job literal that gives no
priority. -/
inductive Priority
  | Unset
  | LowPriority
  | HighPriority
  deriving DecidableEq, Repr

/-- Modelled from the spec: the operation kinds of package `operation`, which is not
under src; only the kinds named in the embedded code are listed. -/
inductive OpType
  | OpTypeParseModuleConfiguration
  | OpTypeLoadModuleMetadata
  | OpTypePreloadEmbeddedSchema
  | OpTypeDecodeReferenceTargets
  | OpTypeDecodeReferenceOrigins
  | OpTypeSchemaModuleValidation
  | OpTypeReferenceValidation
  | OpTypeGetModuleDataFromRegistry
  deriving DecidableEq, Repr

/-- Modelled from the spec: `OpType.String`, the name of the operation kind ("opaque
string used for deduplication"). -/
def OpType.String : OpType → String
  | .OpTypeParseModuleConfiguration => "OpTypeParseModuleConfiguration"
  | .OpTypeLoadModuleMetadata => "OpTypeLoadModuleMetadata"
  | .OpTypePreloadEmbeddedSchema => "OpTypePreloadEmbeddedSchema"
  | .OpTypeDecodeReferenceTargets => "OpTypeDecodeReferenceTargets"
  | .OpTypeDecodeReferenceOrigins => "OpTypeDecodeReferenceOrigins"
  | .OpTypeSchemaModuleValidation => "OpTypeSchemaModuleValidation"
  | .OpTypeReferenceValidation => "OpTypeReferenceValidation"
  | .OpTypeGetModuleDataFromRegistry => "OpTypeGetModuleDataFromRegistry"

/-- The body closure of a job, as the function it calls and the path it captured. -/
inductive JobFunc
  | ParseModuleConfiguration (path : String)
  | LoadModuleMetadata (path : String)
  | PreloadEmbeddedSchema (path : String)
  | DecodeReferenceTargets (path : String)
  | DecodeReferenceOrigins (path : String)
  | SchemaModuleValidation (path : String)
  | ReferenceValidation (path : String)
  | GetModuleDataFromRegistry (path : String)
  deriving DecidableEq, Repr

/-- The one deferred continuation of the source (the `Defer` closure of the metadata
job in `decodeModule`), as the variables it captures. -/
structure DeferFn where
  dir : DirHandle
  ignoreState : Bool
  isFirstLevel : Bool
  validationOptions : ValidationOptions
  deriving DecidableEq, Repr

/-- The fields of `job.Job` that the embedded code sets (`JobType` is the field
`Type`). -/
structure Job where
  Dir : DirHandle
  Func : JobFunc
  JobType : String
  DependsOn : List ID
  IgnoreState : Bool
  Priority : Priority
  Defer : Option DeferFn
  deriving DecidableEq, Repr

/-! ## World, trace and collaborators -/

/-- A call of a store method, with its arguments. -/
inductive StoreCall
  | ModuleRecordByPath (path : String)
  | SetMetaState (path : String) (s : OpState)
  | UpdateMetadata (path : String) (mm : ModuleMeta) (mErr : Option Error)
  | SetModuleDiagnosticsState (path : String) (src : DiagnosticSource) (s : OpState)
  | UpdateModuleDiagnostics (path : String) (src : DiagnosticSource) (diags : ModDiags)
  | DeclaredModuleCalls (path : String)
  | Add (path : String)
  | AddIfNotExists (path : String)
  | Exists (path : String)
  | Remove (path : String)
  | RootRecordByPath (path : String)
  | SetModManifestState (path : String) (s : OpState)
  | UpdateModManifest (path : String) (mm : Option (List (String × String)))
      (mErr : Option Error)
  | DequeueJobsForDir (dir : DirHandle)
  | HasOpenDocuments (dir : DirHandle)
  deriving DecidableEq, Repr

/-- Whether a store call is a setter or updater (anything but a read). -/
def StoreCall.isMutation : StoreCall → Bool
  | .ModuleRecordByPath _ => false
  | .DeclaredModuleCalls _ => false
  | .Exists _ => false
  | .RootRecordByPath _ => false
  | .HasOpenDocuments _ => false
  | _ => true

deriving instance DecidableEq for Except

/-- One observable step: a store call, or an `EnqueueJob` call with what it returned. -/
inductive Event
  | store (c : StoreCall)
  | enqueue (j : Job) (r : Except Error ID)
  deriving DecidableEq

/-- The state the embedded code runs against. -/
structure World where
  modules : List ModuleRecord
  roots : List RootRecord
  trace : List Event

/-- Collaborators that are interfaces or external packages in the source. -/
structure Env where
  /-- A store call failing for a reason of the database itself. -/
  storeFault : World → StoreCall → Option String
  /-- The interface method `JobStore.EnqueueJob` of `job/job_store.go`. -/
  enqueue : Context → World → Job → Except Error ID
  /-- The call `earlydecoder.LoadModule(path, files)`. -/
  LoadModule : String → List (String × String) → ModuleMeta × List String
  /-- The call `moduleDecoder.ValidateFile(ctx, filename)`. -/
  ValidateFile : World → String → String → List String × Option Error
  /-- The call `moduleDecoder.Validate(ctx)`. -/
  Validate : World → String → ModDiags × Option Error
  /-- The error of `modulePathContext(mod, reader)`, if any. -/
  modulePathContext : World → ModuleRecord → Option Error
  /-- The call `validations.UnreferencedOrigins(ctx, pathCtx)`. -/
  UnreferencedOrigins : World → String → ModDiags
  /-- The error of `module.TofuExecutorForModule(ctx, path)`, if any. -/
  TofuExecutorForModule : Context → String → Option Error
  /-- The call `tfExec.Validate(ctx)`. -/
  tfExecValidate : World → String → Except Error (List String)
  /-- The call `diagnostics.HCLDiagsFromJSON`. -/
  HCLDiagsFromJSON : List String → ModDiags
  /-- The call `datadir.ModuleManifestFilePath(fs, modPath)`. -/
  ModuleManifestFilePath : String → Option String
  /-- The call `datadir.ParseModuleManifestFromFile(manifestPath)`. -/
  ParseModuleManifestFromFile : String → Except Error (List (String × String))
  /-- The call `ilsp.IsValidConfigLanguage`. -/
  IsValidConfigLanguage : String → Bool
  /-- The call `path.Base`. -/
  pathBase : String → String
  /-- The call `filepath.Join(a, filepath.FromSlash(b))`. -/
  joinFromSlash : String → String → String
  /-- The call `os.Stat(path)`: an error, or whether the entry is a directory. -/
  stat : String → Except Error Bool
  /-- The interface method `RootReader.InstalledModulePath`. -/
  InstalledModulePath : World → String → String → Option String
  /-- The scheduler running the body of a job: the world the body leaves and its error. -/
  runBody : World → Job → World × Option Error
  /-- The call `ast.IsModuleFilename`. -/
  IsModuleFilename : String → Bool
  /-- The call `globalAst.IsIgnoredFile`. -/
  IsIgnoredFile : String → Bool
  /-- The call `filepath.Dir`. -/
  pathDir : String → String
  /-- The call `os.IsNotExist`. -/
  IsNotExist : Error → Bool
  /-- The call `DocumentStore.HasOpenDocuments(dir)`: its answer and its error. -/
  HasOpenDocuments : World → DirHandle → Bool × Option Error

/-- The number of a JSON-RPC error code as `Error()` prints it. -/
def JrpcCode.number : JrpcCode → String
  | .MethodNotFound => "-32601"
  | .InvalidParams => "-32602"

/-- The text of an error value (`Error()`), as far as the embedded code formats one; a
JSON-RPC error prints its code in brackets before its message. -/
def Error.message : Error → String
  | .StateNotChangedErr d => d.URI ++ ": state not changed"
  | .ModuleNotFound d => "module not found for " ++ d
  | .AlreadyExistsError i => i ++ " already exists"
  | .NoTofuExecPathErr => "No exec path provided for tofu"
  | .Diagnostics ds => String.intercalate "; " ds
  | .Failure m => m
  | .Wrap m e => m ++ e.message
  | .ClientError code body => toString code ++ ": " ++ body
  | .CodeErr .MethodNotFound => "method not found"
  | .CodeErr .InvalidParams => "invalid parameters"
  | .JrpcError code m _ => "[" ++ code.number ++ "] " ++ m
  | .WrapThen e m => e.message ++ m

/-- Appends a store call to the trace. -/
def logCall (w : World) (c : StoreCall) : World :=
  { w with trace := w.trace ++ [Event.store c] }

/-! ## The module store and the root store

The stores of `features/modules/state` and `features/rootmodules/state` are not under
src.  Every method appends its call to the trace, fails without touching the tables
when the database reports a fault, and otherwise behaves as the spec describes. -/

/-- Modelled from the spec: `ModuleStore.ModuleRecordByPath`, not under src:
"RecordByPath(dir) -> snapshot clone"; a directory without a record is an error. -/
def ModuleStore.ModuleRecordByPath (env : Env) (w : World) (path : String) :
    World × Except Error ModuleRecord :=
  let w1 := logCall w (.ModuleRecordByPath path)
  match env.storeFault w (.ModuleRecordByPath path) with
  | some msg => (w1, .error (.Failure msg))
  | none =>
    match w.modules.find? (fun m => m.path == path) with
    | none => (w1, .error (.ModuleNotFound path))
    | some m => (w1, .ok m)

/-- Applies a change to the record of a directory, or reports that there is none. -/
def ModuleStore.update (env : Env) (w : World) (c : StoreCall) (path : String)
    (f : ModuleRecord → ModuleRecord) : World × Option Error :=
  let w1 := logCall w c
  match env.storeFault w c with
  | some msg => (w1, some (.Failure msg))
  | none =>
    if w.modules.any (fun m => m.path == path) then
      ({ w1 with modules := w.modules.map (fun m => if m.path == path then f m else m) },
        none)
    else
      (w1, some (.ModuleNotFound path))

/-- Modelled from the spec: `ModuleStore.SetMetaState`, not under src: writes the
state tag of the metadata stage. -/
def ModuleStore.SetMetaState (env : Env) (w : World) (path : String) (s : OpState) :
    World × Option Error :=
  ModuleStore.update env w (.SetMetaState path s) path (fun m => { m with MetaState := s })

/-- Modelled from the spec: `ModuleStore.UpdateMetadata`, not under src: stores the
metadata and its error and moves the stage to a terminal state ("Unknown -> Loading ->
{LoadedOk, LoadedErr}"). -/
def ModuleStore.UpdateMetadata (env : Env) (w : World) (path : String) (mm : ModuleMeta)
    (mErr : Option Error) : World × Option Error :=
  ModuleStore.update env w (.UpdateMetadata path mm mErr) path
    (fun m => { m with
      Meta := mm
      MetaErr := mErr
      MetaState := if mErr.isSome then .OpStateLoadedErr else .OpStateLoadedOk })

/-- Modelled from the spec: `ModuleStore.SetModuleDiagnosticsState`, not under src:
writes the state tag of one diagnostic source. -/
def ModuleStore.SetModuleDiagnosticsState (env : Env) (w : World) (path : String)
    (src : DiagnosticSource) (s : OpState) : World × Option Error :=
  ModuleStore.update env w (.SetModuleDiagnosticsState path src s) path
    (fun m => { m with ModuleDiagnosticsState := mapSet m.ModuleDiagnosticsState src s })

/-- Modelled from the spec: `ModuleStore.UpdateModuleDiagnostics`, not under src: stores
the diagnostics of one source and moves that source to a terminal state. -/
def ModuleStore.UpdateModuleDiagnostics (env : Env) (w : World) (path : String)
    (src : DiagnosticSource) (diags : ModDiags) : World × Option Error :=
  ModuleStore.update env w (.UpdateModuleDiagnostics path src diags) path
    (fun m => { m with
      ModuleDiagnostics := mapSet m.ModuleDiagnostics src diags
      ModuleDiagnosticsState := mapSet m.ModuleDiagnosticsState src .OpStateLoadedOk })

/-- Modelled from the spec: `RootStore.RootRecordByPath`, not under src. -/
def RootStore.RootRecordByPath (env : Env) (w : World) (path : String) :
    World × Except Error RootRecord :=
  let w1 := logCall w (.RootRecordByPath path)
  match env.storeFault w (.RootRecordByPath path) with
  | some msg => (w1, .error (.Failure msg))
  | none =>
    match w.roots.find? (fun m => m.path == path) with
    | none => (w1, .error (.ModuleNotFound path))
    | some m => (w1, .ok m)

/-- Applies a change to the root record of a directory, or reports that there is none. -/
def RootStore.update (env : Env) (w : World) (c : StoreCall) (path : String)
    (f : RootRecord → RootRecord) : World × Option Error :=
  let w1 := logCall w c
  match env.storeFault w c with
  | some msg => (w1, some (.Failure msg))
  | none =>
    if w.roots.any (fun m => m.path == path) then
      ({ w1 with roots := w.roots.map (fun m => if m.path == path then f m else m) }, none)
    else
      (w1, some (.ModuleNotFound path))

/-- Modelled from the spec: `RootStore.SetModManifestState`, not under src. -/
def RootStore.SetModManifestState (env : Env) (w : World) (path : String) (s : OpState) :
    World × Option Error :=
  RootStore.update env w (.SetModManifestState path s) path
    (fun m => { m with ModManifestState := s })

/-- Modelled from the spec: `RootStore.UpdateModManifest`, not under src: stores the
manifest and its error and moves the stage to a terminal state. -/
def RootStore.UpdateModManifest (env : Env) (w : World) (path : String)
    (mm : Option (List (String × String))) (mErr : Option Error) : World × Option Error :=
  RootStore.update env w (.UpdateModManifest path mm mErr) path
    (fun m => { m with
      ModManifest := mm
      ModManifestErr := mErr
      ModManifestState := if mErr.isSome then .OpStateLoadedErr else .OpStateLoadedOk })

/-! ## Job bodies -/

/-- The function `LoadModuleMetadata` of `features/modules/jobs/metadata.go`. -/
def LoadModuleMetadata (env : Env) (ctx : Context) (w : World) (modPath : String) :
    World × Option Error :=
  match ModuleStore.ModuleRecordByPath env w modPath with
  | (w1, .error err) => (w1, some err)
  | (w1, .ok mod) =>
    if mod.MetaState != .OpStateUnknown && !IgnoreState ctx then
      (w1, some (.StateNotChangedErr (DirHandleFromPath modPath)))
    else
      match ModuleStore.SetMetaState env w1 modPath .OpStateLoading with
      | (w2, some err) => (w2, some err)
      | (w2, none) =>
        let loaded := env.LoadModule mod.path mod.ParsedModuleFiles
        let mErr : Option Error :=
          if loaded.2.length > 0 then some (.Diagnostics loaded.2) else none
        let mm : ModuleMeta :=
          { loaded.1 with
            ProviderRequirements := copyMap loaded.1.ProviderRequirements
            ProviderReferences := copyMap loaded.1.ProviderReferences }
        match ModuleStore.UpdateMetadata env w2 modPath mm mErr with
        | (w3, some sErr) => (w3, some sErr)
        | (w3, none) => (w3, mErr)

/-- The method `PathReader.PathContext` of `features/modules/decoder/path_reader.go`:
the error it returns, if any. -/
def PathReader.PathContext (env : Env) (w : World) (path : String) : World × Option Error :=
  match ModuleStore.ModuleRecordByPath env w path with
  | (w1, .error err) => (w1, some err)
  | (w1, .ok mod) => (w1, env.modulePathContext w1 mod)

/-- The function `SchemaModuleValidation` of `features/modules/jobs/validation.go`.  The
call `d.Path(lang.Path)` of the language decoder asks the path reader the decoder was
built on, `PathReader.PathContext`, for the path context and fails when that fails. -/
def SchemaModuleValidation (env : Env) (ctx : Context) (w : World) (modPath : String) :
    World × Option Error :=
  match ModuleStore.ModuleRecordByPath env w modPath with
  | (w1, .error err) => (w1, some err)
  | (w1, .ok mod) =>
    if stateOf mod.ModuleDiagnosticsState .SchemaValidationSource != .OpStateUnknown
        && !IgnoreState ctx then
      (w1, some (.StateNotChangedErr (DirHandleFromPath modPath)))
    else
      match ModuleStore.SetModuleDiagnosticsState env w1 modPath .SchemaValidationSource
          .OpStateLoading with
      | (w2, some err) => (w2, some err)
      | (w2, none) =>
        match PathReader.PathContext env w2 modPath with
        | (wp, some err) => (wp, some err)
        | (wp, none) =>
          let rpcContext := DocumentContext ctx
          if rpcContext.Method == "textDocument/didChange"
              && env.IsValidConfigLanguage rpcContext.LanguageID then
            let filename := env.pathBase rpcContext.URI
            let validated := env.ValidateFile wp modPath filename
            let modDiags : ModDiags :=
              match mapGet mod.ModuleDiagnostics .SchemaValidationSource with
              | some d => d
              | none => []
            match ModuleStore.UpdateModuleDiagnostics env wp modPath .SchemaValidationSource
                (mapSet modDiags filename validated.1) with
            | (w3, some sErr) => (w3, some sErr)
            | (w3, none) => (w3, validated.2)
          else
            let validated := env.Validate wp modPath
            match ModuleStore.UpdateModuleDiagnostics env wp modPath .SchemaValidationSource
                validated.1 with
            | (w3, some sErr) => (w3, some sErr)
            | (w3, none) => (w3, validated.2)

/-- The function `ReferenceValidation` of `features/modules/jobs/validation.go`. -/
def ReferenceValidation (env : Env) (ctx : Context) (w : World) (modPath : String) :
    World × Option Error :=
  match ModuleStore.ModuleRecordByPath env w modPath with
  | (w1, .error err) => (w1, some err)
  | (w1, .ok mod) =>
    if stateOf mod.ModuleDiagnosticsState .ReferenceValidationSource != .OpStateUnknown
        && !IgnoreState ctx then
      (w1, some (.StateNotChangedErr (DirHandleFromPath modPath)))
    else
      match ModuleStore.SetModuleDiagnosticsState env w1 modPath .ReferenceValidationSource
          .OpStateLoading with
      | (w2, some err) => (w2, some err)
      | (w2, none) =>
        match PathReader.PathContext env w2 modPath with
        | (w3, some err) => (w3, some err)
        | (w3, none) =>
          let diags := env.UnreferencedOrigins w3 modPath
          ModuleStore.UpdateModuleDiagnostics env w3 modPath .ReferenceValidationSource diags

/-- The function `TofuValidate` of `features/modules/jobs/validation.go`. -/
def TofuValidate (env : Env) (ctx : Context) (w : World) (modPath : String) :
    World × Option Error :=
  match ModuleStore.ModuleRecordByPath env w modPath with
  | (w1, .error err) => (w1, some err)
  | (w1, .ok mod) =>
    if stateOf mod.ModuleDiagnosticsState .TofuValidateSource != .OpStateUnknown
        && !IgnoreState ctx then
      (w1, some (.StateNotChangedErr (DirHandleFromPath modPath)))
    else
      match ModuleStore.SetModuleDiagnosticsState env w1 modPath .TofuValidateSource
          .OpStateLoading with
      | (w2, some err) => (w2, some err)
      | (w2, none) =>
        match env.TofuExecutorForModule ctx mod.path with
        | some err => (w2, some err)
        | none =>
          match env.tfExecValidate w2 mod.path with
          | .error err => (w2, some err)
          | .ok jsonDiags =>
            let validateDiags := env.HCLDiagsFromJSON jsonDiags
            ModuleStore.UpdateModuleDiagnostics env w2 modPath .TofuValidateSource
              validateDiags

/-- The function `ParseModuleManifest` of `features/rootmodules/jobs/manifest.go`. -/
def ParseModuleManifest (env : Env) (ctx : Context) (w : World) (modPath : String) :
    World × Option Error :=
  match RootStore.RootRecordByPath env w modPath with
  | (w1, .error err) => (w1, some err)
  | (w1, .ok mod) =>
    if mod.ModManifestState != .OpStateUnknown && !IgnoreState ctx then
      (w1, some (.StateNotChangedErr (DirHandleFromPath modPath)))
    else
      match RootStore.SetModManifestState env w1 modPath .OpStateLoading with
      | (w2, some err) => (w2, some err)
      | (w2, none) =>
        match env.ModuleManifestFilePath modPath with
        | none =>
          let err := Error.Failure (modPath ++ ": manifest file does not exist")
          match RootStore.UpdateModManifest env w2 modPath none (some err) with
          | (w3, some sErr) => (w3, some sErr)
          | (w3, none) => (w3, some err)
        | some manifestPath =>
          match env.ParseModuleManifestFromFile manifestPath with
          | .error perr =>
            let err := Error.Wrap "failed to parse manifest: " perr
            match RootStore.UpdateModManifest env w2 modPath none (some err) with
            | (w3, some sErr) => (w3, some sErr)
            | (w3, none) => (w3, some err)
          | .ok mm =>
            match RootStore.UpdateModManifest env w2 modPath (some mm) none with
            | (w3, some sErr) => (w3, some sErr)
            | (w3, none) => (w3, none)

/-! ## The modules feature: scheduling -/

/-- A call of `f.stateStore.JobStore.EnqueueJob(ctx, newJob)`, recorded in the trace
with its result. -/
def EnqueueJob (env : Env) (ctx : Context) (w : World) (newJob : Job) :
    World × Except Error ID :=
  ({ w with trace := w.trace ++ [Event.enqueue newJob (env.enqueue ctx w newJob)] },
    env.enqueue ctx w newJob)

/-- Modelled from the spec: `ModuleStore.DeclaredModuleCalls`, not under src: the
module calls declared in the metadata of the record. -/
def ModuleStore.DeclaredModuleCalls (env : Env) (w : World) (path : String) :
    World × Except Error (List DeclaredModuleCall) :=
  let w1 := logCall w (.DeclaredModuleCalls path)
  match env.storeFault w (.DeclaredModuleCalls path) with
  | some msg => (w1, .error (.Failure msg))
  | none =>
    match w.modules.find? (fun m => m.path == path) with
    | none => (w1, .error (.ModuleNotFound path))
    | some m => (w1, .ok m.Meta.ModuleCalls)

/-- The record of a directory that has just been added: every stage Unknown. -/
def newModule (path : String) : ModuleRecord :=
  { path := path
    ParsedModuleFiles := []
    Meta := ⟨[], [], []⟩
    MetaErr := none
    MetaState := .OpStateUnknown
    ModuleDiagnostics := []
    ModuleDiagnosticsState := [] }

/-- Modelled from the spec: `ModuleStore.Add`, not under src: inserts a fresh record;
"attempted duplicate record insert" is the already-exists error. -/
def ModuleStore.Add (env : Env) (w : World) (path : String) : World × Option Error :=
  let w1 := logCall w (.Add path)
  match env.storeFault w (.Add path) with
  | some msg => (w1, some (.Failure msg))
  | none =>
    if w.modules.any (fun m => m.path == path) then
      (w1, some (.AlreadyExistsError path))
    else
      ({ w1 with modules := w.modules ++ [newModule path] }, none)

/-- The test `errors.As(err, &alreadyExistsErr)`: some error of the chain is an
already-exists error. -/
def errorsAsAlreadyExists : Error → Bool
  | .AlreadyExistsError _ => true
  | .Wrap _ e => errorsAsAlreadyExists e
  | _ => false

/-- The call `multierror.Append(errs, err)`: a new value, the receiver is not changed. -/
def multierrorAppend (errs : Option (List Error)) (err : Option Error) : List Error :=
  (errs.getD []) ++ err.toList

/-- The method `(*multierror.Error).ErrorOrNil`. -/
def ErrorOrNil : Option (List Error) → Option Error
  | none => none
  | some [] => none
  | some es => some (.Failure (String.intercalate "; " (es.map Error.message)))

/-- The job literal of the parse job in `decodeModule`. -/
def parseJob (dir : DirHandle) (ignoreState : Bool) : Job :=
  { Dir := dir
    Func := .ParseModuleConfiguration dir.Path
    JobType := OpType.OpTypeParseModuleConfiguration.String
    DependsOn := []
    IgnoreState := ignoreState
    Priority := .Unset
    Defer := none }

/-- The job literal of the metadata job in `decodeModule`, with its continuation. -/
def metadataJob (dir : DirHandle) (ignoreState isFirstLevel : Bool)
    (validationOptions : ValidationOptions) (parseId : ID) : Job :=
  { Dir := dir
    Func := .LoadModuleMetadata dir.Path
    JobType := OpType.OpTypeLoadModuleMetadata.String
    DependsOn := [parseId]
    IgnoreState := ignoreState
    Priority := .Unset
    Defer := some ⟨dir, ignoreState, isFirstLevel, validationOptions⟩ }

/-- The job literal of the registry job in `decodeModule`. -/
def registryJob (dir : DirHandle) (metaId : ID) : Job :=
  { Dir := dir
    Func := .GetModuleDataFromRegistry dir.Path
    JobType := OpType.OpTypeGetModuleDataFromRegistry.String
    DependsOn := [metaId]
    IgnoreState := false
    Priority := .LowPriority
    Defer := none }

/-- The method `ModulesFeature.decodeModule` of `features/modules/events.go`: the
world after it, the ids it returns and its error. -/
def decodeModule (env : Env) (ctx : Context) (w : World) (dir : DirHandle)
    (ignoreState isFirstLevel : Bool) : World × List ID × Option Error :=
  let ids : List ID := []
  match EnqueueJob env ctx w (parseJob dir ignoreState) with
  | (w1, .error err) => (w1, ids, some err)
  | (w1, .ok parseId) =>
    let ids := ids ++ [parseId]
    let validationOptions := (ValidationOptionsOf ctx).1
    match EnqueueJob env ctx w1
        (metadataJob dir ignoreState isFirstLevel validationOptions parseId) with
    | (w2, .error err) => (w2, ids, some err)
    | (w2, .ok metaId) =>
      let ids := ids ++ [metaId]
      if !isFirstLevel then
        (w2, ids, none)
      else
        match EnqueueJob env ctx w2 (registryJob dir metaId) with
        | (w3, .error err) => (w3, ids, some err)
        | (w3, .ok _) => (w3, ids, none)

/-- The type switch of `decodeDeclaredModuleCalls` on the source address of a call:
the on-disk path of the called module, or nothing when the loop continues. -/
def moduleCallPath (env : Env) (w : World) (dir : DirHandle) (mc : DeclaredModuleCall) :
    Option String :=
  match mc.SourceAddr with
  | .LocalSourceAddr source => some (env.joinFromSlash dir.Path source)
  | .Module source =>
    match env.InstalledModulePath w dir.Path source with
    | none => none
    | some installedDir => some (env.joinFromSlash dir.Path installedDir)
  | .RemoteSourceAddr source =>
    match env.InstalledModulePath w dir.Path source with
    | none => none
    | some installedDir => some (env.joinFromSlash dir.Path installedDir)
  | .UnknownSourceAddr _ => none

/-- One iteration of the loop of `decodeDeclaredModuleCalls` over the declared calls,
from the world and the job ids collected so far.  The results of `multierror.Append`
are not assigned in the source, so `errs` is the same before and after. -/
def declaredModuleCallStep (env : Env) (ctx : Context) (dir : DirHandle)
    (ignoreState : Bool) (errs : Option (List Error)) (acc : World × List ID)
    (mc : DeclaredModuleCall) : World × List ID :=
  match moduleCallPath env acc.1 dir mc with
  | none => acc
  | some mcPath =>
    match env.stat mcPath with
    | .error err =>
      let _ := multierrorAppend errs (some err)
      acc
    | .ok false =>
      let _ := multierrorAppend errs none
      acc
    | .ok true =>
      match ModuleStore.Add env acc.1 mcPath with
      | (w1, some err) =>
        if errorsAsAlreadyExists err then
          let r := decodeModule env ctx w1 (DirHandleFromPath mcPath) false false
          let _ := multierrorAppend errs r.2.2
          (r.1, acc.2 ++ r.2.1)
        else
          let _ := multierrorAppend errs (some err)
          (w1, acc.2)
      | (w1, none) =>
        let r := decodeModule env ctx w1 (DirHandleFromPath mcPath) ignoreState false
        let _ := multierrorAppend errs r.2.2
        (r.1, acc.2 ++ r.2.1)

/-- The method `ModulesFeature.decodeDeclaredModuleCalls` of
`features/modules/events.go`. -/
def decodeDeclaredModuleCalls (env : Env) (ctx : Context) (w : World) (dir : DirHandle)
    (ignoreState : Bool) : World × List ID × Option Error :=
  let jobIds : List ID := []
  match ModuleStore.DeclaredModuleCalls env w dir.Path with
  | (w1, .error err) => (w1, jobIds, some err)
  | (w1, .ok declared) =>
    let errs : Option (List Error) := none
    let r := declared.foldl (declaredModuleCallStep env ctx dir ignoreState errs) (w1, jobIds)
    (r.1, r.2, ErrorOrNil errs)

/-- The job literal of the schema preload job in the metadata continuation. -/
def preloadJob (dir : DirHandle) (ignoreState : Bool) : Job :=
  { Dir := dir
    Func := .PreloadEmbeddedSchema dir.Path
    JobType := OpType.OpTypePreloadEmbeddedSchema.String
    DependsOn := []
    IgnoreState := ignoreState
    Priority := .Unset
    Defer := none }

/-- The job literal of the reference targets job in the metadata continuation. -/
def refTargetsJob (dir : DirHandle) (ignoreState : Bool) (modCalls : List ID)
    (eSchemaId : ID) : Job :=
  { Dir := dir
    Func := .DecodeReferenceTargets dir.Path
    JobType := OpType.OpTypeDecodeReferenceTargets.String
    DependsOn := modCalls ++ [eSchemaId]
    IgnoreState := ignoreState
    Priority := .Unset
    Defer := none }

/-- The job literal of the reference origins job in the metadata continuation. -/
def refOriginsJob (dir : DirHandle) (ignoreState : Bool) (modCalls : List ID)
    (eSchemaId : ID) : Job :=
  { Dir := dir
    Func := .DecodeReferenceOrigins dir.Path
    JobType := OpType.OpTypeDecodeReferenceOrigins.String
    DependsOn := modCalls ++ [eSchemaId]
    IgnoreState := ignoreState
    Priority := .Unset
    Defer := none }

/-- The job literal of the schema validation job in the metadata continuation. -/
def schemaValidationJob (dir : DirHandle) (ignoreState : Bool) (modCalls : List ID)
    (eSchemaId : ID) : Job :=
  { Dir := dir
    Func := .SchemaModuleValidation dir.Path
    JobType := OpType.OpTypeSchemaModuleValidation.String
    DependsOn := modCalls ++ [eSchemaId]
    IgnoreState := ignoreState
    Priority := .Unset
    Defer := none }

/-- The job literal of the reference validation job in the metadata continuation. -/
def referenceValidationJob (dir : DirHandle) (ignoreState : Bool)
    (refOriginsId refTargetsId : ID) : Job :=
  { Dir := dir
    Func := .ReferenceValidation dir.Path
    JobType := OpType.OpTypeReferenceValidation.String
    DependsOn := [refOriginsId, refTargetsId]
    IgnoreState := ignoreState
    Priority := .Unset
    Defer := none }

/-- The first part of the metadata continuation: the module-call fan-out, run only at
the first level.  Gives the world, `modCalls` and `deferIds`. -/
def deferModuleCalls (env : Env) (d : DeferFn) (ctx : Context) (w : World) :
    World × List ID × List ID :=
  let deferIds : List ID := []
  if d.isFirstLevel then
    let r := decodeDeclaredModuleCalls env ctx w d.dir d.ignoreState
    (r.1, r.2.1, deferIds ++ r.2.1)
  else
    (w, [], deferIds)

/-- The rest of the metadata continuation, from the world, `modCalls` and `deferIds`
left by the fan-out: the enqueues of preload, reference targets, reference origins and
the two validation jobs. -/
def deferEnqueues (env : Env) (d : DeferFn) (ctx : Context) (w : World)
    (modCalls deferIds : List ID) : World × List ID × Option Error :=
  match EnqueueJob env ctx w (preloadJob d.dir d.ignoreState) with
  | (w1, .error err) => (w1, deferIds, some err)
  | (w1, .ok eSchemaId) =>
    let deferIds := deferIds ++ [eSchemaId]
    match EnqueueJob env ctx w1 (refTargetsJob d.dir d.ignoreState modCalls eSchemaId) with
    | (w2, .error err) => (w2, deferIds, some err)
    | (w2, .ok refTargetsId) =>
      let deferIds := deferIds ++ [refTargetsId]
      match EnqueueJob env ctx w2
          (refOriginsJob d.dir d.ignoreState modCalls eSchemaId) with
      | (w3, .error err) => (w3, deferIds, some err)
      | (w3, .ok refOriginsId) =>
        let deferIds := deferIds ++ [refOriginsId]
        if d.isFirstLevel && d.validationOptions.EnableEnhancedValidation then
          match EnqueueJob env ctx w3
              (schemaValidationJob d.dir d.ignoreState modCalls eSchemaId) with
          | (w4, .error err) => (w4, deferIds, some err)
          | (w4, .ok _) =>
            match EnqueueJob env ctx w4
                (referenceValidationJob d.dir d.ignoreState refOriginsId refTargetsId) with
            | (w5, .error err) => (w5, deferIds, some err)
            | (w5, .ok _) => (w5, deferIds, none)
        else
          (w3, deferIds, none)

/-- The `Defer` closure of the metadata job in `decodeModule`, applied to the context
and the error of the job body. -/
def metadataDefer (env : Env) (d : DeferFn) (ctx : Context) (w : World)
    (_jobErr : Option Error) : World × List ID × Option Error :=
  let fanout := deferModuleCalls env d ctx w
  deferEnqueues env d ctx fanout.1 fanout.2.1 fanout.2.2

/-! ## The modules feature: events -/

/-- Modelled from the spec: `ModuleStore.AddIfNotExists`, not under src:
"`AddIfNotExists(dir)` -> returns an already-exists tagged error when the record
exists"; otherwise a fresh record is inserted. -/
def ModuleStore.AddIfNotExists (env : Env) (w : World) (path : String) :
    World × Option Error :=
  let w1 := logCall w (.AddIfNotExists path)
  match env.storeFault w (.AddIfNotExists path) with
  | some msg => (w1, some (.Failure msg))
  | none =>
    if w.modules.any (fun m => m.path == path) then
      (w1, some (.AlreadyExistsError path))
    else
      ({ w1 with modules := w.modules ++ [newModule path] }, none)

/-- Modelled from the spec: `ModuleStore.Exists`, not under src: whether the directory
has a record; a failing lookup reads as no record. -/
def ModuleStore.Exists (env : Env) (w : World) (path : String) : World × Bool :=
  let w1 := logCall w (.Exists path)
  match env.storeFault w (.Exists path) with
  | some _ => (w1, false)
  | none => (w1, w.modules.any (fun m => m.path == path))

/-- Modelled from the spec: `ModuleStore.Remove`, not under src: "`Remove(dir)` ->
removes the record"; the records of other directories stay. -/
def ModuleStore.Remove (env : Env) (w : World) (path : String) : World × Option Error :=
  let w1 := logCall w (.Remove path)
  match env.storeFault w (.Remove path) with
  | some msg => (w1, some (.Failure msg))
  | none => ({ w1 with modules := w.modules.filter (fun m => !(m.path == path)) }, none)

/-- A call of `f.stateStore.JobStore.DequeueJobsForDir(dir)`, recorded in the trace; the
job store decides whether it fails. -/
def DequeueJobsForDir (env : Env) (w : World) (dir : DirHandle) : World × Option Error :=
  (logCall w (.DequeueJobsForDir dir),
    (env.storeFault w (.DequeueJobsForDir dir)).map Error.Failure)

/-- A call of `f.stateStore.DocumentStore.HasOpenDocuments(dir)`, recorded in the
trace. -/
def HasOpenDocuments (env : Env) (w : World) (dir : DirHandle) :
    World × Bool × Option Error :=
  (logCall w (.HasOpenDocuments dir), env.HasOpenDocuments w dir)

/-- The method `ModulesFeature.discover` of `features/modules/events.go`, as the loop
over the remaining files. -/
def discover (env : Env) (w : World) (path : String) : List String → World × Option Error
  | [] => (w, none)
  | file :: rest =>
    if env.IsModuleFilename file && !env.IsIgnoredFile file then
      match ModuleStore.AddIfNotExists env w path with
      | (w1, some err) => (w1, some err)
      | (w1, none) => (w1, none)
    else
      discover env w path rest

/-- The method `ModulesFeature.didOpen` of `features/modules/events.go`. -/
def didOpen (env : Env) (ctx : Context) (w : World) (dir : DirHandle)
    (languageID : String) : World × List ID × Option Error :=
  let ids : List ID := []
  let path := dir.Path
  let registered : World × Option Error :=
    if env.IsValidConfigLanguage languageID then
      ModuleStore.AddIfNotExists env w path
    else
      (w, none)
  match registered with
  | (w1, some err) => (w1, ids, some err)
  | (w1, none) =>
    match ModuleStore.Exists env w1 path with
    | (w2, false) => (w2, ids, none)
    | (w2, true) => decodeModule env ctx w2 dir false true

/-- The method `ModulesFeature.didChange` of `features/modules/events.go`. -/
def didChange (env : Env) (ctx : Context) (w : World) (dir : DirHandle) :
    World × List ID × Option Error :=
  match ModuleStore.Exists env w dir.Path with
  | (w1, false) => (w1, [], none)
  | (w1, true) => decodeModule env ctx w1 dir true true

/-- The method `ModulesFeature.removeIndexedModule` of `features/modules/events.go`. -/
def removeIndexedModule (env : Env) (w : World) (rawPath : String) : World :=
  let modHandle := DirHandleFromPath rawPath
  match DequeueJobsForDir env w modHandle with
  | (w1, some _) => w1
  | (w1, none) =>
    match ModuleStore.Remove env w1 rawPath with
    | (w2, some _) => w2
    | (w2, none) => w2

/-- The kinds of watched-file change (`protocol.FileChangeType`). -/
inductive FileChangeType
  | Created
  | Changed
  | Deleted
  | Other (n : Nat)
  deriving DecidableEq, Repr

/-- The second half of `didChangeWatched`: a changed or created path. -/
def didChangeWatchedChanged (env : Env) (ctx : Context) (w : World) (rawPath : String)
    (changeType : FileChangeType) (isDir : Bool) : World × List ID × Option Error :=
  let ids : List ID := []
  if changeType = .Changed ∨ changeType = .Created then
    let dir : DirHandle :=
      if isDir then DirHandleFromPath rawPath else DirHandleFromPath (env.pathDir rawPath)
    match HasOpenDocuments env w dir with
    | (w1, false, _) => (w1, ids, none)
    | (w1, true, _) =>
      match ModuleStore.Exists env w1 dir.Path with
      | (w2, false) => (w2, ids, none)
      | (w2, true) => ((decodeModule env ctx w2 dir true true).1, ids, none)
  else
    (w, ids, none)

/-- The method `ModulesFeature.didChangeWatched` of `features/modules/events.go`. -/
def didChangeWatched (env : Env) (ctx : Context) (w : World) (rawPath : String)
    (changeType : FileChangeType) (isDir : Bool) : World × List ID × Option Error :=
  let ids : List ID := []
  if changeType = .Deleted then
    match ModuleStore.Exists env w rawPath with
    | (w1, true) => (removeIndexedModule env w1 rawPath, ids, none)
    | (w1, false) =>
      let parentDir := env.pathDir rawPath
      match ModuleStore.Exists env w1 parentDir with
      | (w2, false) => (w2, ids, none)
      | (w2, true) =>
        match env.stat parentDir with
        | .error err =>
          if env.IsNotExist err then
            (removeIndexedModule env w2 rawPath, ids, none)
          else
            (w2, ids, none)
        | .ok false => (w2, ids, none)
        | .ok true =>
          let dir := DirHandleFromPath parentDir
          match HasOpenDocuments env w2 dir with
          | (w3, false, _) => (w3, ids, none)
          | (w3, true, _) =>
            didChangeWatchedChanged env ctx (decodeModule env ctx w3 dir true true).1
              rawPath changeType isDir
  else
    didChangeWatchedChanged env ctx w rawPath changeType isDir

/-! ## Sample inputs -/

/-- A collaborator set in which no store call faults, every enqueue succeeds with a
fresh id, and the tool executable is missing. -/
def Env.quiet : Env :=
  { storeFault := fun _ _ => none
    enqueue := fun _ w _ => .ok (String.mk (List.replicate w.trace.length 'j'))
    LoadModule := fun _ _ => (⟨[("aws", ">= 1.0")], [], []⟩, [])
    ValidateFile := fun _ _ _ => ([], none)
    Validate := fun _ _ => ([], none)
    modulePathContext := fun _ _ => none
    UnreferencedOrigins := fun _ _ => []
    TofuExecutorForModule := fun _ _ => some .NoTofuExecPathErr
    tfExecValidate := fun _ _ => .ok []
    HCLDiagsFromJSON := fun _ => []
    ModuleManifestFilePath := fun _ => none
    ParseModuleManifestFromFile := fun _ => .ok []
    IsValidConfigLanguage := fun l => l == "opentofu"
    pathBase := fun p => p
    joinFromSlash := fun a b => a ++ "/" ++ b
    stat := fun _ => .ok true
    InstalledModulePath := fun _ _ _ => none
    runBody := fun w _ => (w, none)
    IsModuleFilename := fun f => f == "main.tf" || f == "variables.tf"
    IsIgnoredFile := fun f => f == ".main.tf.swp"
    pathDir := fun p => String.mk ((p.data.reverse.dropWhile (fun c => c != '/')).drop 1).reverse
    IsNotExist := fun e => e == .Failure "no such file or directory"
    HasOpenDocuments := fun _ _ => (false, none) }

/-- A module record for the directory "/a" whose metadata stage and whose three
diagnostic sources are all in the given state. -/
def sampleModule (st : OpState) : ModuleRecord :=
  { newModule "/a" with
    MetaState := st
    ModuleDiagnosticsState :=
      [(.SchemaValidationSource, st), (.ReferenceValidationSource, st),
        (.TofuValidateSource, st)] }

/-- A root record for the directory "/a" whose manifest stage is in the given state. -/
def sampleRoot (st : OpState) : RootRecord := ⟨"/a", none, none, st⟩

/-- A world holding one module record and one root record for "/a". -/
def sampleWorld (st : OpState) : World := ⟨[sampleModule st], [sampleRoot st], []⟩

/-- A collaborator set in which building the path context of a module fails. -/
def Env.failing : Env :=
  { Env.quiet with
    modulePathContext := fun _ _ => some (.Failure "no path context") }

/-- The state tag of a diagnostic source in the record of a directory, if the
directory has a record. -/
def diagnosticsStateAt (w : World) (path : String) (src : DiagnosticSource) :
    Option OpState :=
  (w.modules.find? (fun m => m.path == path)).map
    (fun m => stateOf m.ModuleDiagnosticsState src)

/-- The events that a run added to the trace: what the later world has after the
events of the earlier one. -/
def newEvents (w w2 : World) : List Event :=
  w2.trace.drop w.trace.length

/-- The shapes the events of the enqueues of the metadata continuation can take: each
enqueue is made only if the ones before it returned an id, and the two validation
enqueues only behind the gate. -/
def continuationEvents (d : DeferFn) (modCalls : List ID) (evs : List Event) : Prop :=
  (∃ err, evs = [Event.enqueue (preloadJob d.dir d.ignoreState) (.error err)])
  ∨ (∃ e err, evs = [Event.enqueue (preloadJob d.dir d.ignoreState) (.ok e),
      Event.enqueue (refTargetsJob d.dir d.ignoreState modCalls e) (.error err)])
  ∨ (∃ e t err, evs = [Event.enqueue (preloadJob d.dir d.ignoreState) (.ok e),
      Event.enqueue (refTargetsJob d.dir d.ignoreState modCalls e) (.ok t),
      Event.enqueue (refOriginsJob d.dir d.ignoreState modCalls e) (.error err)])
  ∨ (∃ e t o, (d.isFirstLevel && d.validationOptions.EnableEnhancedValidation) = false
      ∧ evs = [Event.enqueue (preloadJob d.dir d.ignoreState) (.ok e),
        Event.enqueue (refTargetsJob d.dir d.ignoreState modCalls e) (.ok t),
        Event.enqueue (refOriginsJob d.dir d.ignoreState modCalls e) (.ok o)])
  ∨ (∃ e t o err, (d.isFirstLevel && d.validationOptions.EnableEnhancedValidation) = true
      ∧ evs = [Event.enqueue (preloadJob d.dir d.ignoreState) (.ok e),
        Event.enqueue (refTargetsJob d.dir d.ignoreState modCalls e) (.ok t),
        Event.enqueue (refOriginsJob d.dir d.ignoreState modCalls e) (.ok o),
        Event.enqueue (schemaValidationJob d.dir d.ignoreState modCalls e) (.error err)])
  ∨ (∃ e t o sv r, (d.isFirstLevel && d.validationOptions.EnableEnhancedValidation) = true
      ∧ evs = [Event.enqueue (preloadJob d.dir d.ignoreState) (.ok e),
        Event.enqueue (refTargetsJob d.dir d.ignoreState modCalls e) (.ok t),
        Event.enqueue (refOriginsJob d.dir d.ignoreState modCalls e) (.ok o),
        Event.enqueue (schemaValidationJob d.dir d.ignoreState modCalls e) (.ok sv),
        Event.enqueue (referenceValidationJob d.dir d.ignoreState o t) r])

/-- A module record for "/a" that declares one call of the local module "sub". -/
def callerModule : ModuleRecord :=
  { newModule "/a" with Meta := ⟨[], [], [⟨"sub", .LocalSourceAddr "sub"⟩]⟩ }

/-- A world holding only the record of the calling module "/a". -/
def callerWorld : World := ⟨[callerModule], [], []⟩

/-- The continuation of the metadata job of the first-level module "/a", with enhanced
validation enabled. -/
def sampleDefer : DeferFn := ⟨⟨"/a"⟩, false, true, ⟨true⟩⟩

/-- The kinds of the jobs passed to `EnqueueJob` in a list of events, in order. -/
def enqueuedTypes (evs : List Event) : List String :=
  evs.filterMap (fun e =>
    match e with
    | .enqueue j _ => some j.JobType
    | .store _ => none)

/-- The kinds of the jobs whose enqueue returned an id, in order. -/
def okTypes (evs : List Event) : List String :=
  evs.filterMap (fun e =>
    match e with
    | .enqueue j (.ok _) => some j.JobType
    | _ => none)

/-- The kinds of the jobs whose enqueue returned an error, in order. -/
def failedTypes (evs : List Event) : List String :=
  evs.filterMap (fun e =>
    match e with
    | .enqueue j (.error _) => some j.JobType
    | _ => none)

/-- The world of the calling module "/a" in which the called module "/a/sub" already
has a record. -/
def calledWorld : World := ⟨[callerModule, newModule "/a/sub"], [], []⟩

/-- The module call declared by the sample calling module. -/
def sampleCall : DeclaredModuleCall := ⟨"sub", .LocalSourceAddr "sub"⟩

/-- A collaborator set in which the database fails every insert. -/
def Env.faulty : Env :=
  { Env.quiet with
    storeFault := fun _ c =>
      match c with
      | .Add _ => some "insert failed"
      | _ => none }

/-! ## Running continuations -/

/-- The jobs whose enqueue returned an id, in the order of their events. -/
def enqueuedJobs (evs : List Event) : List Job :=
  evs.filterMap (fun e =>
    match e with
    | .enqueue j (.ok _) => some j
    | _ => none)

/-- Modelled from the spec: the scheduler is not under src: "after the body returns
(success or failure), the deferred continuation, if any, is invoked with the body's
error".  Runs the body of one job and then its continuation; `next` runs the jobs that
the continuation enqueued (those "appended to the waitset"). -/
def runJob (env : Env) (ctx : Context) (next : World → List Job → Option World)
    (w : World) (j : Job) : Option World :=
  match j.Defer with
  | none => some (env.runBody w j).1
  | some d =>
    next (metadataDefer env d ctx (env.runBody w j).1 (env.runBody w j).2).1
      (enqueuedJobs (newEvents (env.runBody w j).1
        (metadataDefer env d ctx (env.runBody w j).1 (env.runBody w j).2).1))

/-- Modelled from the spec: the scheduler running a list of jobs one after the other. -/
def runJobs (env : Env) (ctx : Context) (next : World → List Job → Option World) :
    World → List Job → Option World
  | w, [] => some w
  | w, j :: js =>
    match runJob env ctx next w j with
    | none => none
    | some w1 => runJobs env ctx next w1 js

/-- Modelled from the spec: running jobs, their continuations, the jobs those enqueue,
and so on, until nothing is left to run; `none` when the nesting of continuations is
deeper than the fuel. -/
def settle (env : Env) (ctx : Context) : Nat → World → List Job → Option World
  | 0 => fun _ _ => none
  | fuel + 1 => runJobs env ctx (settle env ctx fuel)

/-- How deep the continuations under a job can nest: none without a continuation, one
level under a continuation that is not first level, two under a first-level one. -/
def jobLevel (j : Job) : Nat :=
  match j.Defer with
  | none => 0
  | some d => if d.isFirstLevel then 2 else 1

/-- A collaborator set in which every module call resolves to the directory of the
calling module itself, so that the module-call graph is a cycle. -/
def Env.cyclic : Env :=
  { Env.quiet with joinFromSlash := fun a _ => a }

/-- An event that is not the enqueue of a job nesting deeper than `n`. -/
def lowEvent (n : Nat) (e : Event) : Prop :=
  ∀ j r, e = Event.enqueue j r → jobLevel j ≤ n

/-- The later world has the trace of the earlier one followed by events that all
satisfy `Q`. -/
def Grows (Q : Event → Prop) (w w2 : World) : Prop :=
  ∃ evs, w2.trace = w.trace ++ evs ∧ ∀ e ∈ evs, Q e

/-- An event that is the enqueue of a job without a continuation. -/
def plainEnqueue (e : Event) : Prop :=
  ∃ j r, e = Event.enqueue j r ∧ j.Defer = none

/-- The world of a deleted directory: "/a" still has a record, nothing is on disk any
more. -/
def Env.deleted : Env :=
  { Env.quiet with stat := fun _ => .error (.Failure "no such file or directory") }

/-! ## Tool errors -/

/-- The function `IsTofuNotFound` of `tofu/module/errors.go`: a type assertion on the
error value itself, which does not look into wrapped errors. -/
def IsTofuNotFound : Option Error → Bool
  | none => false
  | some .NoTofuExecPathErr => true
  | some _ => false

/-- The function `EnrichTfExecError` of `langserver/errors/errors.go`. -/
def EnrichTfExecError (err : Option Error) : Option Error :=
  if IsTofuNotFound err then
    some (.Failure ("Tofu (CLI) is required. "
      ++ "Please install Tofu or make it available in $PATH"))
  else
    err

/-! ## The registry client -/

/-- A module address as the client uses it: the three parts of `addr.Package`. -/
structure ModuleAddr where
  Namespace : String
  Name : String
  TargetSystem : String
  deriving DecidableEq, Repr

/-- A parsed version (`*version.Version` of the version library), as its segments. -/
abbrev Version := List Nat

/-- An HTTP response as the client reads it: the status code, the body, and the error of
reading the body to its end, if any. -/
structure HttpResponse where
  StatusCode : Nat
  Body : String
  readErr : Option Error
  deriving DecidableEq, Repr

/-- The decoded module data (`ModuleResponse`), with the names of its inputs, outputs
and submodules. -/
structure ModuleResponse where
  Version : String
  Inputs : List String
  Outputs : List String
  Submodules : List String
  deriving DecidableEq, Repr

/-- The registry client and the libraries it calls. -/
structure Client where
  BaseAPIURL : String
  /-- The error of `http.NewRequestWithContext` for a URL, if any. -/
  NewRequest : String → Option Error
  /-- The call `c.httpClient.Do(req)`, by the URL of the request. -/
  Do : String → Except Error HttpResponse
  /-- Decoding the body as `ModuleVersionsResponse`: the version string of each entry. -/
  decodeVersions : HttpResponse → Except Error (List String)
  /-- Decoding the body as `ModuleResponse`. -/
  decodeModuleData : HttpResponse → Except Error ModuleResponse
  /-- The call `version.NewVersion`, `none` when it returns an error. -/
  NewVersion : String → Option Version
  /-- The call `sort.Sort(sort.Reverse(foundVersions))`. -/
  sortReverse : List Version → List Version
  /-- The call `con.Check(fv)`, the constraints being given as their text. -/
  Check : String → Version → Bool
  /-- The call `v.String()`. -/
  versionString : Version → String

/-- The URL that `GetModuleVersions` requests. -/
def Client.versionsURL (c : Client) (addr : ModuleAddr) : String :=
  c.BaseAPIURL ++ "/registry/docs/modules/" ++ addr.Namespace ++ "/" ++ addr.Name
    ++ "/" ++ addr.TargetSystem ++ "/index.json"

/-- The URL that `GetModuleData` requests for a version. -/
def Client.moduleDataURL (c : Client) (addr : ModuleAddr) (v : Version) : String :=
  c.BaseAPIURL ++ "/registry/docs/modules/" ++ addr.Namespace ++ "/" ++ addr.Name
    ++ "/" ++ addr.TargetSystem ++ "/v" ++ c.versionString v ++ "/index.json"

/-- The method `Client.GetModuleVersions` of `registry/module.go`. -/
def Client.GetModuleVersions (c : Client) (addr : ModuleAddr) : Except Error (List Version) :=
  let url := c.versionsURL addr
  match c.NewRequest url with
  | some err => .error err
  | none =>
    match c.Do url with
    | .error err => .error err
    | .ok resp =>
      if resp.StatusCode != 200 then
        match resp.readErr with
        | some err => .error err
        | none => .error (.ClientError resp.StatusCode resp.Body)
      else
        match c.decodeVersions resp with
        | .error err => .error err
        | .ok entries => .ok (c.sortReverse (entries.filterMap c.NewVersion))

/-- The loop of `GetMatchingModuleVersion` over the versions found. -/
def firstMatching (c : Client) (con : String) : List Version → Option Version
  | [] => none
  | fv :: rest => if c.Check con fv then some fv else firstMatching c con rest

/-- The method `Client.GetMatchingModuleVersion` of `registry/module.go`. -/
def Client.GetMatchingModuleVersion (c : Client) (addr : ModuleAddr) (con : String) :
    Except Error Version :=
  match c.GetModuleVersions addr with
  | .error err => .error err
  | .ok foundVersions =>
    match firstMatching c con foundVersions with
    | some fv => .ok fv
    | none =>
      .error (.Failure ("no suitable version found for " ++ addr.Namespace ++ "/"
        ++ addr.Name ++ "/" ++ addr.TargetSystem ++ " " ++ con))

/-- The method `Client.GetModuleData` of `registry/module.go`. -/
def Client.GetModuleData (c : Client) (addr : ModuleAddr) (cons : String) :
    Except Error ModuleResponse :=
  match c.GetMatchingModuleVersion addr cons with
  | .error err => .error err
  | .ok v =>
    let url := c.moduleDataURL addr v
    match c.NewRequest url with
    | some err => .error err
    | none =>
      match c.Do url with
      | .error err => .error err
      | .ok resp =>
        if resp.StatusCode != 200 then
          match resp.readErr with
          | some err => .error err
          | none => .error (.ClientError resp.StatusCode resp.Body)
        else
          match c.decodeModuleData resp with
          | .error err => .error err
          | .ok response => .ok response

/-- Whether an HTTP status code is a 2xx code. -/
def is2xx (status : Nat) : Bool := 200 ≤ status && status < 300

/-- A registry that answers the versions request for the sample module with the first
response and every other request with the second; the body of a 200 response to the
versions request lists "1.0.0", an entry that is no version, and "1.2.0". -/
def sampleClient (versionsResp dataResp : HttpResponse) : Client :=
  { BaseAPIURL := "https://registry.example"
    NewRequest := fun _ => none
    Do := fun url =>
      if url == "https://registry.example/registry/docs/modules/acme/net/aws/index.json" then
        .ok versionsResp
      else
        .ok dataResp
    decodeVersions := fun _ => .ok ["1.0.0", "bad", "1.2.0"]
    decodeModuleData := fun _ => .ok ⟨"1.2.0", ["name"], ["id"], []⟩
    NewVersion := fun s =>
      if s == "1.0.0" then some [1, 0, 0] else if s == "1.2.0" then some [1, 2, 0] else none
    sortReverse := fun vs => vs.reverse
    Check := fun _ _ => true
    versionString := fun _ => "1.2.0" }

/-- The address of the sample module. -/
def sampleAddr : ModuleAddr := ⟨"acme", "net", "aws"⟩

/-! ## The language server session: commands and document links -/

/-- Modelled from the spec: the type `cmd.Name` of package `langserver/cmd`, which is not
under src: the name of a workspace command before it is made "subject to prefix";
`cmd.Name("x")` in the source is `cmd.Name.mk "x"` here. -/
structure cmd.Name where
  text : String
  deriving DecidableEq, Repr

/-- The handler functions that `cmdHandlers` registers: the closure made by
`removedHandler`, and the six methods of `command.CmdHandler`. -/
inductive CmdHandlerFn
  | removedHandler (errorMessage : String)
  | ModuleCallersHandler
  | TofuInitHandler
  | TofuValidateHandler
  | ModuleCallsHandler
  | ModuleProvidersHandler
  | TofuVersionRequestHandler
  deriving DecidableEq, Repr

/-- The two directory walkers of the service. -/
inductive WalkerKind
  | closedDirWalker
  | openDirWalker
  deriving DecidableEq, Repr

/-- The `window/showMessage` warnings that `Initialize` and `setupWalker` send. -/
inductive ShowMessage
  | unknownOptions (unusedKeys : List String)
  | workspaceFoldersUnsupported
  | singleFileWarning
  | legacyModulePaths (paths : List String)
  | legacyExcludeModulePaths (paths : List String)
  | legacyIgnoreDirectoryNames (names : List String)
  | unableToIgnorePath (rawPath : String) (err : Error)
  | invalidWorkspaceFolder (uri : String)
  | ignoredWorkspaceFolder (uri : String) (err : Error)
  deriving DecidableEq, Repr

/-- A document handle (`document.Handle`): the directory and the file name. -/
structure DocHandle where
  Dir : DirHandle
  Filename : String
  deriving DecidableEq, Repr

/-- A document record as the handlers read it. -/
structure Document where
  Dir : DirHandle
  Filename : String
  LanguageID : String
  Version : Nat
  Text : String
  deriving DecidableEq, Repr

/-- One observable step of a handler of the service. -/
inductive SvcEvent
  /-- A `window/showMessage` notification to the client. -/
  | notify (m : ShowMessage)
  /-- A call of `WalkerPaths.EnqueueDir`. -/
  | enqueueDir (dir : DirHandle)
  /-- A call of `SetIgnoredDirectoryNames` on a walker. -/
  | setIgnoredDirectoryNames (k : WalkerKind) (names : List String)
  /-- A call of `SetIgnoredPaths` on a walker. -/
  | setIgnoredPaths (k : WalkerKind) (paths : List String)
  /-- A call of `StartWalking` on a walker. -/
  | startWalking (k : WalkerKind)
  /-- A call of one of the six methods of `command.CmdHandler`. -/
  | invoke (h : CmdHandlerFn) (args : List String)
  /-- A call of `DocumentStore.GetDocument`. -/
  | getDocument (dh : DocHandle)
  /-- A call of `JobStore.ListIncompleteJobsForDir`. -/
  | listIncompleteJobsForDir (dir : DirHandle)
  /-- A call of `JobStore.WaitForJobs`. -/
  | waitForJobs (ids : List ID)
  /-- A call of `svc.decoderForDocument`. -/
  | decoderForDocument (doc : Document)
  /-- A call of `d.LinksInFile`. -/
  | linksInFile (filename : String)
  /-- A call of `lsctx.SetCommandPrefix`. -/
  | setCommandPrefix (commandPrefix : String)
  /-- A call of `lsctx.SetExperimentalFeatures`. -/
  | setExperimentalFeatures
  /-- A call of `lsctx.SetValidationOptions`. -/
  | setValidationOptions (o : ValidationOptions)
  deriving DecidableEq, Repr

/-- The part of the service that the embedded handlers read or write, and the steps
they have made so far. -/
structure Service where
  singleFileMode : Bool
  events : List SvcEvent
  deriving DecidableEq, Repr

/-- Appends a step to the steps of the service. -/
def Service.log (svc : Service) (e : SvcEvent) : Service :=
  { svc with events := svc.events ++ [e] }

/-- The settings of the session (`settings.Options`), as far as `Initialize` reads them. -/
structure Options where
  CommandPrefix : String
  Validation : ValidationOptions
  IgnoreSingleFileWarning : Bool
  IgnorePaths : List String
  IgnoreDirectoryNames : List String
  XLegacyModulePaths : List String
  XLegacyExcludeModulePaths : List String
  XLegacyIgnoreDirectoryNames : List String
  deriving DecidableEq, Repr

/-- The result of `settings.DecodeOptions`. -/
structure DecodedOptions where
  Options : Options
  UnusedKeys : List String
  deriving DecidableEq, Repr

/-- The client capabilities, as far as the embedded handlers read them. -/
structure ClientCapabilities where
  ShowReferencesCommandId : Bool
  RefreshModuleProvidersCommandId : Bool
  RefreshModuleCallsCommandId : Bool
  RefreshTerraformVersionCommandId : Bool
  WorkspaceFolders : Bool
  TokenTypes : List String
  TokenModifiers : List String
  DocumentLinkTooltip : Bool
  deriving DecidableEq, Repr

/-- The parameters of the initialize request, as far as `Initialize` reads them. -/
structure InitializeParams where
  InitializationOptions : String
  Capabilities : ClientCapabilities
  ClientInfoName : String
  WorkspaceFolders : List String
  RootURI : String
  deriving DecidableEq, Repr

/-- The parts of the initialize result that `Initialize` computes; the capability
fields that `initializeResult` sets to constants are not listed. -/
structure InitializeResult where
  ServerInfoName : String
  ServerInfoVersion : String
  ReferenceCountCodeLens : Bool
  RefreshModuleProviders : Bool
  RefreshModuleCalls : Bool
  RefreshTerraformVersion : Bool
  TokenTypes : List String
  TokenModifiers : List String
  SemanticTokensFull : Bool
  ExecuteCommands : List String
  deriving DecidableEq, Repr

/-- Collaborators of the handlers of the service that are not under src. -/
structure SvcEnv where
  /-- The call `lsctx.CommandPrefix(ctx)`. -/
  CommandPrefix : Context → String × Bool
  /-- How a command name reads under a prefix (package `langserver/cmd`). -/
  commandName : String → cmd.Name → String
  /-- The call `cmd.ParseCommandArgs`. -/
  ParseCommandArgs : List String → List String
  /-- One of the six methods of `command.CmdHandler`: its result and its error. -/
  runHandler : CmdHandlerFn → Context → List String → Option String × Option Error
  /-- The call `ilsp.ClientCapabilities(ctx)`. -/
  ClientCapabilitiesOf : Context → Except Error ClientCapabilities
  /-- The call `ilsp.HandleFromDocumentURI`. -/
  HandleFromDocumentURI : String → DocHandle
  /-- The call `DocumentStore.GetDocument`. -/
  GetDocument : Service → DocHandle → Except Error Document
  /-- The call `JobStore.ListIncompleteJobsForDir`. -/
  ListIncompleteJobsForDir : Service → DirHandle → Except Error (List ID)
  /-- The error of `svc.decoderForDocument`, if any. -/
  decoderForDocument : Service → Document → Option Error
  /-- The call `d.LinksInFile`. -/
  LinksInFile : Service → Document → String → Except Error (List String)
  /-- The call `ilsp.Links`. -/
  Links : List String → Bool → List String
  /-- The call `settings.DecodeOptions`. -/
  DecodeOptions : String → Except Error DecodedOptions
  /-- The error of `Options.Validate`, if any. -/
  Validate : Options → Option Error
  /-- The error of `ilsp.SetClientName`, if any. -/
  SetClientName : Context → String → Option Error
  /-- The error of `ilsp.SetClientCapabilities`, if any. -/
  SetClientCapabilities : Context → ClientCapabilities → Option Error
  /-- The error of `svc.configureSessionDependencies`, if any. -/
  configureSessionDependencies : Service → Options → Option Error
  /-- The call `lsctx.LanguageServerVersion(ctx)`. -/
  LanguageServerVersion : Context → String × Bool
  /-- The call `ilsp.TokenTypesLegend(types).AsStrings()`. -/
  TokenTypesLegend : List String → List String
  /-- The call `ilsp.TokenModifiersLegend(modifiers).AsStrings()`. -/
  TokenModifiersLegend : List String → List String
  /-- The call `caps.FullRequest()`. -/
  FullRequest : ClientCapabilities → Bool
  /-- The call `uri.IsWSLURI`. -/
  IsWSLURI : String → Bool
  /-- The call `uri.IsURIValid`. -/
  IsURIValid : String → Bool
  /-- The call `document.DirHandleFromURI`. -/
  DirHandleFromURI : String → DirHandle
  /-- The error of `lsctx.SetRootDirectory`, if any. -/
  SetRootDirectory : Context → String → Option Error
  /-- The call `homedir.Expand`. -/
  Expand : String → Except Error String
  /-- The call `filepath.IsAbs`. -/
  IsAbs : String → Bool
  /-- The call `filepath.Join` of two paths. -/
  Join : String → String → String
  /-- The call `filepath.Abs`. -/
  Abs : String → String × Option Error
  /-- The call `filepath.VolumeName`. -/
  VolumeName : String → String
  /-- The call `strings.ToLower`. -/
  ToLower : String → String
  /-- The error of `WalkerPaths.EnqueueDir`, if any. -/
  EnqueueDir : Service → DirHandle → Option Error
  /-- The error of `StartWalking(walkerCtx)` on a walker, if any. -/
  StartWalking : Context → Service → WalkerKind → Option Error
  /-- The text of the `%q` verb for a string. -/
  Quote : String → String
  /-- The text of the `%q` verb for a list of strings. -/
  QuoteList : List String → String
  /-- The call `lsctx.WithProgressToken`. -/
  WithProgressToken : Context → String → Context
  /-- The call `lsctx.WithDocumentContext(context.Background(), lsctx.DocumentContext(ctx))`:
  the context given to the walkers. -/
  walkerContext : Context → Context

/-- The function `removedHandler` of `langserver/handlers/execute_command.go`, applied
to a context and arguments: the result and the error of the handler it returns. -/
def removedHandler (errorMessage : String) (_ctx : Context) (_args : List String) :
    Option String × Option Error :=
  (none, some (.JrpcError .MethodNotFound ("REMOVED: " ++ errorMessage) none))

/-- The function `cmdHandlers` of `langserver/handlers/execute_command.go`: the map
literal it returns, in the order of the source. -/
def cmdHandlers (_svc : Service) : List (cmd.Name × CmdHandlerFn) :=
  [(cmd.Name.mk "rootmodules", .removedHandler "use module.callers instead"),
    (cmd.Name.mk "module.callers", .ModuleCallersHandler),
    (cmd.Name.mk "tofu.init", .TofuInitHandler),
    (cmd.Name.mk "tofu.validate", .TofuValidateHandler),
    (cmd.Name.mk "module.calls", .ModuleCallsHandler),
    (cmd.Name.mk "module.providers", .ModuleProvidersHandler),
    (cmd.Name.mk "module.opentofu", .TofuVersionRequestHandler)]

/-- Modelled from the spec: `cmd.Handlers.Names` is not under src: the registered names,
each "subject to prefix". -/
def Handlers.Names (env : SvcEnv) (hs : List (cmd.Name × CmdHandlerFn))
    (commandPrefix : String) : List String :=
  hs.map (fun h => env.commandName commandPrefix h.1)

/-- Modelled from the spec: `cmd.Handlers.Get` is not under src: the handler registered
under the command name, the registered names being "subject to prefix". -/
def Handlers.Get (env : SvcEnv) (hs : List (cmd.Name × CmdHandlerFn)) (name : String)
    (commandPrefix : String) : Option CmdHandlerFn :=
  (hs.find? (fun h => env.commandName commandPrefix h.1 == name)).map (fun h => h.2)

/-- Calling a registered handler: the closure of `removedHandler` runs its own body,
a method of `command.CmdHandler` is a recorded step of the service. -/
def callHandler (env : SvcEnv) (svc : Service) (h : CmdHandlerFn) (ctx : Context)
    (args : List String) : Service × Option String × Option Error :=
  match h with
  | .removedHandler errorMessage => (svc, removedHandler errorMessage ctx args)
  | other => (svc.log (.invoke other args), env.runHandler other ctx args)

/-- The method `service.WorkspaceExecuteCommand` of
`langserver/handlers/execute_command.go`. -/
def WorkspaceExecuteCommand (env : SvcEnv) (ctx : Context) (svc : Service)
    (command : String) (arguments : List String) (workDoneToken : String) :
    Service × Option String × Option Error :=
  if command == "editor.action.triggerSuggest" then
    (svc, none, none)
  else
    let commandPrefix := (env.CommandPrefix ctx).1
    match Handlers.Get env (cmdHandlers svc) command commandPrefix with
    | none =>
      (svc, none, some (.WrapThen (.CodeErr .MethodNotFound)
        (": command handler not found for " ++ env.Quote command)))
    | some handler =>
      callHandler env svc handler (env.WithProgressToken ctx workDoneToken)
        (env.ParseCommandArgs arguments)

/-- Whether some error of the chain is the given one (`errors.Is`). -/
def errorsIs (target : Error) : Error → Bool
  | .Wrap m e => (Error.Wrap m e == target) || errorsIs target e
  | .WrapThen e m => (Error.WrapThen e m == target) || errorsIs target e
  | e => e == target

/-- Modelled from the spec: the language id constant `ilsp.OpenTofu` is not under src;
the handler tests send it as "opentofu". -/
def OpenTofuLanguageID : String := "opentofu"

/-- The method `service.TextDocumentLink` of `langserver/handlers/document_link.go`. -/
def TextDocumentLink (env : SvcEnv) (ctx : Context) (svc : Service) (uri : String) :
    Service × Option (List String) × Option Error :=
  match env.ClientCapabilitiesOf ctx with
  | .error err => (svc, none, some err)
  | .ok cc =>
    let dh := env.HandleFromDocumentURI uri
    let svc1 := svc.log (.getDocument dh)
    match env.GetDocument svc dh with
    | .error err => (svc1, none, some err)
    | .ok doc =>
      if doc.LanguageID != OpenTofuLanguageID then
        (svc1, none, none)
      else
        let svc2 := svc1.log (.listIncompleteJobsForDir dh.Dir)
        match env.ListIncompleteJobsForDir svc1 dh.Dir with
        | .error err => (svc2, none, some err)
        | .ok jobIds =>
          let svc3 := svc2.log (.waitForJobs jobIds)
          let svc4 := svc3.log (.decoderForDocument doc)
          match env.decoderForDocument svc3 doc with
          | some err => (svc4, none, some err)
          | none =>
            let svc5 := svc4.log (.linksInFile doc.Filename)
            match env.LinksInFile svc4 doc doc.Filename with
            | .error err => (svc5, none, some err)
            | .ok links => (svc5, some (env.Links links cc.DocumentLinkTooltip), none)

/-! ## The language server session: initialize -/

/-- The text of a `window/showMessage` warning. -/
def ShowMessage.Message (env : SvcEnv) : ShowMessage → String
  | .unknownOptions keys => "Unknown configuration options: " ++ env.QuoteList keys
  | .workspaceFoldersUnsupported =>
    "Client sent workspace folders despite not declaring support. "
      ++ "Please report this as a bug."
  | .singleFileWarning =>
    "Some capabilities may be reduced when editing a single file. We recommend opening a directory for full functionality. Use 'ignoreSingleFileWarning' to suppress this warning."
  | .legacyModulePaths paths =>
    "rootModulePaths (" ++ env.QuoteList paths ++ ") is deprecated (no-op), add a folder to "
      ++ "workspace instead if you'd like it to be indexed"
  | .legacyExcludeModulePaths paths =>
    "excludeModulePaths (" ++ env.QuoteList paths
      ++ ") is deprecated (no-op), use indexing.ignorePaths instead"
  | .legacyIgnoreDirectoryNames names =>
    "ignoreDirectoryNames (" ++ env.QuoteList names
      ++ ") is deprecated (no-op), use indexing.ignoreDirectoryNames instead"
  | .unableToIgnorePath rawPath err =>
    "Unable to ignore path (unsupported or invalid URI): " ++ rawPath ++ ": " ++ err.message
  | .invalidWorkspaceFolder uri =>
    "Ignoring workspace folder (unsupported or invalid URI) " ++ uri
      ++ ". This is most likely bug, please report it."
  | .ignoredWorkspaceFolder uri err =>
    "Ignoring workspace folder " ++ uri ++ ": " ++ err.message
      ++ ". This is most likely bug, please report it."

/-- The method `WithData` of a JSON-RPC error: a copy carrying the data. -/
def Error.WithData : Error → String → Error
  | .JrpcError code msg _, data => .JrpcError code msg (some data)
  | e, _ => e

/-- The function `toLowerVolumePath` of `langserver/handlers/initialize.go`. -/
def toLowerVolumePath (env : SvcEnv) (path : String) : String :=
  let volume := env.VolumeName path
  env.ToLower volume ++ String.mk (path.data.drop volume.length)

/-- The function `cleanupPath` of `langserver/handlers/initialize.go`. -/
def cleanupPath (env : SvcEnv) (path : String) : String × Option Error :=
  (toLowerVolumePath env (env.Abs path).1, (env.Abs path).2)

/-- The function `resolvePath` of `langserver/handlers/initialize.go`. -/
def resolvePath (env : SvcEnv) (rootDir rawPath : String) : String × Option Error :=
  match env.Expand rawPath with
  | .error err => ("", some err)
  | .ok path =>
    let path := if !env.IsAbs path then env.Join rootDir rawPath else path
    cleanupPath env path

/-- The loop of `setupWalker` over `options.Indexing.IgnorePaths`, from the service and
the ignored paths collected so far. -/
def resolveIgnoredPaths (env : SvcEnv) (rootPath : String) :
    List String → Service × List String → Service × List String
  | [], acc => acc
  | rawPath :: rest, acc =>
    match resolvePath env rootPath rawPath with
    | (_, some err) =>
      resolveIgnoredPaths env rootPath rest
        (acc.1.log (.notify (.unableToIgnorePath rawPath err)), acc.2)
    | (modPath, none) => resolveIgnoredPaths env rootPath rest (acc.1, acc.2 ++ [modPath])

/-- The loop of `setupWalker` over `params.WorkspaceFolders`. -/
def enqueueWorkspaceFolders (env : SvcEnv) : List String → Service → Service
  | [], svc => svc
  | folder :: rest, svc =>
    if !env.IsURIValid folder then
      enqueueWorkspaceFolders env rest (svc.log (.notify (.invalidWorkspaceFolder folder)))
    else
      let modPath := env.DirHandleFromURI folder
      let svc1 := svc.log (.enqueueDir modPath)
      match env.EnqueueDir svc modPath with
      | some err =>
        enqueueWorkspaceFolders env rest
          (svc1.log (.notify (.ignoredWorkspaceFolder folder err)))
      | none => enqueueWorkspaceFolders env rest svc1

/-- The method `service.setupWalker` of `langserver/handlers/initialize.go`. -/
def setupWalker (env : SvcEnv) (ctx : Context) (svc : Service) (params : InitializeParams)
    (options : Options) : Service × Option Error :=
  let root := env.DirHandleFromURI params.RootURI
  match env.SetRootDirectory ctx root.Path with
  | some err => (svc, some err)
  | none =>
    let svc1 :=
      if options.XLegacyModulePaths.length != 0 then
        svc.log (.notify (.legacyModulePaths options.XLegacyModulePaths))
      else svc
    let svc2 :=
      if options.XLegacyExcludeModulePaths.length != 0 then
        svc1.log (.notify (.legacyExcludeModulePaths options.XLegacyExcludeModulePaths))
      else svc1
    let svc3 :=
      if options.XLegacyIgnoreDirectoryNames.length != 0 then
        svc2.log (.notify (.legacyIgnoreDirectoryNames options.XLegacyIgnoreDirectoryNames))
      else svc2
    let resolved := resolveIgnoredPaths env root.Path options.IgnorePaths (svc3, [])
    let svc4 := resolved.1.log (.enqueueDir root)
    match env.EnqueueDir resolved.1 root with
    | some err => (svc4, some err)
    | none =>
      let svc5 := enqueueWorkspaceFolders env params.WorkspaceFolders svc4
      let svc6 := svc5.log (.setIgnoredDirectoryNames .closedDirWalker
        options.IgnoreDirectoryNames)
      let svc7 := svc6.log (.setIgnoredPaths .closedDirWalker resolved.2)
      let svc8 := svc7.log (.setIgnoredDirectoryNames .openDirWalker
        options.IgnoreDirectoryNames)
      (svc8.log (.setIgnoredPaths .openDirWalker resolved.2), none)

/-- The function `initializeResult` of `langserver/handlers/initialize.go`. -/
def initializeResult (env : SvcEnv) (ctx : Context) : InitializeResult :=
  { ServerInfoName := "tofu-ls"
    ServerInfoVersion :=
      if (env.LanguageServerVersion ctx).2 then (env.LanguageServerVersion ctx).1 else ""
    ReferenceCountCodeLens := false
    RefreshModuleProviders := false
    RefreshModuleCalls := false
    RefreshTerraformVersion := false
    TokenTypes := []
    TokenModifiers := []
    SemanticTokensFull := false
    ExecuteCommands := [] }

/-- The first part of `service.Initialize`, up to the root URI check: the service, the
result built so far, and either the error it returns with or the decoded options. -/
def initializeSetup (env : SvcEnv) (ctx : Context) (svc : Service)
    (params : InitializeParams) : Service × InitializeResult × Except Error DecodedOptions :=
  let serverCaps := initializeResult env ctx
  match env.DecodeOptions params.InitializationOptions with
  | .error err => (svc, serverCaps, .error err)
  | .ok out =>
    match env.Validate out.Options with
    | some err => (svc, serverCaps, .error err)
    | none =>
      let clientCaps := params.Capabilities
      match (if params.ClientInfoName != "" then env.SetClientName ctx params.ClientInfoName
          else none) with
      | some err => (svc, serverCaps, .error err)
      | none =>
        let serverCaps :=
          { serverCaps with
            ReferenceCountCodeLens := clientCaps.ShowReferencesCommandId
            RefreshModuleProviders := clientCaps.RefreshModuleProvidersCommandId
            RefreshModuleCalls := clientCaps.RefreshModuleCallsCommandId
            RefreshTerraformVersion := clientCaps.RefreshTerraformVersionCommandId }
        match env.SetClientCapabilities ctx clientCaps with
        | some err => (svc, serverCaps, .error err)
        | none =>
          match env.configureSessionDependencies svc out.Options with
          | some err => (svc, serverCaps, .error err)
          | none =>
            let serverCaps :=
              { serverCaps with
                TokenTypes := env.TokenTypesLegend clientCaps.TokenTypes
                TokenModifiers := env.TokenModifiersLegend clientCaps.TokenModifiers
                SemanticTokensFull := env.FullRequest clientCaps
                ExecuteCommands :=
                  Handlers.Names env (cmdHandlers svc) out.Options.CommandPrefix }
            let svc0 := ((svc.log (.setCommandPrefix out.Options.CommandPrefix)).log
              .setExperimentalFeatures).log (.setValidationOptions out.Options.Validation)
            let svc1 :=
              if out.UnusedKeys.length > 0 then
                svc0.log (.notify (.unknownOptions out.UnusedKeys))
              else svc0
            let svc2 :=
              if !clientCaps.WorkspaceFolders && params.WorkspaceFolders.length > 0 then
                svc1.log (.notify .workspaceFoldersUnsupported)
              else svc1
            (svc2, serverCaps, .ok out)

/-- The method `service.Initialize` of `langserver/handlers/initialize.go`. -/
def Initialize (env : SvcEnv) (ctx : Context) (svc : Service) (params : InitializeParams) :
    Service × InitializeResult × Option Error :=
  match initializeSetup env ctx svc params with
  | (svc0, serverCaps, .error err) => (svc0, serverCaps, some err)
  | (svc0, serverCaps, .ok out) =>
    let cfgOpts := out.Options
    let rooted : Service × Option Error :=
      if params.RootURI == "" then
        let svc1 := { svc0 with singleFileMode := true }
        if out.Options.IgnoreSingleFileWarning == false then
          (svc1.log (.notify .singleFileWarning), none)
        else
          (svc1, none)
      else
        let rootURI := params.RootURI
        let invalidUriErr := Error.JrpcError .InvalidParams
          ("Unsupported or invalid URI: " ++ env.Quote rootURI
            ++ " This is most likely client bug, please report it.") none
        if env.IsWSLURI rootURI then
          (svc0, some (invalidUriErr.WithData "INVALID_URI_WSL"))
        else if !env.IsURIValid rootURI then
          (svc0, some invalidUriErr)
        else
          setupWalker env ctx svc0 params cfgOpts
    match rooted with
    | (svc1, some err) => (svc1, serverCaps, some err)
    | (svc1, none) =>
      let walkerCtx := env.walkerContext ctx
      let svc2 := svc1.log (.startWalking .closedDirWalker)
      match env.StartWalking walkerCtx svc1 .closedDirWalker with
      | some err => (svc2, serverCaps, some (.Wrap "failed to start closedDirWalker: " err))
      | none =>
        let svc3 := svc2.log (.startWalking .openDirWalker)
        match env.StartWalking walkerCtx svc2 .openDirWalker with
        | some err => (svc3, serverCaps, some (.Wrap "failed to start openDirWalker: " err))
        | none => (svc3, serverCaps, none)

/-- The options of the sample session, with the single-file warning ignored or not. -/
def sampleOptions (ignoreWarning : Bool) : Options :=
  { CommandPrefix := ""
    Validation := ⟨false⟩
    IgnoreSingleFileWarning := ignoreWarning
    IgnorePaths := []
    IgnoreDirectoryNames := []
    XLegacyModulePaths := []
    XLegacyExcludeModulePaths := []
    XLegacyIgnoreDirectoryNames := [] }

/-- The capabilities of the sample client. -/
def sampleCaps : ClientCapabilities :=
  ⟨false, false, false, false, true, [], [], false⟩

/-- Collaborators of a sample session: the options text "quiet" asks to ignore the
single-file warning, the text "bad" does not decode; a URI is valid when it starts with
"file:///" and a WSL URI when it starts with "file://wsl"; the document behind every URI
is "/a/main.tf" in the OpenTofu language, with two incomplete jobs for its directory. -/
def SvcEnv.plain : SvcEnv :=
  { CommandPrefix := fun _ => ("", false)
    commandName := fun p n => if p == "" then n.text else p ++ "." ++ n.text
    ParseCommandArgs := fun args => args
    runHandler := fun _ _ _ => (some "done", none)
    ClientCapabilitiesOf := fun _ => .ok sampleCaps
    HandleFromDocumentURI := fun _ => ⟨⟨"/a"⟩, "main.tf"⟩
    GetDocument := fun _ dh => .ok ⟨dh.Dir, dh.Filename, "opentofu", 0, ""⟩
    ListIncompleteJobsForDir := fun _ _ => .ok ["j", "jj"]
    decoderForDocument := fun _ _ => none
    LinksInFile := fun _ _ _ => .ok ["https://registry.example/acme"]
    Links := fun links _ => links
    DecodeOptions := fun raw =>
      if raw == "bad" then .error (.Failure "invalid options")
      else .ok ⟨sampleOptions (raw == "quiet"), []⟩
    Validate := fun _ => none
    SetClientName := fun _ _ => none
    SetClientCapabilities := fun _ _ => none
    configureSessionDependencies := fun _ _ => none
    LanguageServerVersion := fun _ => ("0.1.0", true)
    TokenTypesLegend := fun ts => ts
    TokenModifiersLegend := fun ms => ms
    FullRequest := fun _ => false
    IsWSLURI := fun u => "file://wsl".data.isPrefixOf u.data
    IsURIValid := fun u => "file:///".data.isPrefixOf u.data
    DirHandleFromURI := fun u => ⟨u⟩
    SetRootDirectory := fun _ _ => none
    Expand := fun p => .ok p
    IsAbs := fun p => "/".data.isPrefixOf p.data
    Join := fun a b => a ++ "/" ++ b
    Abs := fun p => (p, none)
    VolumeName := fun _ => ""
    ToLower := fun v => v
    EnqueueDir := fun _ _ => none
    StartWalking := fun _ _ _ => none
    Quote := fun q => "\"" ++ q ++ "\""
    QuoteList := fun qs => "[" ++ String.intercalate " " qs ++ "]"
    WithProgressToken := fun ctx _ => ctx
    walkerContext := fun ctx => ctx }

/-- A service that has made no step yet. -/
def Service.fresh : Service := ⟨false, []⟩

/-- The initialize request of the sample client for a root URI and options text. -/
def sampleParams (rootURI options : String) : InitializeParams :=
  ⟨options, sampleCaps, "editor", [], rootURI⟩

/-- The steps that the first part of `Initialize` can make: the three setters on the
request context and its two warnings. -/
def setupStep : SvcEvent → Bool
  | .setCommandPrefix _ => true
  | .setExperimentalFeatures => true
  | .setValidationOptions _ => true
  | .notify (.unknownOptions _) => true
  | .notify .workspaceFoldersUnsupported => true
  | _ => false

/-- The steps that enqueue a walker path or start a walker. -/
def walkerStep : SvcEvent → Bool
  | .enqueueDir _ => true
  | .startWalking _ => true
  | _ => false

/-- The later service has the steps of the earlier one followed by steps that all
satisfy `Q`. -/
def SvcGrows (Q : SvcEvent → Prop) (svc svc2 : Service) : Prop :=
  ∃ evs, svc2.events = svc.events ++ evs ∧ ∀ e ∈ evs, Q e

/-- A collaborator set in which every directory has open documents. -/
def Env.opened : Env :=
  { Env.quiet with HasOpenDocuments := fun _ _ => (true, none) }

/-- A collaborator set in which every directory has open documents and the job store
refuses every job. -/
def Env.refusing : Env :=
  { Env.opened with enqueue := fun _ _ _ => .error (.Failure "job store closed") }

/-! ## Provider ids -/

/-- A row of the provider ids table (`ProviderIds` of `state/provider_ids.go`); the
provider address is kept as its text. -/
structure ProviderIds where
  Address : String
  ID : String
  deriving DecidableEq, Repr

/-- The part of `ProviderSchemaStore` that `GetProviderID` reads and writes: the
committed rows of the provider ids table. -/
structure ProviderSchemaStore where
  providerIds : List ProviderIds
  deriving DecidableEq, Repr

/-- What the database and the id generator decide for `GetProviderID`. -/
structure DbEnv where
  /-- The error of `txn.First`, if any. -/
  firstErr : ProviderSchemaStore → String → Option Error
  /-- The call `uuid.GenerateUUID()`. -/
  GenerateUUID : ProviderSchemaStore → Except Error String
  /-- The error of `txn.Insert`, if any. -/
  insertErr : ProviderSchemaStore → ProviderIds → Option Error

/-- The lookup `txn.First(providerIdsTableName, "id", addr)` in the rows the transaction
sees: the first row under the address, or nil. -/
def txnFirst (rows : List ProviderIds) (addr : String) : Option ProviderIds :=
  rows.find? (fun row => row.Address == addr)

/-- The write `txn.Insert(providerIdsTableName, row)` on the rows the transaction sees:
the table is keyed by the address, so a row under the same address is replaced and a
row under a new address is added. -/
def txnInsert (rows : List ProviderIds) (row : ProviderIds) : List ProviderIds :=
  if rows.any (fun r => r.Address == row.Address) then
    rows.map (fun r => if r.Address == row.Address then row else r)
  else
    rows ++ [row]

/-- The method `ProviderSchemaStore.GetProviderID` of `state/provider_ids.go`: the store
after the call and what the call returns.  The write transaction works on its own view
of the rows; only `txn.Commit()` puts that view in the store, and the deferred
`txn.Abort()` drops it on every other return. -/
def GetProviderID (env : DbEnv) (s : ProviderSchemaStore) (addr : String) :
    ProviderSchemaStore × Except Error String :=
  let txn := s.providerIds
  match env.firstErr s addr with
  | some err => (s, .error err)
  | none =>
    match txnFirst txn addr with
    | some obj => (s, .ok obj.ID)
    | none =>
      match env.GenerateUUID s with
      | .error err => (s, .error err)
      | .ok newId =>
        match env.insertErr s ⟨addr, newId⟩ with
        | some err => (s, .error err)
        | none => ({ s with providerIds := txnInsert txn ⟨addr, newId⟩ }, .ok newId)

/-- The store after a sequence of `GetProviderID` calls, whatever they returned. -/
def GetProviderIDs (env : DbEnv) (s : ProviderSchemaStore) (addrs : List String) :
    ProviderSchemaStore :=
  addrs.foldl (fun st a => (GetProviderID env st a).1) s

/-- A database without faults whose id generator numbers the rows. -/
def DbEnv.plain : DbEnv :=
  { firstErr := fun _ _ => none
    GenerateUUID := fun s => .ok (String.mk (List.replicate (s.providerIds.length + 1) 'u'))
    insertErr := fun _ _ => none }

/-- A database whose id generator fails. -/
def DbEnv.noEntropy : DbEnv :=
  { DbEnv.plain with GenerateUUID := fun _ => .error (.Failure "failed to read random bytes") }

/-- A database that refuses every insert. -/
def DbEnv.readOnly : DbEnv :=
  { DbEnv.plain with insertErr := fun _ _ => some (.Failure "insert failed") }

/-- A module record for "/a" with schema-validation diagnostics for two files, the
stage being Unknown again. -/
def diagnosedModule : ModuleRecord :=
  { newModule "/a" with
    ModuleDiagnostics :=
      [(.SchemaValidationSource,
        [("main.tf", ["missing required argument"]), ("variables.tf", ["unknown type"])])] }

/-- A world holding only the record of the diagnosed module "/a". -/
def diagnosedWorld : World := ⟨[diagnosedModule], [], []⟩

/-- A collaborator set in which validating one file finds one problem. -/
def Env.validating : Env :=
  { Env.quiet with ValidateFile := fun _ _ _ => (["unsupported block"], none) }

/-- The request context of a change of the document "main.tf" of the sample module. -/
def didChangeCtx : Context :=
  [CtxValue.document ⟨"textDocument/didChange", "opentofu", "main.tf"⟩]

/-- The sample registry with a constraint check that tells versions apart: the text
"< 1.2.0" admits the versions below 1.2.0, the text ">= 2.0.0" those from 2.0.0 on, and
any other text admits every version. -/
def constrainedClient : Client :=
  { sampleClient ⟨200, "", none⟩ ⟨200, "", none⟩ with
    Check := fun con v =>
      if con == "< 1.2.0" then decide (v < [1, 2, 0])
      else if con == ">= 2.0.0" then decide (¬ v < [2, 0, 0])
      else true }

/-- The metadata that `LoadModuleMetadata` passes to `UpdateMetadata` for a record: what
the early decoder computes from the parsed files, the two provider maps copied. -/
def loadedMeta (env : Env) (mod : ModuleRecord) : ModuleMeta :=
  { (env.LoadModule mod.path mod.ParsedModuleFiles).1 with
    ProviderRequirements :=
      copyMap (env.LoadModule mod.path mod.ParsedModuleFiles).1.ProviderRequirements
    ProviderReferences :=
      copyMap (env.LoadModule mod.path mod.ParsedModuleFiles).1.ProviderReferences }

/-- The error `mErr` that `LoadModuleMetadata` passes to `UpdateMetadata` for a record:
the diagnostics of the early decoder when there are any. -/
def loadedErr (env : Env) (mod : ModuleRecord) : Option Error :=
  if (env.LoadModule mod.path mod.ParsedModuleFiles).2.length > 0 then
    some (.Diagnostics (env.LoadModule mod.path mod.ParsedModuleFiles).2)
  else none

/-! ## Properties -/

/-- A record lookup only appends its call to the trace. -/
theorem ModuleRecordByPath_world (env : Env) (w : World) (path : String) :
    (ModuleStore.ModuleRecordByPath env w path).1 = logCall w (.ModuleRecordByPath path) := by
  unfold ModuleStore.ModuleRecordByPath
  cases env.storeFault w (.ModuleRecordByPath path) with
  | some msg => rfl
  | none =>
    cases w.modules.find? (fun m => m.path == path) with
    | none => rfl
    | some m => rfl

/-- A root record lookup only appends its call to the trace. -/
theorem RootRecordByPath_world (env : Env) (w : World) (path : String) :
    (RootStore.RootRecordByPath env w path).1 = logCall w (.RootRecordByPath path) := by
  unfold RootStore.RootRecordByPath
  cases env.storeFault w (.RootRecordByPath path) with
  | some msg => rfl
  | none =>
    cases w.roots.find? (fun m => m.path == path) with
    | none => rfl
    | some m => rfl

/-- A successful record lookup found the record in the table, under its path. -/
theorem ModuleRecordByPath_ok (env : Env) (w : World) (path : String) (mod : ModuleRecord)
    (h : (ModuleStore.ModuleRecordByPath env w path).2 = .ok mod) :
    w.modules.find? (fun m => m.path == path) = some mod := by
  unfold ModuleStore.ModuleRecordByPath at h
  cases hf : env.storeFault w (.ModuleRecordByPath path) with
  | some msg => simp [hf] at h
  | none =>
    cases hm : w.modules.find? (fun m => m.path == path) with
    | none => simp [hf, hm] at h
    | some m =>
      simp [hf, hm] at h
      rw [h]

/-- A directory whose record a lookup found has a record. -/
theorem any_of_find (ms : List ModuleRecord) (path : String) (mod : ModuleRecord)
    (h : ms.find? (fun m => m.path == path) = some mod) :
    ms.any (fun m => m.path == path) = true := by
  rw [List.any_eq_true]
  have hp : (fun m : ModuleRecord => m.path == path) mod = true :=
    @List.find?_some ModuleRecord (fun m => m.path == path) mod ms h
  exact ⟨mod, List.mem_of_find?_eq_some h, hp⟩

/-- A record update appends exactly its own call to the trace. -/
theorem update_trace (env : Env) (w : World) (c : StoreCall) (path : String)
    (f : ModuleRecord → ModuleRecord) :
    (ModuleStore.update env w c path f).1.trace = w.trace ++ [Event.store c] := by
  unfold ModuleStore.update
  cases env.storeFault w c with
  | some msg => rfl
  | none =>
    by_cases h : w.modules.any (fun m => m.path == path) = true
    · simp [h, logCall]
    · simp [h, logCall]

/-- A record update leaves the root table alone. -/
theorem update_roots (env : Env) (w : World) (c : StoreCall) (path : String)
    (f : ModuleRecord → ModuleRecord) :
    (ModuleStore.update env w c path f).1.roots = w.roots := by
  unfold ModuleStore.update
  cases env.storeFault w c with
  | some msg => rfl
  | none =>
    by_cases h : w.modules.any (fun m => m.path == path) = true
    · simp [h, logCall]
    · simp [h, logCall]

/-- A record update never fails with the state-not-changed error. -/
theorem update_err_ne (env : Env) (w : World) (c : StoreCall) (path : String)
    (f : ModuleRecord → ModuleRecord) (d : DirHandle) :
    (ModuleStore.update env w c path f).2 ≠ some (.StateNotChangedErr d) := by
  unfold ModuleStore.update
  cases env.storeFault w c with
  | some msg => simp
  | none =>
    by_cases h : w.modules.any (fun m => m.path == path) = true
    · simp [h]
    · simp [h]

/-- A record update of an existing record succeeds unless the database faults. -/
theorem update_ok (env : Env) (w : World) (c : StoreCall) (path : String)
    (f : ModuleRecord → ModuleRecord) (hf : env.storeFault w c = none)
    (hany : w.modules.any (fun m => m.path == path) = true) :
    (ModuleStore.update env w c path f).2 = none := by
  unfold ModuleStore.update
  simp [hf, hany]

/-- What a record update leaves in the module table. -/
theorem update_modules (env : Env) (w : World) (c : StoreCall) (path : String)
    (f : ModuleRecord → ModuleRecord) :
    (ModuleStore.update env w c path f).1.modules
      = if (ModuleStore.update env w c path f).2 = none then
          w.modules.map (fun m => if m.path == path then f m else m)
        else w.modules := by
  unfold ModuleStore.update
  cases env.storeFault w c with
  | some msg => simp [logCall]
  | none =>
    by_cases h : w.modules.any (fun m => m.path == path) = true
    · simp [h]
    · simp [h, logCall]

/-- The metadata update appends exactly its own call to the trace. -/
theorem UpdateMetadata_trace (env : Env) (w : World) (path : String) (mm : ModuleMeta)
    (mErr : Option Error) :
    (ModuleStore.UpdateMetadata env w path mm mErr).1.trace
      = w.trace ++ [Event.store (.UpdateMetadata path mm mErr)] :=
  update_trace _ _ _ _ _

/-- The metadata update never fails with the state-not-changed error. -/
theorem UpdateMetadata_err_ne (env : Env) (w : World) (path : String) (mm : ModuleMeta)
    (mErr : Option Error) (d : DirHandle) :
    (ModuleStore.UpdateMetadata env w path mm mErr).2 ≠ some (.StateNotChangedErr d) :=
  update_err_ne _ _ _ _ _ d

/-- The trace of a metadata run whose stage was set to Loading. -/
theorem LoadModuleMetadata_trace_aux (env : Env) (ctx : Context) (w : World)
    (modPath : String) (mod : ModuleRecord) (w2 : World)
    (hr : ModuleStore.ModuleRecordByPath env w modPath
      = (logCall w (.ModuleRecordByPath modPath), .ok mod))
    (hign : IgnoreState ctx = true)
    (h1 : ModuleStore.SetMetaState env (logCall w (.ModuleRecordByPath modPath)) modPath
      .OpStateLoading = (w2, none))
    (ht1 : w2.trace = (logCall w (.ModuleRecordByPath modPath)).trace
      ++ [Event.store (.SetMetaState modPath .OpStateLoading)]) :
    (LoadModuleMetadata env ctx w modPath).1.trace
      = w.trace ++ [Event.store (.ModuleRecordByPath modPath),
          Event.store (.SetMetaState modPath .OpStateLoading),
          Event.store (.UpdateMetadata modPath
            { env.LoadModule mod.path mod.ParsedModuleFiles |>.1 with
              ProviderRequirements :=
                copyMap (env.LoadModule mod.path mod.ParsedModuleFiles).1.ProviderRequirements
              ProviderReferences :=
                copyMap (env.LoadModule mod.path mod.ParsedModuleFiles).1.ProviderReferences }
            (if (env.LoadModule mod.path mod.ParsedModuleFiles).2.length > 0 then
              some (.Diagnostics (env.LoadModule mod.path mod.ParsedModuleFiles).2)
            else none))] := by
  simp only [LoadModuleMetadata, hr, hign, h1]
  simp only [Bool.not_true, Bool.and_false, Bool.false_eq_true, if_false]
  split
  · rename_i w3 sErr heq
    have h := congrArg (fun r => r.1.trace) heq
    simp only [UpdateMetadata_trace] at h
    rw [← h, ht1]
    simp [logCall]
  · rename_i w3 heq
    have h := congrArg (fun r => r.1.trace) heq
    simp only [UpdateMetadata_trace] at h
    rw [← h, ht1]
    simp [logCall]

/-- A list that ends in three given entries after a prefix starts with the first two. -/
theorem starts_with_two {α : Type} (t a : List α) (x y z : α)
    (h : t = a ++ [x, y, z]) : ∃ rest : List α, t = a ++ [x, y] ++ rest :=
  ⟨[z], by rw [h]; simp⟩

/-- C1: when the record of the module path exists with a metadata state other than
Unknown and the ignore-state flag of the context is false, `LoadModuleMetadata` returns
the state-not-changed error for that directory, leaves both tables as they were, and the
only store call it makes is the record lookup (no `SetMetaState`, no `UpdateMetadata`). -/
theorem LoadModuleMetadata_skip (env : Env) (ctx : Context) (w : World) (modPath : String)
    (mod : ModuleRecord)
    (hrec : (ModuleStore.ModuleRecordByPath env w modPath).2 = .ok mod)
    (hstate : mod.MetaState ≠ .OpStateUnknown)
    (hign : IgnoreState ctx = false) :
    (LoadModuleMetadata env ctx w modPath).2
        = some (.StateNotChangedErr (DirHandleFromPath modPath))
      ∧ (LoadModuleMetadata env ctx w modPath).1.modules = w.modules
      ∧ (LoadModuleMetadata env ctx w modPath).1.roots = w.roots
      ∧ (LoadModuleMetadata env ctx w modPath).1.trace
          = w.trace ++ [Event.store (.ModuleRecordByPath modPath)] := by
  have hw := ModuleRecordByPath_world env w modPath
  rcases hr : ModuleStore.ModuleRecordByPath env w modPath with ⟨w1, r⟩
  rw [hr] at hrec hw
  simp only at hrec hw
  subst hrec hw
  simp [LoadModuleMetadata, hr, hign, hstate, logCall]

/-- Witness of C1: a second run of the metadata stage on a record already loaded. -/
theorem LoadModuleMetadata_skip_witness :
    (LoadModuleMetadata Env.quiet [] (sampleWorld .OpStateLoadedOk) "/a").2
        = some (.StateNotChangedErr (DirHandleFromPath "/a"))
      ∧ (LoadModuleMetadata Env.quiet [] (sampleWorld .OpStateLoadedOk) "/a").1.modules
          = (sampleWorld .OpStateLoadedOk).modules
      ∧ (LoadModuleMetadata Env.quiet [] (sampleWorld .OpStateLoadedOk) "/a").1.roots
          = (sampleWorld .OpStateLoadedOk).roots
      ∧ (LoadModuleMetadata Env.quiet [] (sampleWorld .OpStateLoadedOk) "/a").1.trace
          = (sampleWorld .OpStateLoadedOk).trace ++ [Event.store (.ModuleRecordByPath "/a")] :=
  LoadModuleMetadata_skip Env.quiet [] (sampleWorld .OpStateLoadedOk) "/a"
    (sampleModule .OpStateLoadedOk) rfl (by decide) rfl

/-- C2: when the ignore-state flag of the context is false, each of
`SchemaModuleValidation`, `ReferenceValidation`, `TofuValidate` (on a module record
whose diagnostics state for the stage's own source is not Unknown) and
`ParseModuleManifest` (on a root record whose manifest state is not Unknown) returns the
state-not-changed error for the directory, leaves both tables as they were, and makes no
store call other than the record lookup. -/
theorem validation_and_manifest_skip (env : Env) (ctx : Context) (w : World)
    (modPath : String) (hign : IgnoreState ctx = false) :
    (∀ mod : ModuleRecord,
      (ModuleStore.ModuleRecordByPath env w modPath).2 = .ok mod →
      stateOf mod.ModuleDiagnosticsState .SchemaValidationSource ≠ .OpStateUnknown →
      (SchemaModuleValidation env ctx w modPath).2
          = some (.StateNotChangedErr (DirHandleFromPath modPath))
        ∧ (SchemaModuleValidation env ctx w modPath).1.modules = w.modules
        ∧ (SchemaModuleValidation env ctx w modPath).1.roots = w.roots
        ∧ (SchemaModuleValidation env ctx w modPath).1.trace
            = w.trace ++ [Event.store (.ModuleRecordByPath modPath)])
    ∧ (∀ mod : ModuleRecord,
      (ModuleStore.ModuleRecordByPath env w modPath).2 = .ok mod →
      stateOf mod.ModuleDiagnosticsState .ReferenceValidationSource ≠ .OpStateUnknown →
      (ReferenceValidation env ctx w modPath).2
          = some (.StateNotChangedErr (DirHandleFromPath modPath))
        ∧ (ReferenceValidation env ctx w modPath).1.modules = w.modules
        ∧ (ReferenceValidation env ctx w modPath).1.roots = w.roots
        ∧ (ReferenceValidation env ctx w modPath).1.trace
            = w.trace ++ [Event.store (.ModuleRecordByPath modPath)])
    ∧ (∀ mod : ModuleRecord,
      (ModuleStore.ModuleRecordByPath env w modPath).2 = .ok mod →
      stateOf mod.ModuleDiagnosticsState .TofuValidateSource ≠ .OpStateUnknown →
      (TofuValidate env ctx w modPath).2
          = some (.StateNotChangedErr (DirHandleFromPath modPath))
        ∧ (TofuValidate env ctx w modPath).1.modules = w.modules
        ∧ (TofuValidate env ctx w modPath).1.roots = w.roots
        ∧ (TofuValidate env ctx w modPath).1.trace
            = w.trace ++ [Event.store (.ModuleRecordByPath modPath)])
    ∧ (∀ root : RootRecord,
      (RootStore.RootRecordByPath env w modPath).2 = .ok root →
      root.ModManifestState ≠ .OpStateUnknown →
      (ParseModuleManifest env ctx w modPath).2
          = some (.StateNotChangedErr (DirHandleFromPath modPath))
        ∧ (ParseModuleManifest env ctx w modPath).1.modules = w.modules
        ∧ (ParseModuleManifest env ctx w modPath).1.roots = w.roots
        ∧ (ParseModuleManifest env ctx w modPath).1.trace
            = w.trace ++ [Event.store (.RootRecordByPath modPath)]) := by
  refine ⟨?_, ?_, ?_, ?_⟩
  · intro mod hrec hstate
    have hw := ModuleRecordByPath_world env w modPath
    rcases hr : ModuleStore.ModuleRecordByPath env w modPath with ⟨w1, r⟩
    rw [hr] at hrec hw
    simp only at hrec hw
    subst hrec hw
    simp [SchemaModuleValidation, hr, hign, hstate, logCall]
  · intro mod hrec hstate
    have hw := ModuleRecordByPath_world env w modPath
    rcases hr : ModuleStore.ModuleRecordByPath env w modPath with ⟨w1, r⟩
    rw [hr] at hrec hw
    simp only at hrec hw
    subst hrec hw
    simp [ReferenceValidation, hr, hign, hstate, logCall]
  · intro mod hrec hstate
    have hw := ModuleRecordByPath_world env w modPath
    rcases hr : ModuleStore.ModuleRecordByPath env w modPath with ⟨w1, r⟩
    rw [hr] at hrec hw
    simp only at hrec hw
    subst hrec hw
    simp [TofuValidate, hr, hign, hstate, logCall]
  · intro root hrec hstate
    have hw := RootRecordByPath_world env w modPath
    rcases hr : RootStore.RootRecordByPath env w modPath with ⟨w1, r⟩
    rw [hr] at hrec hw
    simp only at hrec hw
    subst hrec hw
    simp [ParseModuleManifest, hr, hign, hstate, logCall]

/-- Witness of C2: the four stages run on records whose stage is already loaded. -/
theorem validation_and_manifest_skip_witness :
    (SchemaModuleValidation Env.quiet [] (sampleWorld .OpStateLoadedOk) "/a").2
        = some (.StateNotChangedErr (DirHandleFromPath "/a"))
      ∧ (ReferenceValidation Env.quiet [] (sampleWorld .OpStateLoadedOk) "/a").2
        = some (.StateNotChangedErr (DirHandleFromPath "/a"))
      ∧ (TofuValidate Env.quiet [] (sampleWorld .OpStateLoading) "/a").1.modules
        = (sampleWorld .OpStateLoading).modules
      ∧ (ParseModuleManifest Env.quiet [] (sampleWorld .OpStateLoadedErr) "/a").1.trace
        = (sampleWorld .OpStateLoadedErr).trace ++ [Event.store (.RootRecordByPath "/a")] :=
  ⟨((validation_and_manifest_skip Env.quiet [] (sampleWorld .OpStateLoadedOk) "/a" rfl).1
      (sampleModule .OpStateLoadedOk) rfl (by decide)).1,
    ((validation_and_manifest_skip Env.quiet [] (sampleWorld .OpStateLoadedOk) "/a" rfl).2.1
      (sampleModule .OpStateLoadedOk) rfl (by decide)).1,
    ((validation_and_manifest_skip Env.quiet [] (sampleWorld .OpStateLoading) "/a" rfl).2.2.1
      (sampleModule .OpStateLoading) rfl (by decide)).2.1,
    ((validation_and_manifest_skip Env.quiet [] (sampleWorld .OpStateLoadedErr) "/a" rfl).2.2.2
      (sampleRoot .OpStateLoadedErr) rfl (by decide)).2.2.2⟩

/-- The error and the store calls of a forced metadata run: no state-not-changed error,
`SetMetaState` to Loading right after the lookup and, that call not being failed by the
database, `UpdateMetadata` with the freshly computed metadata as the last call. -/
theorem LoadModuleMetadata_forced_calls (env : Env) (ctx : Context) (w : World)
    (modPath : String) (mod : ModuleRecord)
    (hrec : (ModuleStore.ModuleRecordByPath env w modPath).2 = .ok mod)
    (hign : IgnoreState ctx = true) :
    (∀ d : DirHandle,
        (LoadModuleMetadata env ctx w modPath).2 ≠ some (.StateNotChangedErr d))
      ∧ (∃ rest : List Event, (LoadModuleMetadata env ctx w modPath).1.trace
          = w.trace ++ [Event.store (.ModuleRecordByPath modPath),
              Event.store (.SetMetaState modPath .OpStateLoading)] ++ rest)
      ∧ (env.storeFault (logCall w (.ModuleRecordByPath modPath))
            (.SetMetaState modPath .OpStateLoading) = none →
          (LoadModuleMetadata env ctx w modPath).1.trace
            = w.trace ++ [Event.store (.ModuleRecordByPath modPath),
                Event.store (.SetMetaState modPath .OpStateLoading),
                Event.store (.UpdateMetadata modPath
                  { env.LoadModule mod.path mod.ParsedModuleFiles |>.1 with
                    ProviderRequirements :=
                      copyMap (env.LoadModule mod.path mod.ParsedModuleFiles).1.ProviderRequirements
                    ProviderReferences :=
                      copyMap (env.LoadModule mod.path mod.ParsedModuleFiles).1.ProviderReferences }
                  (if (env.LoadModule mod.path mod.ParsedModuleFiles).2.length > 0 then
                    some (.Diagnostics (env.LoadModule mod.path mod.ParsedModuleFiles).2)
                  else none))]) := by
  have hfind := ModuleRecordByPath_ok env w modPath mod hrec
  have hany := any_of_find w.modules modPath mod hfind
  have hw := ModuleRecordByPath_world env w modPath
  rcases hr : ModuleStore.ModuleRecordByPath env w modPath with ⟨w1, r⟩
  rw [hr] at hrec hw
  simp only at hrec hw
  subst hrec hw
  have ht1 : (ModuleStore.SetMetaState env (logCall w (.ModuleRecordByPath modPath)) modPath
      .OpStateLoading).1.trace = _ := update_trace _ _ _ _ _
  have hn1 : ∀ d, (ModuleStore.SetMetaState env (logCall w (.ModuleRecordByPath modPath))
      modPath .OpStateLoading).2 ≠ _ := fun d => update_err_ne _ _ _ _ _ d
  have hs1 : _ → (ModuleStore.SetMetaState env (logCall w (.ModuleRecordByPath modPath))
      modPath .OpStateLoading).2 = none := fun hf => update_ok _ _ _ _ _ hf hany
  rcases h1 : ModuleStore.SetMetaState env (logCall w (.ModuleRecordByPath modPath)) modPath
      .OpStateLoading with ⟨w2, e2⟩
  rw [h1] at ht1 hn1 hs1
  simp only at ht1 hn1 hs1
  cases e2 with
  | some err =>
    refine ⟨?_, ?_, ?_⟩
    · intro d
      simpa [LoadModuleMetadata, hr, hign, h1] using hn1 d
    · refine ⟨[], ?_⟩
      simp only [LoadModuleMetadata, hr, hign, h1]
      simp [ht1, logCall]
    · intro hf
      exact absurd (hs1 hf) (by simp)
  | none =>
    refine ⟨?_, ?_, ?_⟩
    · intro d
      simp only [LoadModuleMetadata, hr, hign, h1]
      simp only [Bool.not_true, Bool.and_false, Bool.false_eq_true, if_false]
      split
      · rename_i w3 sErr heq
        have h := congrArg (fun r => r.2) heq
        simp only at h
        intro hc
        simp only at hc
        rw [hc] at h
        exact UpdateMetadata_err_ne _ _ _ _ _ d h
      · split <;> simp
    · have key := LoadModuleMetadata_trace_aux env ctx w modPath mod w2 hr hign h1 ht1
      exact starts_with_two _ _ _ _ _ key
    · intro _
      exact LoadModuleMetadata_trace_aux env ctx w modPath mod w2 hr hign h1 ht1

/-- What a forced metadata run leaves in the store: the world is the one that
`UpdateMetadata`, applied after `SetMetaState`, leaves. -/
theorem LoadModuleMetadata_forced_store (env : Env) (ctx : Context) (w : World)
    (modPath : String) (mod : ModuleRecord)
    (hrec : (ModuleStore.ModuleRecordByPath env w modPath).2 = .ok mod)
    (hign : IgnoreState ctx = true)
    (hf1 : env.storeFault (logCall w (.ModuleRecordByPath modPath))
      (.SetMetaState modPath .OpStateLoading) = none) :
    (ModuleStore.SetMetaState env (logCall w (.ModuleRecordByPath modPath)) modPath
          .OpStateLoading).1.modules
        = w.modules.map (fun m =>
            if m.path == modPath then { m with MetaState := .OpStateLoading } else m)
      ∧ (LoadModuleMetadata env ctx w modPath).1
        = (ModuleStore.UpdateMetadata env
            (ModuleStore.SetMetaState env (logCall w (.ModuleRecordByPath modPath)) modPath
              .OpStateLoading).1 modPath (loadedMeta env mod) (loadedErr env mod)).1
      ∧ (env.storeFault
            (ModuleStore.SetMetaState env (logCall w (.ModuleRecordByPath modPath)) modPath
              .OpStateLoading).1
            (.UpdateMetadata modPath (loadedMeta env mod) (loadedErr env mod)) = none →
          (LoadModuleMetadata env ctx w modPath).1.modules
              = w.modules.map (fun m =>
                  if m.path == modPath then
                    { m with
                      Meta := loadedMeta env mod
                      MetaErr := loadedErr env mod
                      MetaState :=
                        if (loadedErr env mod).isSome then .OpStateLoadedErr
                        else .OpStateLoadedOk }
                  else m)
            ∧ (LoadModuleMetadata env ctx w modPath).1.roots = w.roots
            ∧ (LoadModuleMetadata env ctx w modPath).2 = loadedErr env mod) := by
  have hfind := ModuleRecordByPath_ok env w modPath mod hrec
  have hany := any_of_find w.modules modPath mod hfind
  have hw := ModuleRecordByPath_world env w modPath
  have hpair : ModuleStore.ModuleRecordByPath env w modPath
      = (logCall w (.ModuleRecordByPath modPath), .ok mod) := by
    rw [← hw, ← hrec]
  have hany1 : (logCall w (.ModuleRecordByPath modPath)).modules.any
      (fun m => m.path == modPath) = true := hany
  have hset : ModuleStore.SetMetaState env (logCall w (.ModuleRecordByPath modPath)) modPath
      .OpStateLoading
      = ({ logCall (logCall w (.ModuleRecordByPath modPath))
            (.SetMetaState modPath .OpStateLoading) with
          modules := w.modules.map (fun m =>
            if m.path == modPath then { m with MetaState := .OpStateLoading } else m) },
        none) := by
    unfold ModuleStore.SetMetaState ModuleStore.update
    rw [hf1]
    simp only [hany1, if_true]
    rfl
  have hload : LoadModuleMetadata env ctx w modPath
      = (match ModuleStore.UpdateMetadata env
            (ModuleStore.SetMetaState env (logCall w (.ModuleRecordByPath modPath)) modPath
              .OpStateLoading).1 modPath (loadedMeta env mod) (loadedErr env mod) with
          | (w3, some sErr) => (w3, some sErr)
          | (w3, none) => (w3, loadedErr env mod)) := by
    unfold LoadModuleMetadata
    rw [hpair]
    simp only [hign, Bool.not_true, Bool.and_false, Bool.false_eq_true, if_false]
    rw [hset]
    rfl
  refine ⟨by rw [hset], ?_, ?_⟩
  · rw [hload]
    split <;> rename_i heq <;> rw [heq]
  · intro hf2
    have hmods : (ModuleStore.SetMetaState env (logCall w (.ModuleRecordByPath modPath))
        modPath .OpStateLoading).1.modules
        = w.modules.map (fun m =>
            if m.path == modPath then { m with MetaState := .OpStateLoading } else m) := by
      rw [hset]
    have hroots : (ModuleStore.SetMetaState env (logCall w (.ModuleRecordByPath modPath))
        modPath .OpStateLoading).1.roots = w.roots := by
      unfold ModuleStore.SetMetaState
      rw [update_roots]
      rfl
    have hany2 : (ModuleStore.SetMetaState env (logCall w (.ModuleRecordByPath modPath))
        modPath .OpStateLoading).1.modules.any (fun m => m.path == modPath) = true := by
      rw [hmods]
      rw [List.any_eq_true] at hany ⊢
      obtain ⟨m, hm, hp⟩ := hany
      refine ⟨{ m with MetaState := .OpStateLoading }, ?_, hp⟩
      exact List.mem_map.mpr ⟨m, hm, by rw [if_pos hp]⟩
    have hok : (ModuleStore.UpdateMetadata env
        (ModuleStore.SetMetaState env (logCall w (.ModuleRecordByPath modPath)) modPath
          .OpStateLoading).1 modPath (loadedMeta env mod) (loadedErr env mod)).2 = none :=
      update_ok _ _ _ _ _ hf2 hany2
    have hum := update_modules env
      (ModuleStore.SetMetaState env (logCall w (.ModuleRecordByPath modPath)) modPath
        .OpStateLoading).1
      (.UpdateMetadata modPath (loadedMeta env mod) (loadedErr env mod)) modPath
      (fun m => { m with
        Meta := loadedMeta env mod
        MetaErr := loadedErr env mod
        MetaState :=
          if (loadedErr env mod).isSome then .OpStateLoadedErr else .OpStateLoadedOk })
    rw [if_pos (update_ok _ _ _ _ _ hf2 hany2), hmods, List.map_map] at hum
    have hur : (ModuleStore.UpdateMetadata env
        (ModuleStore.SetMetaState env (logCall w (.ModuleRecordByPath modPath)) modPath
          .OpStateLoading).1 modPath (loadedMeta env mod) (loadedErr env mod)).1.roots
        = _ := update_roots _ _ _ _ _
    have hum2 : (ModuleStore.UpdateMetadata env
        (ModuleStore.SetMetaState env (logCall w (.ModuleRecordByPath modPath)) modPath
          .OpStateLoading).1 modPath (loadedMeta env mod) (loadedErr env mod)).1.modules
        = _ := hum
    rw [hload]
    generalize ModuleStore.UpdateMetadata env
      (ModuleStore.SetMetaState env (logCall w (.ModuleRecordByPath modPath)) modPath
        .OpStateLoading).1 modPath (loadedMeta env mod) (loadedErr env mod) = r
      at hok hum2 hur ⊢
    obtain ⟨w3, e3⟩ := r
    simp only at hok hum2 hur
    subst hok
    refine ⟨?_, by rw [hur, hroots], rfl⟩
    show w3.modules = _
    rw [hum2]
    apply List.map_congr_left
    intro m _
    simp only [Function.comp]
    by_cases hp : (m.path == modPath) = true
    · simp [hp]
    · simp [hp]

/-- C3: when the record of the module path exists and the ignore-state flag of the
context is true, whatever the metadata state of the record, `LoadModuleMetadata` does
not return a state-not-changed error; its first store call after the lookup is
`SetMetaState` to Loading; that call not being failed by the database, it leaves the
metadata state of the record at Loading, the next and last store call is
`UpdateMetadata` with the metadata computed by the early decoder from the parsed files
of the record and with the diagnostics of that computation, and the world the run
leaves is the one this `UpdateMetadata` leaves; and when the database fails neither
call, the record of the path ends with that metadata, that error and a terminal
metadata state, every other record and the root table are as before, and the error
returned is the error of the computation. -/
theorem LoadModuleMetadata_ignoreState (env : Env) (ctx : Context) (w : World)
    (modPath : String) (mod : ModuleRecord)
    (hrec : (ModuleStore.ModuleRecordByPath env w modPath).2 = .ok mod)
    (hign : IgnoreState ctx = true) :
    (∀ d : DirHandle,
        (LoadModuleMetadata env ctx w modPath).2 ≠ some (.StateNotChangedErr d))
      ∧ (∃ rest : List Event, (LoadModuleMetadata env ctx w modPath).1.trace
          = w.trace ++ [Event.store (.ModuleRecordByPath modPath),
              Event.store (.SetMetaState modPath .OpStateLoading)] ++ rest)
      ∧ (env.storeFault (logCall w (.ModuleRecordByPath modPath))
            (.SetMetaState modPath .OpStateLoading) = none →
          (LoadModuleMetadata env ctx w modPath).1.trace
              = w.trace ++ [Event.store (.ModuleRecordByPath modPath),
                  Event.store (.SetMetaState modPath .OpStateLoading),
                  Event.store (.UpdateMetadata modPath
                    { env.LoadModule mod.path mod.ParsedModuleFiles |>.1 with
                      ProviderRequirements :=
                        copyMap (env.LoadModule mod.path mod.ParsedModuleFiles).1.ProviderRequirements
                      ProviderReferences :=
                        copyMap (env.LoadModule mod.path mod.ParsedModuleFiles).1.ProviderReferences }
                    (if (env.LoadModule mod.path mod.ParsedModuleFiles).2.length > 0 then
                      some (.Diagnostics (env.LoadModule mod.path mod.ParsedModuleFiles).2)
                    else none))]
            ∧ (ModuleStore.SetMetaState env (logCall w (.ModuleRecordByPath modPath))
                  modPath .OpStateLoading).1.modules
                = w.modules.map (fun m =>
                    if m.path == modPath then { m with MetaState := .OpStateLoading }
                    else m)
            ∧ (LoadModuleMetadata env ctx w modPath).1
                = (ModuleStore.UpdateMetadata env
                    (ModuleStore.SetMetaState env (logCall w (.ModuleRecordByPath modPath))
                      modPath .OpStateLoading).1 modPath (loadedMeta env mod)
                    (loadedErr env mod)).1
            ∧ (env.storeFault
                  (ModuleStore.SetMetaState env (logCall w (.ModuleRecordByPath modPath))
                    modPath .OpStateLoading).1
                  (.UpdateMetadata modPath (loadedMeta env mod) (loadedErr env mod))
                  = none →
                (LoadModuleMetadata env ctx w modPath).1.modules
                    = w.modules.map (fun m =>
                        if m.path == modPath then
                          { m with
                            Meta := loadedMeta env mod
                            MetaErr := loadedErr env mod
                            MetaState :=
                              if (loadedErr env mod).isSome then .OpStateLoadedErr
                              else .OpStateLoadedOk }
                        else m)
                  ∧ (LoadModuleMetadata env ctx w modPath).1.roots = w.roots
                  ∧ (LoadModuleMetadata env ctx w modPath).2 = loadedErr env mod)) := by
  obtain ⟨h1, h2, h3⟩ := LoadModuleMetadata_forced_calls env ctx w modPath mod hrec hign
  refine ⟨h1, h2, ?_⟩
  intro hf1
  obtain ⟨h4, h5, h6⟩ := LoadModuleMetadata_forced_store env ctx w modPath mod hrec hign hf1
  exact ⟨h3 hf1, h4, h5, h6⟩

/-- Witness of C3: a forced re-run of the metadata stage on a record whose stage had
ended with an error: the three store calls are made and the record ends loaded, with
the metadata of the early decoder. -/
theorem LoadModuleMetadata_ignoreState_witness :
    (LoadModuleMetadata Env.quiet (WithIgnoreState [] true) (sampleWorld .OpStateLoadedOk)
        "/a").2 ≠ some (.StateNotChangedErr (DirHandleFromPath "/a"))
      ∧ (LoadModuleMetadata Env.quiet (WithIgnoreState [] true)
          (sampleWorld .OpStateLoadedOk) "/a").1.trace
        = [Event.store (.ModuleRecordByPath "/a"),
            Event.store (.SetMetaState "/a" .OpStateLoading),
            Event.store (.UpdateMetadata "/a" ⟨[("aws", ">= 1.0")], [], []⟩ none)]
      ∧ (LoadModuleMetadata Env.quiet (WithIgnoreState [] true)
          (sampleWorld .OpStateLoadedErr) "/a").1.modules
        = [{ sampleModule .OpStateLoadedErr with
              Meta := ⟨[("aws", ">= 1.0")], [], []⟩
              MetaErr := none
              MetaState := .OpStateLoadedOk }]
      ∧ (ModuleStore.SetMetaState Env.quiet
          (logCall (sampleWorld .OpStateLoadedErr) (.ModuleRecordByPath "/a")) "/a"
          .OpStateLoading).1.modules
        = [{ sampleModule .OpStateLoadedErr with MetaState := .OpStateLoading }] :=
  ⟨(LoadModuleMetadata_ignoreState Env.quiet (WithIgnoreState [] true)
      (sampleWorld .OpStateLoadedOk) "/a" (sampleModule .OpStateLoadedOk) rfl rfl).1 _,
    ((LoadModuleMetadata_ignoreState Env.quiet (WithIgnoreState [] true)
      (sampleWorld .OpStateLoadedOk) "/a" (sampleModule .OpStateLoadedOk) rfl rfl).2.2
      rfl).1,
    (((LoadModuleMetadata_ignoreState Env.quiet (WithIgnoreState [] true)
      (sampleWorld .OpStateLoadedErr) "/a" (sampleModule .OpStateLoadedErr) rfl rfl).2.2
      rfl).2.2.2 rfl).1,
    ((LoadModuleMetadata_ignoreState Env.quiet (WithIgnoreState [] true)
      (sampleWorld .OpStateLoadedErr) "/a" (sampleModule .OpStateLoadedErr) rfl rfl).2.2
      rfl).2.1⟩

/-- C4 (the code at the failing inputs): a first run of `TofuValidate` with no tool
executable, and first runs of `SchemaModuleValidation` and `ReferenceValidation` when
the path context of the module cannot be built, pass the skip check, set the state of
their diagnostic source to Loading, return the error, and leave that state at Loading
in the store. -/
theorem validation_left_loading :
    (TofuValidate Env.quiet [] (sampleWorld .OpStateUnknown) "/a").2
        = some .NoTofuExecPathErr
      ∧ diagnosticsStateAt (TofuValidate Env.quiet [] (sampleWorld .OpStateUnknown) "/a").1
          "/a" .TofuValidateSource = some .OpStateLoading
      ∧ (SchemaModuleValidation Env.failing [] (sampleWorld .OpStateUnknown) "/a").2
        = some (.Failure "no path context")
      ∧ diagnosticsStateAt
          (SchemaModuleValidation Env.failing [] (sampleWorld .OpStateUnknown) "/a").1
          "/a" .SchemaValidationSource = some .OpStateLoading
      ∧ (ReferenceValidation Env.failing [] (sampleWorld .OpStateUnknown) "/a").2
        = some (.Failure "no path context")
      ∧ diagnosticsStateAt
          (ReferenceValidation Env.failing [] (sampleWorld .OpStateUnknown) "/a").1
          "/a" .ReferenceValidationSource = some .OpStateLoading := by
  refine ⟨?_, ?_, ?_, ?_, ?_, ?_⟩ <;> decide

/-- The events a run added, when its trace is known as an extension. -/
theorem newEvents_of_trace (w w2 : World) (evs : List Event)
    (h : w2.trace = w.trace ++ evs) : newEvents w w2 = evs := by
  simp [newEvents, h]

/-- The trace after an `EnqueueJob` call. -/
theorem EnqueueJob_trace (env : Env) (ctx : Context) (w : World) (j : Job) :
    (EnqueueJob env ctx w j).1.trace
      = w.trace ++ [Event.enqueue j (EnqueueJob env ctx w j).2] := rfl

/-- The four ways `decodeModule` can go, each with the ids it returns, its error and the
events it adds to the trace. -/
theorem decodeModule_cases (env : Env) (ctx : Context) (w : World) (dir : DirHandle)
    (ign first : Bool) :
    (∃ err, (EnqueueJob env ctx w (parseJob dir ign)).2 = .error err
        ∧ (decodeModule env ctx w dir ign first).2 = ([], some err)
        ∧ newEvents w (decodeModule env ctx w dir ign first).1
          = [Event.enqueue (parseJob dir ign) (.error err)])
    ∨ (∃ parseId err, (EnqueueJob env ctx w (parseJob dir ign)).2 = .ok parseId
        ∧ (EnqueueJob env ctx (EnqueueJob env ctx w (parseJob dir ign)).1
            (metadataJob dir ign first (ValidationOptionsOf ctx).1 parseId)).2 = .error err
        ∧ (decodeModule env ctx w dir ign first).2 = ([parseId], some err)
        ∧ newEvents w (decodeModule env ctx w dir ign first).1
          = [Event.enqueue (parseJob dir ign) (.ok parseId),
              Event.enqueue (metadataJob dir ign first (ValidationOptionsOf ctx).1 parseId)
                (.error err)])
    ∨ (∃ parseId metaId, (EnqueueJob env ctx w (parseJob dir ign)).2 = .ok parseId
        ∧ (EnqueueJob env ctx (EnqueueJob env ctx w (parseJob dir ign)).1
            (metadataJob dir ign first (ValidationOptionsOf ctx).1 parseId)).2 = .ok metaId
        ∧ first = false
        ∧ (decodeModule env ctx w dir ign first).2 = ([parseId, metaId], none)
        ∧ newEvents w (decodeModule env ctx w dir ign first).1
          = [Event.enqueue (parseJob dir ign) (.ok parseId),
              Event.enqueue (metadataJob dir ign first (ValidationOptionsOf ctx).1 parseId)
                (.ok metaId)])
    ∨ (∃ parseId metaId r, (EnqueueJob env ctx w (parseJob dir ign)).2 = .ok parseId
        ∧ (EnqueueJob env ctx (EnqueueJob env ctx w (parseJob dir ign)).1
            (metadataJob dir ign first (ValidationOptionsOf ctx).1 parseId)).2 = .ok metaId
        ∧ first = true
        ∧ (decodeModule env ctx w dir ign first).2
          = ([parseId, metaId], match r with | .ok _ => none | .error err => some err)
        ∧ newEvents w (decodeModule env ctx w dir ign first).1
          = [Event.enqueue (parseJob dir ign) (.ok parseId),
              Event.enqueue (metadataJob dir ign first (ValidationOptionsOf ctx).1 parseId)
                (.ok metaId),
              Event.enqueue (registryJob dir metaId) r]) := by
  unfold decodeModule
  cases h1 : env.enqueue ctx w (parseJob dir ign) with
  | error err =>
    left
    refine ⟨err, ?_, ?_, ?_⟩ <;> simp [EnqueueJob, h1, newEvents]
  | ok parseId =>
    right
    cases h2 : env.enqueue ctx (EnqueueJob env ctx w (parseJob dir ign)).1
        (metadataJob dir ign first (ValidationOptionsOf ctx).1 parseId) with
    | error err =>
      left
      simp only [EnqueueJob, h1] at h2
      refine ⟨parseId, err, ?_, ?_, ?_, ?_⟩ <;> simp [EnqueueJob, h1, h2, newEvents]
    | ok metaId =>
      right
      simp only [EnqueueJob, h1] at h2
      cases first with
      | false =>
        left
        refine ⟨parseId, metaId, ?_, ?_, ?_, ?_, ?_⟩ <;>
          simp [EnqueueJob, h1, h2, newEvents]
      | true =>
        right
        refine ⟨parseId, metaId, env.enqueue ctx
          (EnqueueJob env ctx (EnqueueJob env ctx w (parseJob dir ign)).1
            (metadataJob dir ign true (ValidationOptionsOf ctx).1 parseId)).1
          (registryJob dir metaId), ?_, ?_, ?_, ?_, ?_⟩
        · simp [EnqueueJob, h1]
        · simp [EnqueueJob, h1, h2]
        · rfl
        · simp only [EnqueueJob, h1, h2]
          cases env.enqueue ctx _ (registryJob dir metaId) <;> simp
        · simp only [EnqueueJob, h1, h2]
          cases env.enqueue ctx _ (registryJob dir metaId) <;> simp [newEvents]

/-- The trace after `decodeModule` is the trace before it followed by the new events. -/
theorem decodeModule_extends (env : Env) (ctx : Context) (w : World) (dir : DirHandle)
    (ign first : Bool) :
    (decodeModule env ctx w dir ign first).1.trace
      = w.trace ++ newEvents w (decodeModule env ctx w dir ign first).1 := by
  have h : ∃ evs, (decodeModule env ctx w dir ign first).1.trace = w.trace ++ evs := by
    unfold decodeModule
    simp only [EnqueueJob]
    cases env.enqueue ctx w (parseJob dir ign) with
    | error err => exact ⟨_, rfl⟩
    | ok parseId =>
      simp only
      cases env.enqueue ctx _
          (metadataJob dir ign first (ValidationOptionsOf ctx).1 parseId) with
      | error err => exact ⟨_, by simp only [List.append_assoc]; rfl⟩
      | ok metaId =>
        simp only
        cases first with
        | false => exact ⟨_, by simp only [List.append_assoc]; rfl⟩
        | true =>
          simp only [Bool.not_true, Bool.false_eq_true, if_false]
          cases env.enqueue ctx _ (registryJob dir metaId) <;>
            exact ⟨_, by simp only [List.append_assoc]; rfl⟩
  obtain ⟨evs, h⟩ := h
  rw [newEvents_of_trace _ _ evs h, h]

/-- `decodeModule` touches neither table. -/
theorem decodeModule_tables (env : Env) (ctx : Context) (w : World) (dir : DirHandle)
    (ign first : Bool) :
    (decodeModule env ctx w dir ign first).1.modules = w.modules
      ∧ (decodeModule env ctx w dir ign first).1.roots = w.roots := by
  unfold decodeModule
  simp only [EnqueueJob]
  cases env.enqueue ctx w (parseJob dir ign) with
  | error err => exact ⟨rfl, rfl⟩
  | ok parseId =>
    simp only
    cases env.enqueue ctx _
        (metadataJob dir ign first (ValidationOptionsOf ctx).1 parseId) with
    | error err => exact ⟨rfl, rfl⟩
    | ok metaId =>
      simp only
      cases first with
      | false => exact ⟨rfl, rfl⟩
      | true =>
        simp only [Bool.not_true, Bool.false_eq_true, if_false]
        cases env.enqueue ctx _ (registryJob dir metaId) <;> exact ⟨rfl, rfl⟩

/-- C5: whenever the parse enqueue of `decodeModule` returns an id, the very next event
is the enqueue of the metadata job, whose `DependsOn` is exactly that id; the parse job
and the metadata job carry the directory and the ignore-state flag given to
`decodeModule`, for every directory and both values of either flag; and no other
metadata job is enqueued after it. -/
theorem decodeModule_metadata_after_parse (env : Env) (ctx : Context) (w : World)
    (dir : DirHandle) (ign first : Bool) (parseId : ID)
    (hparse : (EnqueueJob env ctx w (parseJob dir ign)).2 = .ok parseId) :
    ∃ (mj : Job) (r : Except Error ID) (rest : List Event),
      (decodeModule env ctx w dir ign first).1.trace
          = w.trace ++ (Event.enqueue (parseJob dir ign) (.ok parseId)
              :: Event.enqueue mj r :: rest)
        ∧ (parseJob dir ign).JobType = OpType.OpTypeParseModuleConfiguration.String
        ∧ mj.JobType = OpType.OpTypeLoadModuleMetadata.String
        ∧ mj.DependsOn = [parseId]
        ∧ (parseJob dir ign).Dir = dir
        ∧ mj.Dir = dir
        ∧ (parseJob dir ign).IgnoreState = ign
        ∧ mj.IgnoreState = ign
        ∧ (∀ j2 r2, Event.enqueue j2 r2 ∈ rest →
            j2.JobType ≠ OpType.OpTypeLoadModuleMetadata.String) := by
  have hext := decodeModule_extends env ctx w dir ign first
  rcases decodeModule_cases env ctx w dir ign first with
    ⟨err, h1, _, _⟩ | ⟨p, err, h1, _, _, hev⟩ | ⟨p, m, h1, _, _, _, hev⟩ |
    ⟨p, m, r, h1, _, _, _, hev⟩
  · rw [hparse] at h1
    cases h1
  · rw [hparse] at h1
    cases h1
    rw [hev] at hext
    exact ⟨_, _, [], hext, rfl, rfl, rfl, rfl, rfl, rfl, rfl, by simp⟩
  · rw [hparse] at h1
    cases h1
    rw [hev] at hext
    exact ⟨_, _, [], hext, rfl, rfl, rfl, rfl, rfl, rfl, rfl, by simp⟩
  · rw [hparse] at h1
    cases h1
    rw [hev] at hext
    refine ⟨_, _, [_], hext, rfl, rfl, rfl, rfl, rfl, rfl, rfl, ?_⟩
    intro j2 r2 hmem
    simp only [List.mem_singleton, Event.enqueue.injEq] at hmem
    rw [hmem.1]
    simp [registryJob, OpType.String]

/-- Witness of C5: decoding the first-level module "/a" in a world with empty trace. -/
theorem decodeModule_metadata_after_parse_witness :
    ∃ (mj : Job) (r : Except Error ID) (rest : List Event),
      (decodeModule Env.quiet [] (sampleWorld .OpStateUnknown) ⟨"/a"⟩ true true).1.trace
          = (sampleWorld .OpStateUnknown).trace
            ++ (Event.enqueue (parseJob ⟨"/a"⟩ true) (.ok "") :: Event.enqueue mj r :: rest)
        ∧ (parseJob ⟨"/a"⟩ true).JobType = OpType.OpTypeParseModuleConfiguration.String
        ∧ mj.JobType = OpType.OpTypeLoadModuleMetadata.String
        ∧ mj.DependsOn = [""]
        ∧ (parseJob ⟨"/a"⟩ true).Dir = ⟨"/a"⟩
        ∧ mj.Dir = ⟨"/a"⟩
        ∧ (parseJob ⟨"/a"⟩ true).IgnoreState = true
        ∧ mj.IgnoreState = true
        ∧ (∀ j2 r2, Event.enqueue j2 r2 ∈ rest →
            j2.JobType ≠ OpType.OpTypeLoadModuleMetadata.String) :=
  decodeModule_metadata_after_parse Env.quiet [] (sampleWorld .OpStateUnknown) ⟨"/a"⟩
    true true "" rfl

/-- C8: `decodeModule` enqueues the registry job exactly when `isFirstLevel` is true and
both the parse enqueue and the metadata enqueue returned an id; a registry job it
enqueues has Low priority and depends on exactly the id returned for the metadata job;
and no parse or metadata job it enqueues has Low priority. -/
theorem decodeModule_registry_job (env : Env) (ctx : Context) (w : World)
    (dir : DirHandle) (ign first : Bool) :
    (decodeModule env ctx w dir ign first).1.trace
        = w.trace ++ newEvents w (decodeModule env ctx w dir ign first).1
      ∧ ((∃ j r, Event.enqueue j r ∈ newEvents w (decodeModule env ctx w dir ign first).1
            ∧ j.JobType = OpType.OpTypeGetModuleDataFromRegistry.String)
          ↔ (first = true ∧ ∃ parseId metaId,
              (EnqueueJob env ctx w (parseJob dir ign)).2 = .ok parseId
              ∧ (EnqueueJob env ctx (EnqueueJob env ctx w (parseJob dir ign)).1
                  (metadataJob dir ign first (ValidationOptionsOf ctx).1 parseId)).2
                = .ok metaId))
      ∧ (∀ j r, Event.enqueue j r ∈ newEvents w (decodeModule env ctx w dir ign first).1 →
          j.JobType = OpType.OpTypeGetModuleDataFromRegistry.String →
          j.Priority = .LowPriority
            ∧ ∃ mj metaId, mj.JobType = OpType.OpTypeLoadModuleMetadata.String
                ∧ Event.enqueue mj (.ok metaId)
                    ∈ newEvents w (decodeModule env ctx w dir ign first).1
                ∧ j.DependsOn = [metaId])
      ∧ (∀ j r, Event.enqueue j r ∈ newEvents w (decodeModule env ctx w dir ign first).1 →
          (j.JobType = OpType.OpTypeParseModuleConfiguration.String
            ∨ j.JobType = OpType.OpTypeLoadModuleMetadata.String) →
          j.Priority ≠ .LowPriority) := by
  refine ⟨decodeModule_extends env ctx w dir ign first, ?_⟩
  rcases decodeModule_cases env ctx w dir ign first with
    ⟨err, h1, _, hev⟩ | ⟨p, err, h1, h2, _, hev⟩ | ⟨p, m, h1, h2, hf, _, hev⟩ |
    ⟨p, m, r, h1, h2, hf, _, hev⟩
  · rw [hev]
    refine ⟨⟨?_, ?_⟩, ?_, ?_⟩
    · rintro ⟨j, r, hmem, hty⟩
      simp only [List.mem_singleton, Event.enqueue.injEq] at hmem
      rw [hmem.1] at hty
      simp [parseJob, OpType.String] at hty
    · rintro ⟨_, p, m, hp, _⟩
      rw [h1] at hp
      cases hp
    · intro j r hmem hty
      simp only [List.mem_singleton, Event.enqueue.injEq] at hmem
      rw [hmem.1] at hty
      simp [parseJob, OpType.String] at hty
    · intro j r hmem _
      simp only [List.mem_singleton, Event.enqueue.injEq] at hmem
      rw [hmem.1]
      simp [parseJob]
  · rw [hev]
    refine ⟨⟨?_, ?_⟩, ?_, ?_⟩
    · rintro ⟨j, r, hmem, hty⟩
      simp only [List.mem_cons, List.mem_singleton, Event.enqueue.injEq,
        List.not_mem_nil, or_false] at hmem
      rcases hmem with ⟨hj, _⟩ | ⟨hj, _⟩ <;> rw [hj] at hty <;>
        simp [parseJob, metadataJob, OpType.String] at hty
    · rintro ⟨_, p2, m2, hp, hm⟩
      rw [h1] at hp
      cases hp
      rw [h2] at hm
      cases hm
    · intro j r hmem hty
      simp only [List.mem_cons, List.mem_singleton, Event.enqueue.injEq,
        List.not_mem_nil, or_false] at hmem
      rcases hmem with ⟨hj, _⟩ | ⟨hj, _⟩ <;> rw [hj] at hty <;>
        simp [parseJob, metadataJob, OpType.String] at hty
    · intro j r hmem _
      simp only [List.mem_cons, List.mem_singleton, Event.enqueue.injEq,
        List.not_mem_nil, or_false] at hmem
      rcases hmem with ⟨hj, _⟩ | ⟨hj, _⟩ <;> rw [hj] <;> simp [parseJob, metadataJob]
  · rw [hev]
    refine ⟨⟨?_, ?_⟩, ?_, ?_⟩
    · rintro ⟨j, r, hmem, hty⟩
      simp only [List.mem_cons, List.mem_singleton, Event.enqueue.injEq,
        List.not_mem_nil, or_false] at hmem
      rcases hmem with ⟨hj, _⟩ | ⟨hj, _⟩ <;> rw [hj] at hty <;>
        simp [parseJob, metadataJob, OpType.String] at hty
    · rintro ⟨hft, _⟩
      rw [hf] at hft
      cases hft
    · intro j r hmem hty
      simp only [List.mem_cons, List.mem_singleton, Event.enqueue.injEq,
        List.not_mem_nil, or_false] at hmem
      rcases hmem with ⟨hj, _⟩ | ⟨hj, _⟩ <;> rw [hj] at hty <;>
        simp [parseJob, metadataJob, OpType.String] at hty
    · intro j r hmem _
      simp only [List.mem_cons, List.mem_singleton, Event.enqueue.injEq,
        List.not_mem_nil, or_false] at hmem
      rcases hmem with ⟨hj, _⟩ | ⟨hj, _⟩ <;> rw [hj] <;> simp [parseJob, metadataJob]
  · rw [hev]
    refine ⟨⟨?_, ?_⟩, ?_, ?_⟩
    · intro _
      exact ⟨hf, p, m, h1, h2⟩
    · intro _
      exact ⟨registryJob dir m, r, by simp, rfl⟩
    · intro j r2 hmem hty
      simp only [List.mem_cons, List.mem_singleton, Event.enqueue.injEq,
        List.not_mem_nil, or_false] at hmem
      rcases hmem with ⟨hj, _⟩ | ⟨hj, _⟩ | ⟨hj, _⟩
      · rw [hj] at hty
        simp [parseJob, OpType.String] at hty
      · rw [hj] at hty
        simp [metadataJob, OpType.String] at hty
      · rw [hj]
        exact ⟨rfl, metadataJob dir ign first (ValidationOptionsOf ctx).1 p, m, rfl,
          by simp, rfl⟩
    · intro j r2 hmem hty
      simp only [List.mem_cons, List.mem_singleton, Event.enqueue.injEq,
        List.not_mem_nil, or_false] at hmem
      rcases hmem with ⟨hj, _⟩ | ⟨hj, _⟩ | ⟨hj, _⟩
      · rw [hj]
        simp [parseJob]
      · rw [hj]
        simp [metadataJob]
      · rw [hj] at hty
        simp [registryJob, OpType.String] at hty

/-- Witness of C8: decoding the first-level module "/a" enqueues a registry job, which
has Low priority and depends on the id "j" returned for the metadata job. -/
theorem decodeModule_registry_job_witness :
    (∃ j r, Event.enqueue j r
        ∈ newEvents (sampleWorld .OpStateUnknown)
            (decodeModule Env.quiet [] (sampleWorld .OpStateUnknown) ⟨"/a"⟩ false true).1
        ∧ j.JobType = OpType.OpTypeGetModuleDataFromRegistry.String)
      ∧ (registryJob ⟨"/a"⟩ "j").Priority = .LowPriority
      ∧ ∃ mj metaId, mj.JobType = OpType.OpTypeLoadModuleMetadata.String
          ∧ Event.enqueue mj (.ok metaId)
              ∈ newEvents (sampleWorld .OpStateUnknown)
                (decodeModule Env.quiet [] (sampleWorld .OpStateUnknown) ⟨"/a"⟩ false true).1
          ∧ (registryJob ⟨"/a"⟩ "j").DependsOn = [metaId] :=
  ⟨(decodeModule_registry_job Env.quiet [] (sampleWorld .OpStateUnknown) ⟨"/a"⟩ false
      true).2.1.2 ⟨rfl, "", "j", rfl, rfl⟩,
    (decodeModule_registry_job Env.quiet [] (sampleWorld .OpStateUnknown) ⟨"/a"⟩ false
      true).2.2.1 (registryJob ⟨"/a"⟩ "j") (.ok "jj")
      (List.mem_cons_of_mem _ (List.mem_cons_of_mem _ (List.mem_singleton.mpr rfl))) rfl⟩

/-- The enqueues of the metadata continuation add events of one of the six shapes. -/
theorem deferEnqueues_events (env : Env) (d : DeferFn) (ctx : Context) (w : World)
    (modCalls deferIds : List ID) :
    (deferEnqueues env d ctx w modCalls deferIds).1.trace
        = w.trace ++ newEvents w (deferEnqueues env d ctx w modCalls deferIds).1
      ∧ continuationEvents d modCalls
          (newEvents w (deferEnqueues env d ctx w modCalls deferIds).1) := by
  unfold deferEnqueues continuationEvents
  simp only [EnqueueJob]
  cases env.enqueue ctx w (preloadJob d.dir d.ignoreState) with
  | error err => simp [newEvents]
  | ok e =>
    simp only
    cases env.enqueue ctx _ (refTargetsJob d.dir d.ignoreState modCalls e) with
    | error err => simp [newEvents]
    | ok t =>
      simp only
      cases env.enqueue ctx _ (refOriginsJob d.dir d.ignoreState modCalls e) with
      | error err => simp [newEvents]
      | ok o =>
        simp only
        cases hg : (d.isFirstLevel && d.validationOptions.EnableEnhancedValidation) with
        | false => simp [newEvents]
        | true =>
          simp only [if_true]
          cases env.enqueue ctx _ (schemaValidationJob d.dir d.ignoreState modCalls e) with
          | error err => simp [newEvents]
          | ok sv =>
            simp only
            cases env.enqueue ctx _ (referenceValidationJob d.dir d.ignoreState o t) <;>
              simp [newEvents]

/-- The dependency edges among events of one of the six shapes. -/
theorem continuationEvents_deps (d : DeferFn) (modCalls : List ID) (evs : List Event)
    (h : continuationEvents d modCalls evs) (j : Job) (r : Except Error ID)
    (hmem : Event.enqueue j r ∈ evs) :
    (j.JobType = OpType.OpTypePreloadEmbeddedSchema.String → j.DependsOn = [])
      ∧ (j.JobType = OpType.OpTypeDecodeReferenceTargets.String
          ∨ j.JobType = OpType.OpTypeDecodeReferenceOrigins.String
          ∨ j.JobType = OpType.OpTypeSchemaModuleValidation.String →
        ∃ pj e, pj.JobType = OpType.OpTypePreloadEmbeddedSchema.String
          ∧ Event.enqueue pj (.ok e) ∈ evs ∧ j.DependsOn = modCalls ++ [e])
      ∧ (j.JobType = OpType.OpTypeReferenceValidation.String →
        ∃ oj o tj t, oj.JobType = OpType.OpTypeDecodeReferenceOrigins.String
          ∧ tj.JobType = OpType.OpTypeDecodeReferenceTargets.String
          ∧ Event.enqueue oj (.ok o) ∈ evs ∧ Event.enqueue tj (.ok t) ∈ evs
          ∧ j.DependsOn = [o, t])
      ∧ (j.JobType = OpType.OpTypePreloadEmbeddedSchema.String
          ∨ j.JobType = OpType.OpTypeDecodeReferenceTargets.String
          ∨ j.JobType = OpType.OpTypeDecodeReferenceOrigins.String
          ∨ j.JobType = OpType.OpTypeSchemaModuleValidation.String
          ∨ j.JobType = OpType.OpTypeReferenceValidation.String) := by
  rcases h with ⟨err, rfl⟩ | ⟨e, err, rfl⟩ | ⟨e, t, err, rfl⟩ | ⟨e, t, o, _, rfl⟩ |
    ⟨e, t, o, err, _, rfl⟩ | ⟨e, t, o, sv, r2, _, rfl⟩ <;>
  simp only [List.mem_cons, List.mem_singleton, Event.enqueue.injEq, List.not_mem_nil,
    or_false] at hmem <;>
  rcases hmem with ⟨rfl, -⟩ | ⟨rfl, -⟩ | ⟨rfl, -⟩ | ⟨rfl, -⟩ | ⟨rfl, -⟩ <;>
  refine ⟨?_, ?_, ?_, ?_⟩ <;>
  first
    | (intro hty
       simp [preloadJob, refTargetsJob, refOriginsJob, schemaValidationJob,
         referenceValidationJob, OpType.String] at hty
       done)
    | (intro _
       rfl)
    | (intro _
       exact ⟨preloadJob d.dir d.ignoreState, e, rfl, by simp, rfl⟩)
    | (intro _
       exact ⟨refOriginsJob d.dir d.ignoreState modCalls e, o,
         refTargetsJob d.dir d.ignoreState modCalls e, t, rfl, rfl, by simp, by simp, rfl⟩)
    | simp [preloadJob, refTargetsJob, refOriginsJob, schemaValidationJob,
         referenceValidationJob]

/-- The module-call ids left by the first part of the continuation. -/
theorem deferModuleCalls_ids (env : Env) (d : DeferFn) (ctx : Context) (w : World) :
    (deferModuleCalls env d ctx w).2.1
      = if d.isFirstLevel then (decodeDeclaredModuleCalls env ctx w d.dir d.ignoreState).2.1
        else [] := by
  unfold deferModuleCalls
  cases d.isFirstLevel <;> simp

/-- C6: among the jobs the metadata continuation enqueues after the module-call fan-out,
the preload job has no dependencies; the reference-targets, reference-origins and
schema-validation jobs each depend on exactly the module-call job ids (those returned by
`decodeDeclaredModuleCalls` at the first level, none otherwise) followed by the id
returned for the preload job; the reference-validation job depends on exactly the ids
returned for the reference-origins and the reference-targets jobs; and no job of another
kind is enqueued there. -/
theorem metadataDefer_dependency_edges (env : Env) (d : DeferFn) (ctx : Context)
    (w : World) (jobErr : Option Error) (j : Job) (r : Except Error ID)
    (hmem : Event.enqueue j r
      ∈ newEvents (deferModuleCalls env d ctx w).1 (metadataDefer env d ctx w jobErr).1) :
    (metadataDefer env d ctx w jobErr).1.trace
        = (deferModuleCalls env d ctx w).1.trace
          ++ newEvents (deferModuleCalls env d ctx w).1 (metadataDefer env d ctx w jobErr).1
      ∧ (j.JobType = OpType.OpTypePreloadEmbeddedSchema.String → j.DependsOn = [])
      ∧ (j.JobType = OpType.OpTypeDecodeReferenceTargets.String
          ∨ j.JobType = OpType.OpTypeDecodeReferenceOrigins.String
          ∨ j.JobType = OpType.OpTypeSchemaModuleValidation.String →
        ∃ pj e, pj.JobType = OpType.OpTypePreloadEmbeddedSchema.String
          ∧ Event.enqueue pj (.ok e)
            ∈ newEvents (deferModuleCalls env d ctx w).1 (metadataDefer env d ctx w jobErr).1
          ∧ j.DependsOn
            = (if d.isFirstLevel then
                (decodeDeclaredModuleCalls env ctx w d.dir d.ignoreState).2.1
              else []) ++ [e])
      ∧ (j.JobType = OpType.OpTypeReferenceValidation.String →
        ∃ oj o tj t, oj.JobType = OpType.OpTypeDecodeReferenceOrigins.String
          ∧ tj.JobType = OpType.OpTypeDecodeReferenceTargets.String
          ∧ Event.enqueue oj (.ok o)
            ∈ newEvents (deferModuleCalls env d ctx w).1 (metadataDefer env d ctx w jobErr).1
          ∧ Event.enqueue tj (.ok t)
            ∈ newEvents (deferModuleCalls env d ctx w).1 (metadataDefer env d ctx w jobErr).1
          ∧ j.DependsOn = [o, t])
      ∧ (j.JobType = OpType.OpTypePreloadEmbeddedSchema.String
          ∨ j.JobType = OpType.OpTypeDecodeReferenceTargets.String
          ∨ j.JobType = OpType.OpTypeDecodeReferenceOrigins.String
          ∨ j.JobType = OpType.OpTypeSchemaModuleValidation.String
          ∨ j.JobType = OpType.OpTypeReferenceValidation.String) := by
  have hev := deferEnqueues_events env d ctx (deferModuleCalls env d ctx w).1
    (deferModuleCalls env d ctx w).2.1 (deferModuleCalls env d ctx w).2.2
  have hdeps := continuationEvents_deps d _ _ hev.2 j r hmem
  rw [← deferModuleCalls_ids env d ctx w]
  exact ⟨hev.1, hdeps⟩

/-- Witness of C6: the continuation of "/a", whose one module call gave the job ids "jj"
and "jjj", enqueues a reference-targets job depending on those ids and on the id "jjjj"
of the preload job, and a reference-validation job depending on the ids of the
reference-origins and reference-targets jobs. -/
theorem metadataDefer_dependency_edges_witness :
    (∃ pj e, pj.JobType = OpType.OpTypePreloadEmbeddedSchema.String
        ∧ Event.enqueue pj (.ok e)
          ∈ newEvents (deferModuleCalls Env.quiet sampleDefer [] callerWorld).1
              (metadataDefer Env.quiet sampleDefer [] callerWorld none).1
        ∧ (refTargetsJob ⟨"/a"⟩ false ["jj", "jjj"] "jjjj").DependsOn
          = (if sampleDefer.isFirstLevel then
              (decodeDeclaredModuleCalls Env.quiet [] callerWorld sampleDefer.dir
                sampleDefer.ignoreState).2.1
            else []) ++ [e])
      ∧ (∃ oj o tj t, oj.JobType = OpType.OpTypeDecodeReferenceOrigins.String
        ∧ tj.JobType = OpType.OpTypeDecodeReferenceTargets.String
        ∧ Event.enqueue oj (.ok o)
          ∈ newEvents (deferModuleCalls Env.quiet sampleDefer [] callerWorld).1
              (metadataDefer Env.quiet sampleDefer [] callerWorld none).1
        ∧ Event.enqueue tj (.ok t)
          ∈ newEvents (deferModuleCalls Env.quiet sampleDefer [] callerWorld).1
              (metadataDefer Env.quiet sampleDefer [] callerWorld none).1
        ∧ (referenceValidationJob ⟨"/a"⟩ false "jjjjjj" "jjjjj").DependsOn = [o, t]) :=
  ⟨(metadataDefer_dependency_edges Env.quiet sampleDefer [] callerWorld none
      (refTargetsJob ⟨"/a"⟩ false ["jj", "jjj"] "jjjj") (.ok "jjjjj")
      (by decide)).2.2.1 (Or.inl rfl),
    (metadataDefer_dependency_edges Env.quiet sampleDefer [] callerWorld none
      (referenceValidationJob ⟨"/a"⟩ false "jjjjjj" "jjjjj") (.ok "jjjjjjjj")
      (by decide)).2.2.2.1 rfl⟩

/-- An enqueue of a job whose kind satisfies a property, read off the list of kinds. -/
theorem exists_enqueue_iff (evs : List Event) (P : String → Prop) :
    (∃ j r, Event.enqueue j r ∈ evs ∧ P j.JobType) ↔ ∃ ty ∈ enqueuedTypes evs, P ty := by
  induction evs with
  | nil => simp [enqueuedTypes]
  | cons e rest ih =>
    have hcons : enqueuedTypes (e :: rest)
        = (match e with
            | .enqueue j _ => [j.JobType]
            | .store _ => []) ++ enqueuedTypes rest := by
      cases e <;> simp [enqueuedTypes, List.filterMap_cons]
    rw [hcons]
    constructor
    · rintro ⟨j, r, hmem, hp⟩
      rcases List.mem_cons.mp hmem with heq | hmem
      · subst heq
        exact ⟨j.JobType, by simp, hp⟩
      · obtain ⟨ty, hty, hp2⟩ := ih.mp ⟨j, r, hmem, hp⟩
        exact ⟨ty, List.mem_append_right _ hty, hp2⟩
    · rintro ⟨ty, hty, hp⟩
      rcases List.mem_append.mp hty with hty | hty
      · cases e with
        | store c => simp at hty
        | enqueue j r =>
          simp only [List.mem_singleton] at hty
          subst hty
          exact ⟨j, r, List.mem_cons_self _ _, hp⟩
      · obtain ⟨j, r, hmem, hp2⟩ := ih.mpr ⟨ty, hty, hp⟩
        exact ⟨j, r, List.mem_cons_of_mem _ hmem, hp2⟩

/-- An enqueue that returned an id, of a job whose kind satisfies a property, read off
the list of kinds. -/
theorem exists_ok_iff (evs : List Event) (P : String → Prop) :
    (∃ j id, Event.enqueue j (.ok id) ∈ evs ∧ P j.JobType) ↔ ∃ ty ∈ okTypes evs, P ty := by
  induction evs with
  | nil => simp [okTypes]
  | cons e rest ih =>
    have hcons : okTypes (e :: rest)
        = (match e with
            | .enqueue j (.ok _) => [j.JobType]
            | _ => []) ++ okTypes rest := by
      rcases e with c | ⟨j, _ | _⟩ <;> simp [okTypes, List.filterMap_cons]
    rw [hcons]
    constructor
    · rintro ⟨j, r, hmem, hp⟩
      rcases List.mem_cons.mp hmem with heq | hmem
      · subst heq
        exact ⟨j.JobType, by simp, hp⟩
      · obtain ⟨ty, hty, hp2⟩ := ih.mp ⟨j, r, hmem, hp⟩
        exact ⟨ty, List.mem_append_right _ hty, hp2⟩
    · rintro ⟨ty, hty, hp⟩
      rcases List.mem_append.mp hty with hty | hty
      · rcases e with c | ⟨j, _ | id⟩
        · simp at hty
        · simp at hty
        · simp only [List.mem_singleton] at hty
          subst hty
          exact ⟨j, id, List.mem_cons_self _ _, hp⟩
      · obtain ⟨j, r, hmem, hp2⟩ := ih.mpr ⟨ty, hty, hp⟩
        exact ⟨j, r, List.mem_cons_of_mem _ hmem, hp2⟩

/-- An enqueue that returned an error, of a job whose kind satisfies a property, read
off the list of kinds. -/
theorem exists_failed_iff (evs : List Event) (P : String → Prop) :
    (∃ j err, Event.enqueue j (.error err) ∈ evs ∧ P j.JobType)
      ↔ ∃ ty ∈ failedTypes evs, P ty := by
  induction evs with
  | nil => simp [failedTypes]
  | cons e rest ih =>
    have hcons : failedTypes (e :: rest)
        = (match e with
            | .enqueue j (.error _) => [j.JobType]
            | _ => []) ++ failedTypes rest := by
      rcases e with c | ⟨j, _ | _⟩ <;> simp [failedTypes, List.filterMap_cons]
    rw [hcons]
    constructor
    · rintro ⟨j, r, hmem, hp⟩
      rcases List.mem_cons.mp hmem with heq | hmem
      · subst heq
        exact ⟨j.JobType, by simp, hp⟩
      · obtain ⟨ty, hty, hp2⟩ := ih.mp ⟨j, r, hmem, hp⟩
        exact ⟨ty, List.mem_append_right _ hty, hp2⟩
    · rintro ⟨ty, hty, hp⟩
      rcases List.mem_append.mp hty with hty | hty
      · rcases e with c | ⟨j, err | _⟩
        · simp at hty
        · simp only [List.mem_singleton] at hty
          subst hty
          exact ⟨j, err, List.mem_cons_self _ _, hp⟩
        · simp at hty
      · obtain ⟨j, r, hmem, hp2⟩ := ih.mpr ⟨ty, hty, hp⟩
        exact ⟨j, r, List.mem_cons_of_mem _ hmem, hp2⟩

/-- The validation gate, on events of one of the six shapes. -/
theorem continuationEvents_gate (d : DeferFn) (modCalls : List ID) (evs : List Event)
    (h : continuationEvents d modCalls evs) :
    ((¬ ∃ j err, Event.enqueue j (.error err) ∈ evs
          ∧ (j.JobType = OpType.OpTypePreloadEmbeddedSchema.String
            ∨ j.JobType = OpType.OpTypeDecodeReferenceTargets.String
            ∨ j.JobType = OpType.OpTypeDecodeReferenceOrigins.String)) →
        ((∃ j r, Event.enqueue j r ∈ evs
            ∧ j.JobType = OpType.OpTypeSchemaModuleValidation.String)
          ↔ (d.isFirstLevel = true ∧ d.validationOptions.EnableEnhancedValidation = true))
        ∧ ((∃ j r, Event.enqueue j r ∈ evs
            ∧ j.JobType = OpType.OpTypeReferenceValidation.String)
          ↔ (d.isFirstLevel = true ∧ d.validationOptions.EnableEnhancedValidation = true
              ∧ ∃ j id, Event.enqueue j (.ok id) ∈ evs
                ∧ j.JobType = OpType.OpTypeSchemaModuleValidation.String)))
      ∧ ((d.isFirstLevel && d.validationOptions.EnableEnhancedValidation) = false →
        ¬ ∃ j r, Event.enqueue j r ∈ evs
          ∧ (j.JobType = OpType.OpTypeSchemaModuleValidation.String
            ∨ j.JobType = OpType.OpTypeReferenceValidation.String)) := by
  rw [exists_failed_iff evs (fun ty => ty = OpType.OpTypePreloadEmbeddedSchema.String
      ∨ ty = OpType.OpTypeDecodeReferenceTargets.String
      ∨ ty = OpType.OpTypeDecodeReferenceOrigins.String),
    exists_enqueue_iff evs (fun ty => ty = OpType.OpTypeSchemaModuleValidation.String),
    exists_enqueue_iff evs (fun ty => ty = OpType.OpTypeReferenceValidation.String),
    exists_ok_iff evs (fun ty => ty = OpType.OpTypeSchemaModuleValidation.String),
    exists_enqueue_iff evs (fun ty => ty = OpType.OpTypeSchemaModuleValidation.String
      ∨ ty = OpType.OpTypeReferenceValidation.String)]
  rcases h with ⟨err, rfl⟩ | ⟨e, err, rfl⟩ | ⟨e, t, err, rfl⟩ | ⟨e, t, o, hg, rfl⟩ |
    ⟨e, t, o, err, hg, rfl⟩ | ⟨e, t, o, sv, r2, hg, rfl⟩
  · simp [enqueuedTypes, okTypes, failedTypes, preloadJob, OpType.String]
  · simp [enqueuedTypes, okTypes, failedTypes, preloadJob, refTargetsJob, OpType.String]
  · simp [enqueuedTypes, okTypes, failedTypes, preloadJob, refTargetsJob, refOriginsJob,
      OpType.String]
  · have hg2 : d.isFirstLevel = true → d.validationOptions.EnableEnhancedValidation = false := by
      simpa using hg
    simp [enqueuedTypes, okTypes, failedTypes, preloadJob, refTargetsJob, refOriginsJob,
      OpType.String]
    exact hg2
  · have hg2 : d.isFirstLevel = true ∧ d.validationOptions.EnableEnhancedValidation = true := by
      simpa using hg
    simp [enqueuedTypes, okTypes, failedTypes, preloadJob, refTargetsJob, refOriginsJob,
      schemaValidationJob, OpType.String, hg2]
  · have hg2 : d.isFirstLevel = true ∧ d.validationOptions.EnableEnhancedValidation = true := by
      simpa using hg
    cases r2 <;>
    simp [enqueuedTypes, okTypes, failedTypes, preloadJob, refTargetsJob, refOriginsJob,
      schemaValidationJob, referenceValidationJob, OpType.String, hg2]

/-- C7: for the continuation of the metadata job that `decodeModule` enqueues under a
context, and the events it adds after the module-call fan-out: provided no enqueue of
the preload, reference-targets or reference-origins job failed, a schema-validation job
is passed to `EnqueueJob` if and only if `isFirstLevel` is true and the validation
options read from that context have `EnableEnhancedValidation` true, and a
reference-validation job is passed to `EnqueueJob` if and only if, in addition, the
schema-validation enqueue returned an id; and when the context holds no validation
options, no validation job is enqueued at all. -/
theorem metadataDefer_validation_gate (env : Env) (ctx0 ctx : Context) (w : World)
    (dir : DirHandle) (ign first : Bool) (parseId : ID) (d : DeferFn)
    (jobErr : Option Error)
    (hd : (metadataJob dir ign first (ValidationOptionsOf ctx0).1 parseId).Defer = some d) :
    ((¬ ∃ j err, Event.enqueue j (.error err)
            ∈ newEvents (deferModuleCalls env d ctx w).1 (metadataDefer env d ctx w jobErr).1
          ∧ (j.JobType = OpType.OpTypePreloadEmbeddedSchema.String
            ∨ j.JobType = OpType.OpTypeDecodeReferenceTargets.String
            ∨ j.JobType = OpType.OpTypeDecodeReferenceOrigins.String)) →
        ((∃ j r, Event.enqueue j r
              ∈ newEvents (deferModuleCalls env d ctx w).1 (metadataDefer env d ctx w jobErr).1
            ∧ j.JobType = OpType.OpTypeSchemaModuleValidation.String)
          ↔ (first = true ∧ (ValidationOptionsOf ctx0).1.EnableEnhancedValidation = true))
        ∧ ((∃ j r, Event.enqueue j r
              ∈ newEvents (deferModuleCalls env d ctx w).1 (metadataDefer env d ctx w jobErr).1
            ∧ j.JobType = OpType.OpTypeReferenceValidation.String)
          ↔ (first = true ∧ (ValidationOptionsOf ctx0).1.EnableEnhancedValidation = true
              ∧ ∃ j id, Event.enqueue j (.ok id)
                  ∈ newEvents (deferModuleCalls env d ctx w).1
                    (metadataDefer env d ctx w jobErr).1
                ∧ j.JobType = OpType.OpTypeSchemaModuleValidation.String)))
      ∧ (ctx0.valueValidationOptions = none →
        ¬ ∃ j r, Event.enqueue j r
            ∈ newEvents (deferModuleCalls env d ctx w).1 (metadataDefer env d ctx w jobErr).1
          ∧ (j.JobType = OpType.OpTypeSchemaModuleValidation.String
            ∨ j.JobType = OpType.OpTypeReferenceValidation.String)) := by
  simp only [metadataJob, Option.some.injEq] at hd
  subst hd
  have hev := deferEnqueues_events env
    ⟨dir, ign, first, (ValidationOptionsOf ctx0).1⟩ ctx
    (deferModuleCalls env ⟨dir, ign, first, (ValidationOptionsOf ctx0).1⟩ ctx w).1
    (deferModuleCalls env ⟨dir, ign, first, (ValidationOptionsOf ctx0).1⟩ ctx w).2.1
    (deferModuleCalls env ⟨dir, ign, first, (ValidationOptionsOf ctx0).1⟩ ctx w).2.2
  have hgate := continuationEvents_gate _ _ _ hev.2
  refine ⟨hgate.1, ?_⟩
  intro hnone
  apply hgate.2
  simp [ValidationOptionsOf, hnone]

/-- Witness of C7: with enhanced validation enabled in the context, the continuation of
the first-level module "/a" enqueues a schema-validation job and a reference-validation
job. -/
theorem metadataDefer_validation_gate_witness :
    (∃ j r, Event.enqueue j r
        ∈ newEvents (deferModuleCalls Env.quiet sampleDefer [] callerWorld).1
            (metadataDefer Env.quiet sampleDefer [] callerWorld none).1
        ∧ j.JobType = OpType.OpTypeSchemaModuleValidation.String)
      ∧ (∃ j r, Event.enqueue j r
        ∈ newEvents (deferModuleCalls Env.quiet sampleDefer [] callerWorld).1
            (metadataDefer Env.quiet sampleDefer [] callerWorld none).1
        ∧ j.JobType = OpType.OpTypeReferenceValidation.String) :=
  ⟨((metadataDefer_validation_gate Env.quiet [.validationOptions ⟨true⟩] [] callerWorld
      ⟨"/a"⟩ false true "" sampleDefer none rfl).1
      ((exists_failed_iff
        (newEvents (deferModuleCalls Env.quiet sampleDefer [] callerWorld).1
          (metadataDefer Env.quiet sampleDefer [] callerWorld none).1)
        (fun ty => ty = OpType.OpTypePreloadEmbeddedSchema.String
          ∨ ty = OpType.OpTypeDecodeReferenceTargets.String
          ∨ ty = OpType.OpTypeDecodeReferenceOrigins.String)).not.mpr (by decide))).1.mpr ⟨rfl, rfl⟩,
    ((metadataDefer_validation_gate Env.quiet [.validationOptions ⟨true⟩] [] callerWorld
      ⟨"/a"⟩ false true "" sampleDefer none rfl).1
      ((exists_failed_iff
        (newEvents (deferModuleCalls Env.quiet sampleDefer [] callerWorld).1
          (metadataDefer Env.quiet sampleDefer [] callerWorld none).1)
        (fun ty => ty = OpType.OpTypePreloadEmbeddedSchema.String
          ∨ ty = OpType.OpTypeDecodeReferenceTargets.String
          ∨ ty = OpType.OpTypeDecodeReferenceOrigins.String)).not.mpr (by decide))).2.mpr
      ⟨rfl, rfl, (exists_ok_iff
        (newEvents (deferModuleCalls Env.quiet sampleDefer [] callerWorld).1
          (metadataDefer Env.quiet sampleDefer [] callerWorld none).1)
        (fun ty => ty = OpType.OpTypeSchemaModuleValidation.String)).mpr (by decide)⟩⟩

/-- The first event `decodeModule` adds is the enqueue of the parse job. -/
theorem decodeModule_first_event (env : Env) (ctx : Context) (w : World) (dir : DirHandle)
    (ign first : Bool) :
    ∃ r rest, newEvents w (decodeModule env ctx w dir ign first).1
      = Event.enqueue (parseJob dir ign) r :: rest := by
  rcases decodeModule_cases env ctx w dir ign first with
    ⟨err, _, _, hev⟩ | ⟨p, err, _, _, _, hev⟩ | ⟨p, m, _, _, _, _, hev⟩ |
    ⟨p, m, r, _, _, _, _, hev⟩ <;>
  exact ⟨_, _, hev⟩

/-- The trace after `ModuleStore.Add`. -/
theorem Add_trace (env : Env) (w : World) (path : String) :
    (ModuleStore.Add env w path).1.trace = w.trace ++ [Event.store (.Add path)] := by
  unfold ModuleStore.Add
  cases env.storeFault w (.Add path) with
  | some msg => rfl
  | none =>
    by_cases h : w.modules.any (fun m => m.path == path) = true
    · simp [h, logCall]
    · simp [h, logCall]

/-- The events of a `decodeModule` run that follows a `ModuleStore.Add`. -/
theorem add_then_decode_events (env : Env) (ctx : Context) (w : World) (path : String)
    (ign : Bool) :
    ∃ r rest, newEvents w
        (decodeModule env ctx (ModuleStore.Add env w path).1 (DirHandleFromPath path) ign
          false).1
      = Event.store (.Add path)
        :: Event.enqueue (parseJob (DirHandleFromPath path) ign) r :: rest := by
  obtain ⟨r, rest, hev⟩ := decodeModule_first_event env ctx (ModuleStore.Add env w path).1
    (DirHandleFromPath path) ign false
  have hext := decodeModule_extends env ctx (ModuleStore.Add env w path).1
    (DirHandleFromPath path) ign false
  rw [hev, Add_trace] at hext
  refine ⟨r, rest, newEvents_of_trace _ _ _ ?_⟩
  rw [hext]
  simp

/-- C10: for a declared module call that resolves to a path which is an existing
directory: if `Store.Add` fails with an already-exists error, the called module is
decoded with `ignoreState` false (and not as first level); if `Store.Add` succeeds, it is
decoded with the `ignoreState` of the caller; in both cases the ids of that
`decodeModule` run are appended and the enqueue of its parse job, carrying that flag,
follows the `Add` call; if `Store.Add` fails with any other error, the job ids are left
as they were and the `Add` call is the only event of the iteration, so that no job is
enqueued for the call. -/
theorem declaredModuleCallStep_add (env : Env) (ctx : Context) (dir : DirHandle)
    (ign : Bool) (errs : Option (List Error)) (w : World) (ids : List ID)
    (mc : DeclaredModuleCall) (mcPath : String)
    (hpath : moduleCallPath env w dir mc = some mcPath)
    (hstat : env.stat mcPath = .ok true) :
    (∀ err, (ModuleStore.Add env w mcPath).2 = some err →
        errorsAsAlreadyExists err = true →
        declaredModuleCallStep env ctx dir ign errs (w, ids) mc
            = ((decodeModule env ctx (ModuleStore.Add env w mcPath).1
                  (DirHandleFromPath mcPath) false false).1,
                ids ++ (decodeModule env ctx (ModuleStore.Add env w mcPath).1
                  (DirHandleFromPath mcPath) false false).2.1)
          ∧ ∃ r rest, newEvents w (declaredModuleCallStep env ctx dir ign errs (w, ids) mc).1
              = Event.store (.Add mcPath)
                :: Event.enqueue (parseJob (DirHandleFromPath mcPath) false) r :: rest)
      ∧ ((ModuleStore.Add env w mcPath).2 = none →
        declaredModuleCallStep env ctx dir ign errs (w, ids) mc
            = ((decodeModule env ctx (ModuleStore.Add env w mcPath).1
                  (DirHandleFromPath mcPath) ign false).1,
                ids ++ (decodeModule env ctx (ModuleStore.Add env w mcPath).1
                  (DirHandleFromPath mcPath) ign false).2.1)
          ∧ ∃ r rest, newEvents w (declaredModuleCallStep env ctx dir ign errs (w, ids) mc).1
              = Event.store (.Add mcPath)
                :: Event.enqueue (parseJob (DirHandleFromPath mcPath) ign) r :: rest)
      ∧ (∀ err, (ModuleStore.Add env w mcPath).2 = some err →
        errorsAsAlreadyExists err = false →
        (declaredModuleCallStep env ctx dir ign errs (w, ids) mc).2 = ids
          ∧ newEvents w (declaredModuleCallStep env ctx dir ign errs (w, ids) mc).1
              = [Event.store (.Add mcPath)]) := by
  have htr := Add_trace env w mcPath
  rcases hadd : ModuleStore.Add env w mcPath with ⟨w1, e1⟩
  rw [hadd] at htr
  simp only at htr
  refine ⟨?_, ?_, ?_⟩
  · intro err herr has
    simp only at herr
    subst herr
    have hstep : declaredModuleCallStep env ctx dir ign errs (w, ids) mc
        = ((decodeModule env ctx w1 (DirHandleFromPath mcPath) false false).1,
            ids ++ (decodeModule env ctx w1 (DirHandleFromPath mcPath) false false).2.1) := by
      simp [declaredModuleCallStep, hpath, hstat, hadd, has]
    refine ⟨hstep, ?_⟩
    rw [hstep]
    have h := add_then_decode_events env ctx w mcPath false
    rw [hadd] at h
    exact h
  · intro hnone
    simp only at hnone
    subst hnone
    have hstep : declaredModuleCallStep env ctx dir ign errs (w, ids) mc
        = ((decodeModule env ctx w1 (DirHandleFromPath mcPath) ign false).1,
            ids ++ (decodeModule env ctx w1 (DirHandleFromPath mcPath) ign false).2.1) := by
      simp [declaredModuleCallStep, hpath, hstat, hadd]
    refine ⟨hstep, ?_⟩
    rw [hstep]
    have h := add_then_decode_events env ctx w mcPath ign
    rw [hadd] at h
    exact h
  · intro err herr has
    simp only at herr
    subst herr
    have hstep : declaredModuleCallStep env ctx dir ign errs (w, ids) mc = (w1, ids) := by
      simp [declaredModuleCallStep, hpath, hstat, hadd, has]
    rw [hstep]
    exact ⟨rfl, newEvents_of_trace _ _ _ htr⟩

/-- Witness of C10: the call of "sub" from "/a" with the caller ignoring state, when
"/a/sub" already has a record (decoded with the flag false), when it has none (decoded
with the flag of the caller), and when the insert fails otherwise (nothing enqueued). -/
theorem declaredModuleCallStep_add_witness :
    (∃ r rest, newEvents calledWorld
        (declaredModuleCallStep Env.quiet [] ⟨"/a"⟩ true none (calledWorld, []) sampleCall).1
        = Event.store (.Add "/a/sub")
          :: Event.enqueue (parseJob (DirHandleFromPath "/a/sub") false) r :: rest)
      ∧ (∃ r rest, newEvents callerWorld
        (declaredModuleCallStep Env.quiet [] ⟨"/a"⟩ true none (callerWorld, []) sampleCall).1
        = Event.store (.Add "/a/sub")
          :: Event.enqueue (parseJob (DirHandleFromPath "/a/sub") true) r :: rest)
      ∧ newEvents callerWorld
        (declaredModuleCallStep Env.faulty [] ⟨"/a"⟩ true none (callerWorld, []) sampleCall).1
        = [Event.store (.Add "/a/sub")] :=
  ⟨((declaredModuleCallStep_add Env.quiet [] ⟨"/a"⟩ true none calledWorld [] sampleCall
      "/a/sub" (by decide) (by decide)).1 (.AlreadyExistsError "/a/sub") (by decide)
      (by decide)).2,
    ((declaredModuleCallStep_add Env.quiet [] ⟨"/a"⟩ true none callerWorld [] sampleCall
      "/a/sub" (by decide) (by decide)).2.1 (by decide)).2,
    ((declaredModuleCallStep_add Env.faulty [] ⟨"/a"⟩ true none callerWorld [] sampleCall
      "/a/sub" (by decide) (by decide)).2.2 (.Failure "insert failed") (by decide)
      (by decide)).2⟩

/-- A world grows from itself by no event. -/
theorem Grows.refl (Q : Event → Prop) (w : World) : Grows Q w w :=
  ⟨[], by simp, by simp⟩

/-- Growth composes. -/
theorem Grows.trans {Q : Event → Prop} {w1 w2 w3 : World} (h12 : Grows Q w1 w2)
    (h23 : Grows Q w2 w3) : Grows Q w1 w3 := by
  obtain ⟨evs1, ht1, hq1⟩ := h12
  obtain ⟨evs2, ht2, hq2⟩ := h23
  refine ⟨evs1 ++ evs2, by rw [ht2, ht1, List.append_assoc], ?_⟩
  intro e he
  rcases List.mem_append.mp he with h | h
  · exact hq1 e h
  · exact hq2 e h

/-- The new events of a growth satisfy the property of the growth. -/
theorem Grows.all_new {Q : Event → Prop} {w w2 : World} (h : Grows Q w w2) :
    ∀ e ∈ newEvents w w2, Q e := by
  obtain ⟨evs, ht, hq⟩ := h
  rw [newEvents_of_trace w w2 evs ht]
  exact hq

/-- A growth read off the new events. -/
theorem Grows.of_new {Q : Event → Prop} {w w2 : World}
    (hext : w2.trace = w.trace ++ newEvents w w2) (hq : ∀ e ∈ newEvents w w2, Q e) :
    Grows Q w w2 :=
  ⟨_, hext, hq⟩

/-- The jobs `decodeModule` enqueues for a module that is not first level nest at most
one level deep. -/
theorem decodeModule_grows (env : Env) (ctx : Context) (w : World) (dir : DirHandle)
    (ign : Bool) : Grows (lowEvent 1) w (decodeModule env ctx w dir ign false).1 := by
  apply Grows.of_new (decodeModule_extends env ctx w dir ign false)
  rcases decodeModule_cases env ctx w dir ign false with
    ⟨err, _, _, hev⟩ | ⟨p, err, _, _, _, hev⟩ | ⟨p, m, _, _, _, _, hev⟩ |
    ⟨p, m, r, _, _, hf, _, _⟩
  · rw [hev]
    intro e he j r hj
    simp only [List.mem_singleton] at he
    rw [he] at hj
    cases hj
    simp [jobLevel, parseJob]
  · rw [hev]
    intro e he j r hj
    simp only [List.mem_cons, List.mem_singleton, List.not_mem_nil, or_false] at he
    rcases he with he | he <;> rw [he] at hj <;> cases hj <;>
      simp [jobLevel, parseJob, metadataJob]
  · rw [hev]
    intro e he j r hj
    simp only [List.mem_cons, List.mem_singleton, List.not_mem_nil, or_false] at he
    rcases he with he | he <;> rw [he] at hj <;> cases hj <;>
      simp [jobLevel, parseJob, metadataJob]
  · cases hf

/-- One iteration of the fan-out loop enqueues only jobs that nest at most one level
deep. -/
theorem declaredModuleCallStep_grows (env : Env) (ctx : Context) (dir : DirHandle)
    (ign : Bool) (errs : Option (List Error)) (acc : World × List ID)
    (mc : DeclaredModuleCall) :
    Grows (lowEvent 1) acc.1 (declaredModuleCallStep env ctx dir ign errs acc mc).1 := by
  unfold declaredModuleCallStep
  cases moduleCallPath env acc.1 dir mc with
  | none => exact Grows.refl _ _
  | some mcPath =>
    simp only
    cases env.stat mcPath with
    | error err => exact Grows.refl _ _
    | ok b =>
      cases b with
      | false => exact Grows.refl _ _
      | true =>
        simp only
        have hadd := Add_trace env acc.1 mcPath
        have hstore : Grows (lowEvent 1) acc.1 (ModuleStore.Add env acc.1 mcPath).1 :=
          ⟨_, hadd, by
            intro e he j r hj
            simp only [List.mem_singleton] at he
            rw [he] at hj
            cases hj⟩
        rcases hA : ModuleStore.Add env acc.1 mcPath with ⟨w1, e1⟩
        rw [hA] at hstore
        cases e1 with
        | none => exact hstore.trans (decodeModule_grows env ctx w1 _ ign)
        | some err =>
          simp only
          cases errorsAsAlreadyExists err with
          | false => exact hstore
          | true => exact hstore.trans (decodeModule_grows env ctx w1 _ false)

/-- The fan-out loop enqueues only jobs that nest at most one level deep. -/
theorem foldl_step_grows (env : Env) (ctx : Context) (dir : DirHandle) (ign : Bool)
    (errs : Option (List Error)) (declared : List DeclaredModuleCall)
    (acc : World × List ID) :
    Grows (lowEvent 1) acc.1
      (declared.foldl (declaredModuleCallStep env ctx dir ign errs) acc).1 := by
  induction declared generalizing acc with
  | nil => exact Grows.refl _ _
  | cons mc rest ih =>
    simp only [List.foldl_cons]
    exact (declaredModuleCallStep_grows env ctx dir ign errs acc mc).trans (ih _)

/-- The trace after `decodeDeclaredModuleCalls`: the `DeclaredModuleCalls` store call,
then events that enqueue only jobs nesting at most one level deep. -/
theorem decodeDeclaredModuleCalls_trace (env : Env) (ctx : Context) (w : World)
    (dir : DirHandle) (ign : Bool) :
    ∃ evs, (decodeDeclaredModuleCalls env ctx w dir ign).1.trace
        = w.trace ++ Event.store (.DeclaredModuleCalls dir.Path) :: evs
      ∧ ∀ e ∈ evs, lowEvent 1 e := by
  unfold decodeDeclaredModuleCalls ModuleStore.DeclaredModuleCalls
  cases env.storeFault w (.DeclaredModuleCalls dir.Path) with
  | some msg => exact ⟨[], by simp [logCall], by simp⟩
  | none =>
    simp only
    cases w.modules.find? (fun m => m.path == dir.Path) with
    | none => exact ⟨[], by simp [logCall], by simp⟩
    | some m =>
      simp only
      obtain ⟨evs, ht, hq⟩ := foldl_step_grows env ctx dir ign none m.Meta.ModuleCalls
        (logCall w (.DeclaredModuleCalls dir.Path), [])
      exact ⟨evs, by rw [ht]; simp [logCall], hq⟩

/-- Events of one of the six shapes are enqueues of jobs without a continuation. -/
theorem continuationEvents_plain (d : DeferFn) (modCalls : List ID) (evs : List Event)
    (h : continuationEvents d modCalls evs) : ∀ e ∈ evs, plainEnqueue e := by
  intro ev hmem
  rcases h with ⟨err, rfl⟩ | ⟨e, err, rfl⟩ | ⟨e, t, err, rfl⟩ | ⟨e, t, o, _, rfl⟩ |
    ⟨e, t, o, err, _, rfl⟩ | ⟨e, t, o, sv, r2, _, rfl⟩ <;>
  simp only [List.mem_cons, List.mem_singleton, List.not_mem_nil, or_false] at hmem <;>
  rcases hmem with rfl | rfl | rfl | rfl | rfl <;>
  exact ⟨_, _, rfl, rfl⟩

/-- The enqueues of the metadata continuation add only enqueues of jobs without a
continuation. -/
theorem deferEnqueues_grows (env : Env) (d : DeferFn) (ctx : Context) (w : World)
    (modCalls deferIds : List ID) :
    Grows plainEnqueue w (deferEnqueues env d ctx w modCalls deferIds).1 :=
  Grows.of_new (deferEnqueues_events env d ctx w modCalls deferIds).1
    (continuationEvents_plain d modCalls _ (deferEnqueues_events env d ctx w modCalls
      deferIds).2)

/-- An enqueue of a job without a continuation nests no deeper than any bound. -/
theorem plainEnqueue_low (n : Nat) (e : Event) (h : plainEnqueue e) : lowEvent n e := by
  obtain ⟨j, r, he, hd⟩ := h
  intro j2 r2 hj
  rw [he] at hj
  cases hj
  simp [jobLevel, hd]

/-- A growth by events of one kind is a growth by events of any weaker kind. -/
theorem Grows.mono {Q R : Event → Prop} {w w2 : World} (h : Grows Q w w2)
    (hqr : ∀ e, Q e → R e) : Grows R w w2 := by
  obtain ⟨evs, ht, hq⟩ := h
  exact ⟨evs, ht, fun e he => hqr e (hq e he)⟩

/-- The events of a first-level metadata continuation: the `DeclaredModuleCalls` store
call first, then events that enqueue only jobs nesting at most one level deep. -/
theorem metadataDefer_first (env : Env) (d : DeferFn) (ctx : Context) (w : World)
    (jobErr : Option Error) (hfirst : d.isFirstLevel = true) :
    ∃ evs, newEvents w (metadataDefer env d ctx w jobErr).1
        = Event.store (.DeclaredModuleCalls d.dir.Path) :: evs
      ∧ ∀ e ∈ evs, lowEvent 1 e := by
  obtain ⟨evs1, ht1, hq1⟩ := decodeDeclaredModuleCalls_trace env ctx w d.dir d.ignoreState
  have hfan : (deferModuleCalls env d ctx w).1
      = (decodeDeclaredModuleCalls env ctx w d.dir d.ignoreState).1 := by
    simp [deferModuleCalls, hfirst]
  obtain ⟨evs2, ht2, hq2⟩ := deferEnqueues_grows env d ctx (deferModuleCalls env d ctx w).1
    (deferModuleCalls env d ctx w).2.1 (deferModuleCalls env d ctx w).2.2
  have hfantr : (deferModuleCalls env d ctx w).1.trace
      = w.trace ++ Event.store (.DeclaredModuleCalls d.dir.Path) :: evs1 := by
    rw [hfan]
    exact ht1
  rw [hfantr] at ht2
  refine ⟨evs1 ++ evs2, newEvents_of_trace _ _ _ ?_, ?_⟩
  · show (deferEnqueues env d ctx (deferModuleCalls env d ctx w).1
      (deferModuleCalls env d ctx w).2.1 (deferModuleCalls env d ctx w).2.2).1.trace = _
    rw [ht2]
    simp
  · intro e he
    rcases List.mem_append.mp he with h | h
    · exact hq1 e h
    · exact plainEnqueue_low 1 e (hq2 e h)

/-- The events of a metadata continuation that is not first level: only enqueues of
jobs without a continuation. -/
theorem metadataDefer_nested (env : Env) (d : DeferFn) (ctx : Context) (w : World)
    (jobErr : Option Error) (hfirst : d.isFirstLevel = false) :
    ∀ e ∈ newEvents w (metadataDefer env d ctx w jobErr).1, plainEnqueue e := by
  have hfan : deferModuleCalls env d ctx w = (w, [], []) := by
    simp [deferModuleCalls, hfirst]
  have h := deferEnqueues_grows env d ctx w [] []
  unfold metadataDefer
  rw [hfan]
  exact h.all_new

/-- A job among the enqueued jobs of a list of events has an enqueue event there. -/
theorem mem_enqueuedJobs (evs : List Event) (j : Job) (h : j ∈ enqueuedJobs evs) :
    ∃ id, Event.enqueue j (.ok id) ∈ evs := by
  unfold enqueuedJobs at h
  obtain ⟨e, he, hf⟩ := List.mem_filterMap.mp h
  rcases e with c | ⟨j2, err | id⟩
  · simp at hf
  · simp at hf
  · simp only [Option.some.injEq] at hf
    subst hf
    exact ⟨id, he⟩

/-- No job nests deeper than two levels. -/
theorem jobLevel_le_two (j : Job) : jobLevel j ≤ 2 := by
  unfold jobLevel
  cases j.Defer with
  | none => simp
  | some d =>
    simp only
    split <;> omega

/-- The jobs a continuation enqueues nest less deep than the job it belongs to. -/
theorem continuation_jobs_level (env : Env) (ctx : Context) (w : World)
    (jobErr : Option Error) (j0 : Job) (d : DeferFn) (hd : j0.Defer = some d) (j : Job)
    (hj : j ∈ enqueuedJobs (newEvents w (metadataDefer env d ctx w jobErr).1)) :
    jobLevel j < jobLevel j0 := by
  obtain ⟨id, hmem⟩ := mem_enqueuedJobs _ j hj
  cases hfirst : d.isFirstLevel with
  | false =>
    obtain ⟨j2, r2, he, hnone⟩ := metadataDefer_nested env d ctx w jobErr hfirst _ hmem
    cases he
    simp [jobLevel, hd, hfirst, hnone]
  | true =>
    obtain ⟨evs, hev, hq⟩ := metadataDefer_first env d ctx w jobErr hfirst
    rw [hev] at hmem
    simp only [List.mem_cons] at hmem
    rcases hmem with hc | hmem
    · cases hc
    · have h1 := hq _ hmem j (.ok id) rfl
      simp only [jobLevel, hd, hfirst, if_true]
      exact Nat.lt_succ_of_le h1

/-- Running a list of jobs gives a world when running each of them does. -/
theorem runJobs_some (env : Env) (ctx : Context) (next : World → List Job → Option World)
    (js : List Job)
    (h : ∀ j ∈ js, ∀ w, ∃ w2, runJob env ctx next w j = some w2) (w : World) :
    ∃ w2, runJobs env ctx next w js = some w2 := by
  induction js generalizing w with
  | nil => exact ⟨w, rfl⟩
  | cons j rest ih =>
    obtain ⟨w1, h1⟩ := h j (List.mem_cons_self _ _) w
    obtain ⟨w2, h2⟩ := ih (fun j2 hj2 => h j2 (List.mem_cons_of_mem _ hj2)) w1
    exact ⟨w2, by simp [runJobs, h1, h2]⟩

/-- Jobs that nest at most `n` levels deep settle with fuel `n + 1`, in any world and
with any collaborators. -/
theorem settle_some (env : Env) (ctx : Context) (n : Nat) :
    ∀ (js : List Job) (w : World), (∀ j ∈ js, jobLevel j ≤ n) →
      ∃ w2, settle env ctx (n + 1) w js = some w2 := by
  induction n with
  | zero =>
    intro js w hlev
    show ∃ w2, runJobs env ctx (settle env ctx 0) w js = some w2
    apply runJobs_some
    intro j hj w1
    have hl := hlev j hj
    unfold runJob
    cases hD : j.Defer with
    | none => exact ⟨_, rfl⟩
    | some d =>
      exfalso
      simp only [jobLevel, hD] at hl
      split at hl <;> omega
  | succ m ih =>
    intro js w hlev
    show ∃ w2, runJobs env ctx (settle env ctx (m + 1)) w js = some w2
    apply runJobs_some
    intro j hj w1
    have hl := hlev j hj
    unfold runJob
    cases hD : j.Defer with
    | none => exact ⟨_, rfl⟩
    | some d =>
      simp only
      apply ih
      intro j2 hj2
      have hlt := continuation_jobs_level env ctx _ _ j d hD j2 hj2
      omega

/-- C9: the metadata continuation makes the `DeclaredModuleCalls` store call with which
`decodeDeclaredModuleCalls` starts when `isFirstLevel` is true, and makes no store call
at all when it is false; every job with a continuation that `decodeDeclaredModuleCalls`
enqueues has `isFirstLevel` false in that continuation; and therefore, for every world
(so for every module-call graph in the store, cyclic ones included), all collaborators
and both values of every flag, running the jobs enqueued by `decodeModule`, their
continuations, the jobs those enqueue and so on comes to an end: fuel three is enough,
whatever the module-call graph. -/
theorem moduleCalls_nest_one_level (env : Env) (ctx : Context) (w : World) :
    (∀ (d : DeferFn) (jobErr : Option Error),
        (d.isFirstLevel = true →
          Event.store (.DeclaredModuleCalls d.dir.Path)
            ∈ newEvents w (metadataDefer env d ctx w jobErr).1)
        ∧ (d.isFirstLevel = false →
          ∀ c, Event.store c ∉ newEvents w (metadataDefer env d ctx w jobErr).1))
      ∧ (∀ (dir : DirHandle) (ign : Bool) (j : Job) (r : Except Error ID) (d : DeferFn),
          Event.enqueue j r ∈ newEvents w (decodeDeclaredModuleCalls env ctx w dir ign).1 →
          j.Defer = some d → d.isFirstLevel = false)
      ∧ (∀ (dir : DirHandle) (ign first : Bool) (fuel : Nat),
          ∃ w2, settle env ctx (fuel + 3) (decodeModule env ctx w dir ign first).1
            (enqueuedJobs (newEvents w (decodeModule env ctx w dir ign first).1))
              = some w2) := by
  refine ⟨?_, ?_, ?_⟩
  · intro d jobErr
    refine ⟨?_, ?_⟩
    · intro hfirst
      obtain ⟨evs, hev, _⟩ := metadataDefer_first env d ctx w jobErr hfirst
      rw [hev]
      exact List.mem_cons_self _ _
    · intro hfirst c hmem
      obtain ⟨j, r, he, _⟩ := metadataDefer_nested env d ctx w jobErr hfirst _ hmem
      cases he
  · intro dir ign j r d hmem hd
    obtain ⟨evs, ht, hq⟩ := decodeDeclaredModuleCalls_trace env ctx w dir ign
    rw [newEvents_of_trace _ _ _ ht] at hmem
    simp only [List.mem_cons] at hmem
    rcases hmem with hc | hmem
    · cases hc
    · have h1 := hq _ hmem j r rfl
      simp only [jobLevel, hd] at h1
      cases hf : d.isFirstLevel with
      | false => rfl
      | true =>
        rw [hf] at h1
        simp at h1
  · intro dir ign first fuel
    exact settle_some env ctx (fuel + 2) _ _
      (fun j _ => Nat.le_trans (jobLevel_le_two j) (Nat.le_add_left 2 fuel))

/-- Witness of C9: a module whose one module call resolves to its own directory (a
cycle of length one) settles with fuel three. -/
theorem moduleCalls_nest_one_level_witness :
    ∃ w2, settle Env.cyclic [] 3 (decodeModule Env.cyclic [] calledWorld ⟨"/a"⟩ false true).1
      (enqueuedJobs (newEvents calledWorld
        (decodeModule Env.cyclic [] calledWorld ⟨"/a"⟩ false true).1)) = some w2 :=
  (moduleCalls_nest_one_level Env.cyclic [] calledWorld).2.2 ⟨"/a"⟩ false true 0

/-- The trace after `ModuleStore.AddIfNotExists`. -/
theorem AddIfNotExists_trace (env : Env) (w : World) (path : String) :
    (ModuleStore.AddIfNotExists env w path).1.trace
      = w.trace ++ [Event.store (.AddIfNotExists path)] := by
  unfold ModuleStore.AddIfNotExists
  cases env.storeFault w (.AddIfNotExists path) with
  | some msg => rfl
  | none =>
    by_cases h : w.modules.any (fun m => m.path == path) = true
    · simp [h, logCall]
    · simp [h, logCall]

/-- The trace after `ModuleStore.Exists`. -/
theorem Exists_trace (env : Env) (w : World) (path : String) :
    (ModuleStore.Exists env w path).1.trace = w.trace ++ [Event.store (.Exists path)] := by
  unfold ModuleStore.Exists
  cases env.storeFault w (.Exists path) <;> rfl

/-- C11: for a recognised configuration language id, `didOpen` calls `AddIfNotExists`
for the directory and, when that fails, returns its error with an empty id list, the
call being the only event (no job is enqueued); for any language id, with the world left
by that registration (or the world as it was when the language id is not recognised), if
`Exists` then reports no record it returns an empty id list and no error and enqueues
nothing, and otherwise it returns exactly what `decodeModule` returns for the directory
with `ignoreState` false and `isFirstLevel` true. -/
theorem didOpen_cases (env : Env) (ctx : Context) (w : World) (dir : DirHandle)
    (languageID : String) :
    (env.IsValidConfigLanguage languageID = true →
        ∀ err, (ModuleStore.AddIfNotExists env w dir.Path).2 = some err →
          didOpen env ctx w dir languageID
              = ((ModuleStore.AddIfNotExists env w dir.Path).1, [], some err)
            ∧ newEvents w (didOpen env ctx w dir languageID).1
              = [Event.store (.AddIfNotExists dir.Path)])
      ∧ (∀ w1 : World,
          (env.IsValidConfigLanguage languageID = true
              ∧ ModuleStore.AddIfNotExists env w dir.Path = (w1, none))
            ∨ (env.IsValidConfigLanguage languageID = false ∧ w1 = w) →
          ((ModuleStore.Exists env w1 dir.Path).2 = false →
              didOpen env ctx w dir languageID
                  = ((ModuleStore.Exists env w1 dir.Path).1, [], none)
                ∧ ∀ j r, Event.enqueue j r ∉ newEvents w (didOpen env ctx w dir languageID).1)
            ∧ ((ModuleStore.Exists env w1 dir.Path).2 = true →
              didOpen env ctx w dir languageID
                = decodeModule env ctx (ModuleStore.Exists env w1 dir.Path).1 dir false
                    true)) := by
  refine ⟨?_, ?_⟩
  · intro hvalid err herr
    have htr := AddIfNotExists_trace env w dir.Path
    rcases hadd : ModuleStore.AddIfNotExists env w dir.Path with ⟨w1, e1⟩
    rw [hadd] at herr htr
    simp only at herr htr
    subst herr
    have hres : didOpen env ctx w dir languageID = (w1, [], some err) := by
      simp [didOpen, hvalid, hadd]
    rw [hres]
    exact ⟨rfl, newEvents_of_trace _ _ _ htr⟩
  · intro w1 hreg
    have hw1 : (if env.IsValidConfigLanguage languageID = true then
          ModuleStore.AddIfNotExists env w dir.Path else (w, none)) = (w1, none)
        ∧ ∃ evs, w1.trace = w.trace ++ evs ∧ ∀ j r, Event.enqueue j r ∉ evs := by
      rcases hreg with ⟨hvalid, hadd⟩ | ⟨hvalid, hw⟩
      · refine ⟨by simp [hvalid, hadd], [Event.store (.AddIfNotExists dir.Path)], ?_, by simp⟩
        have htr := AddIfNotExists_trace env w dir.Path
        rw [hadd] at htr
        exact htr
      · subst hw
        exact ⟨by simp [hvalid], [], by simp, by simp⟩
    obtain ⟨hreg2, evs, htr1, hno⟩ := hw1
    have htr2 := Exists_trace env w1 dir.Path
    rcases hex : ModuleStore.Exists env w1 dir.Path with ⟨w2, b⟩
    rw [hex] at htr2
    simp only at htr2
    refine ⟨?_, ?_⟩
    · intro hb
      simp only at hb
      subst hb
      have hres : didOpen env ctx w dir languageID = (w2, [], none) := by
        simp only [didOpen, hreg2, hex]
      rw [hres]
      refine ⟨rfl, ?_⟩
      have : w2.trace = w.trace ++ (evs ++ [Event.store (.Exists dir.Path)]) := by
        rw [htr2, htr1, List.append_assoc]
      rw [newEvents_of_trace _ _ _ this]
      intro j r hmem
      rcases List.mem_append.mp hmem with h | h
      · exact hno j r h
      · simp at h
    · intro hb
      simp only at hb
      subst hb
      simp only [didOpen, hreg2, hex]

/-- Witness of C11: opening a file of the recognised language in the unknown directory
"/b" registers it and decodes it; opening it in "/a", which has a record, returns the
already-exists error of `AddIfNotExists` with nothing enqueued; opening a file of another
language in "/b" returns no ids and no error. -/
theorem didOpen_cases_witness :
    didOpen Env.quiet [] callerWorld ⟨"/b"⟩ "opentofu"
        = decodeModule Env.quiet []
            (ModuleStore.Exists Env.quiet
              (ModuleStore.AddIfNotExists Env.quiet callerWorld "/b").1 "/b").1
            ⟨"/b"⟩ false true
      ∧ newEvents callerWorld (didOpen Env.quiet [] callerWorld ⟨"/a"⟩ "opentofu").1
        = [Event.store (.AddIfNotExists "/a")]
      ∧ didOpen Env.quiet [] callerWorld ⟨"/b"⟩ "json"
        = ((ModuleStore.Exists Env.quiet callerWorld "/b").1, [], none) :=
  ⟨((didOpen_cases Env.quiet [] callerWorld ⟨"/b"⟩ "opentofu").2
      (ModuleStore.AddIfNotExists Env.quiet callerWorld "/b").1
      (Or.inl ⟨by decide, rfl⟩)).2 (by decide),
    ((didOpen_cases Env.quiet [] callerWorld ⟨"/a"⟩ "opentofu").1 (by decide)
      (.AlreadyExistsError "/a") (by decide)).2,
    (((didOpen_cases Env.quiet [] callerWorld ⟨"/b"⟩ "json").2 callerWorld
      (Or.inr ⟨by decide, rfl⟩)).1 (by decide)).1⟩

/-- The loop of `discover` registers the directory at the first qualifying entry. -/
theorem discover_eq (env : Env) (w : World) (path : String) (files : List String) :
    discover env w path files
      = if files.any (fun f => env.IsModuleFilename f && !env.IsIgnoredFile f) then
          ModuleStore.AddIfNotExists env w path
        else (w, none) := by
  induction files with
  | nil => simp [discover]
  | cons file rest ih =>
    unfold discover
    by_cases hq : (env.IsModuleFilename file && !env.IsIgnoredFile file) = true
    · simp only [hq, if_true, List.any_cons, Bool.true_or]
      rcases ModuleStore.AddIfNotExists env w path with ⟨w1, e1⟩
      cases e1 <;> rfl
    · have hq2 : (env.IsModuleFilename file && !env.IsIgnoredFile file) = false := by
        simpa using hq
      rw [if_neg hq, ih]
      simp only [List.any_cons, hq2, Bool.false_or]

/-- C12: for every file list, `discover` calls `Store.AddIfNotExists(path)` if and only
if some entry is a module filename that is not an ignored file; it then makes that call
exactly once, as its only store call, and returns the world and the error of that call;
when no entry qualifies it returns no error and leaves the world, trace included, as it
was. -/
theorem discover_registers (env : Env) (w : World) (path : String) (files : List String) :
    (files.any (fun f => env.IsModuleFilename f && !env.IsIgnoredFile f) = true →
        discover env w path files = ModuleStore.AddIfNotExists env w path
          ∧ newEvents w (discover env w path files).1
            = [Event.store (.AddIfNotExists path)])
      ∧ (files.any (fun f => env.IsModuleFilename f && !env.IsIgnoredFile f) = false →
        discover env w path files = (w, none))
      ∧ (Event.store (.AddIfNotExists path) ∈ newEvents w (discover env w path files).1
        ↔ files.any (fun f => env.IsModuleFilename f && !env.IsIgnoredFile f) = true) := by
  have heq := discover_eq env w path files
  have hyes : files.any (fun f => env.IsModuleFilename f && !env.IsIgnoredFile f) = true →
      discover env w path files = ModuleStore.AddIfNotExists env w path
        ∧ newEvents w (discover env w path files).1
          = [Event.store (.AddIfNotExists path)] := by
    intro h
    rw [h, if_pos rfl] at heq
    rw [heq]
    exact ⟨rfl, newEvents_of_trace _ _ _ (AddIfNotExists_trace env w path)⟩
  have hno : files.any (fun f => env.IsModuleFilename f && !env.IsIgnoredFile f) = false →
      discover env w path files = (w, none) := by
    intro h
    rw [h] at heq
    simpa using heq
  refine ⟨hyes, hno, ?_⟩
  constructor
  · intro hmem
    cases hany : files.any (fun f => env.IsModuleFilename f && !env.IsIgnoredFile f) with
    | true => rfl
    | false =>
      rw [hno hany] at hmem
      simp [newEvents] at hmem
  · intro h
    rw [(hyes h).2]
    exact List.mem_singleton.mpr rfl

/-- Witness of C12: a directory listing with a swap file and a module file registers the
directory; a listing without a module file leaves the world alone. -/
theorem discover_registers_witness :
    (discover Env.quiet callerWorld "/b" [".main.tf.swp", "README.md", "main.tf"]
        = ModuleStore.AddIfNotExists Env.quiet callerWorld "/b"
      ∧ newEvents callerWorld
          (discover Env.quiet callerWorld "/b" [".main.tf.swp", "README.md", "main.tf"]).1
        = [Event.store (.AddIfNotExists "/b")])
      ∧ discover Env.quiet callerWorld "/b" ["README.md"] = (callerWorld, none) :=
  ⟨(discover_registers Env.quiet callerWorld "/b"
      [".main.tf.swp", "README.md", "main.tf"]).1 (by decide),
    (discover_registers Env.quiet callerWorld "/b" ["README.md"]).2.1 (by decide)⟩

/-- C13 (the code at the failing input): for the Deleted event of "/a/main.tf", which has
no record, in a world where the parent directory "/a" has a record and is gone from disk,
`didChangeWatched` dequeues the jobs of "/a/main.tf" and removes the record of
"/a/main.tf"; the jobs of "/a" are not dequeued, `Remove` is not called for "/a", and
the record of "/a" is still in the store. -/
theorem didChangeWatched_deleted_parent_kept :
    (didChangeWatched Env.deleted [] callerWorld "/a/main.tf" .Deleted false).1.trace
        = [Event.store (.Exists "/a/main.tf"), Event.store (.Exists "/a"),
            Event.store (.DequeueJobsForDir (DirHandleFromPath "/a/main.tf")),
            Event.store (.Remove "/a/main.tf")]
      ∧ (didChangeWatched Env.deleted [] callerWorld "/a/main.tf" .Deleted false).1.modules
        = callerWorld.modules
      ∧ (ModuleStore.Exists Env.deleted
          (didChangeWatched Env.deleted [] callerWorld "/a/main.tf" .Deleted false).1
          "/a").2 = true := by
  refine ⟨?_, ?_, ?_⟩ <;> decide

/-- C19: for every error value, the test `IsTofuNotFound` holds if and only if the
value is a `NoTofuExecPathErr` itself; `EnrichTfExecError` then returns the error with
the fixed message "Tofu (CLI) is required. Please install Tofu or make it available in
$PATH", and for every other value, nil included, it returns its argument unchanged. -/
theorem EnrichTfExecError_spec (err : Option Error) :
    (IsTofuNotFound err = true ↔ err = some .NoTofuExecPathErr)
      ∧ (err = some .NoTofuExecPathErr →
        EnrichTfExecError err
          = some (.Failure
              "Tofu (CLI) is required. Please install Tofu or make it available in $PATH"))
      ∧ (err ≠ some .NoTofuExecPathErr → EnrichTfExecError err = err)
      ∧ EnrichTfExecError none = none := by
  have hiff : IsTofuNotFound err = true ↔ err = some .NoTofuExecPathErr := by
    cases err with
    | none => simp [IsTofuNotFound]
    | some e => cases e <;> simp [IsTofuNotFound]
  refine ⟨hiff, ?_, ?_, ?_⟩
  · intro h
    subst h
    decide
  · intro h
    have : IsTofuNotFound err = false := by
      cases hb : IsTofuNotFound err with
      | false => rfl
      | true => exact absurd (hiff.mp hb) h
    simp [EnrichTfExecError, this]
  · rfl

/-- Witness of C19: the missing-tool error is replaced by the guidance, while the same
error wrapped in another one is returned as it is. -/
theorem EnrichTfExecError_spec_witness :
    EnrichTfExecError (some .NoTofuExecPathErr)
        = some (.Failure
            "Tofu (CLI) is required. Please install Tofu or make it available in $PATH")
      ∧ EnrichTfExecError (some (.Wrap "validate: " .NoTofuExecPathErr))
        = some (.Wrap "validate: " .NoTofuExecPathErr) :=
  ⟨(EnrichTfExecError_spec (some .NoTofuExecPathErr)).2.1 rfl,
    (EnrichTfExecError_spec (some (.Wrap "validate: " .NoTofuExecPathErr))).2.2.1
      (by decide)⟩

/-- C18 (counterexample): a response with status 204, which is a 2xx status, is reported
as a `ClientError` by `GetModuleVersions`, and likewise by `GetModuleData` for the
response to its own request. -/
theorem clientError_on_204 :
    is2xx 204 = true
      ∧ (sampleClient ⟨204, "no content", none⟩ ⟨204, "no content", none⟩).GetModuleVersions
          sampleAddr = .error (.ClientError 204 "no content")
      ∧ (sampleClient ⟨200, "", none⟩ ⟨204, "no content", none⟩).GetModuleData
          sampleAddr ">= 1.0" = .error (.ClientError 204 "no content") := by
  refine ⟨?_, ?_, ?_⟩ <;> decide

/-- C18 (amended): for every response to the request of `GetModuleVersions`, and for
every response to the request that `GetModuleData` makes once a matching version was
found, the call returns a `ClientError` carrying the status code and the body of the
response when the status is not 200 and the body could be read, returns the read error
when it could not, and when the status is 200 returns what decoding the body gives. -/
theorem registry_client_error (c : Client) (addr : ModuleAddr) (resp : HttpResponse) :
    (c.NewRequest (c.versionsURL addr) = none → c.Do (c.versionsURL addr) = .ok resp →
        (resp.StatusCode ≠ 200 → resp.readErr = none →
          c.GetModuleVersions addr = .error (.ClientError resp.StatusCode resp.Body))
        ∧ (resp.StatusCode ≠ 200 → ∀ e, resp.readErr = some e →
          c.GetModuleVersions addr = .error e)
        ∧ (resp.StatusCode = 200 →
          c.GetModuleVersions addr
            = match c.decodeVersions resp with
              | .error err => .error err
              | .ok entries => .ok (c.sortReverse (entries.filterMap c.NewVersion))))
      ∧ (∀ (cons : String) (v : Version),
        c.GetMatchingModuleVersion addr cons = .ok v →
        c.NewRequest (c.moduleDataURL addr v) = none →
        c.Do (c.moduleDataURL addr v) = .ok resp →
        (resp.StatusCode ≠ 200 → resp.readErr = none →
          c.GetModuleData addr cons = .error (.ClientError resp.StatusCode resp.Body))
        ∧ (resp.StatusCode ≠ 200 → ∀ e, resp.readErr = some e →
          c.GetModuleData addr cons = .error e)
        ∧ (resp.StatusCode = 200 →
          c.GetModuleData addr cons
            = match c.decodeModuleData resp with
              | .error err => .error err
              | .ok response => .ok response)) := by
  refine ⟨?_, ?_⟩
  · intro hreq hdo
    refine ⟨?_, ?_, ?_⟩
    · intro hs hr
      simp [Client.GetModuleVersions, hreq, hdo, hs, hr]
    · intro hs e hr
      simp [Client.GetModuleVersions, hreq, hdo, hs, hr]
    · intro hs
      simp [Client.GetModuleVersions, hreq, hdo, hs]
  · intro cons v hv hreq hdo
    refine ⟨?_, ?_, ?_⟩
    · intro hs hr
      simp [Client.GetModuleData, hv, hreq, hdo, hs, hr]
    · intro hs e hr
      simp [Client.GetModuleData, hv, hreq, hdo, hs, hr]
    · intro hs
      simp only [Client.GetModuleData, hv, hreq, hdo, hs]
      cases c.decodeModuleData resp <;> simp

/-- Witness of C18 (amended): a 404 response to the versions request is a `ClientError`
with the status and the body; a 200 response is decoded, entries that are no versions
being dropped. -/
theorem registry_client_error_witness :
    (sampleClient ⟨404, "not found", none⟩ ⟨200, "", none⟩).GetModuleVersions sampleAddr
        = .error (.ClientError 404 "not found")
      ∧ (sampleClient ⟨200, "", none⟩ ⟨200, "", none⟩).GetModuleVersions sampleAddr
        = .ok [[1, 2, 0], [1, 0, 0]]
      ∧ (sampleClient ⟨200, "", none⟩ ⟨500, "oops", none⟩).GetModuleData sampleAddr ">= 1.0"
        = .error (.ClientError 500 "oops") :=
  ⟨((registry_client_error (sampleClient ⟨404, "not found", none⟩ ⟨200, "", none⟩) sampleAddr
      ⟨404, "not found", none⟩).1 (by decide) (by decide)).1 (by decide) (by decide),
    ((registry_client_error (sampleClient ⟨200, "", none⟩ ⟨200, "", none⟩) sampleAddr
      ⟨200, "", none⟩).1 (by decide) (by decide)).2.2 (by decide),
    ((registry_client_error (sampleClient ⟨200, "", none⟩ ⟨500, "oops", none⟩) sampleAddr
      ⟨500, "oops", none⟩).2 ">= 1.0" [1, 2, 0] (by decide) (by decide) (by decide)).1
      (by decide) (by decide)⟩

/-- C14: for every command name other than "editor.action.triggerSuggest" that differs
from every registered handler name as it reads under the command prefix of the session,
`WorkspaceExecuteCommand` returns a nil result and the error that wraps the JSON-RPC
method-not-found error, and the service is left unchanged: no handler was invoked. -/
theorem WorkspaceExecuteCommand_unknown (env : SvcEnv) (ctx : Context) (svc : Service)
    (command : String) (arguments : List String) (workDoneToken : String)
    (hts : command ≠ "editor.action.triggerSuggest")
    (hnot : ∀ h ∈ cmdHandlers svc,
      env.commandName (env.CommandPrefix ctx).1 h.1 ≠ command) :
    WorkspaceExecuteCommand env ctx svc command arguments workDoneToken
        = (svc, none, some (.WrapThen (.CodeErr .MethodNotFound)
            (": command handler not found for " ++ env.Quote command)))
      ∧ errorsIs (.CodeErr .MethodNotFound)
          (.WrapThen (.CodeErr .MethodNotFound)
            (": command handler not found for " ++ env.Quote command)) = true
      ∧ ∀ h args, SvcEvent.invoke h args
          ∈ (WorkspaceExecuteCommand env ctx svc command arguments workDoneToken).1.events →
        SvcEvent.invoke h args ∈ svc.events := by
  have hget : Handlers.Get env (cmdHandlers svc) command (env.CommandPrefix ctx).1 = none := by
    unfold Handlers.Get
    have : (cmdHandlers svc).find?
        (fun h => env.commandName (env.CommandPrefix ctx).1 h.1 == command) = none := by
      rw [List.find?_eq_none]
      intro h hmem
      simpa using hnot h hmem
    rw [this]
    rfl
  have hres : WorkspaceExecuteCommand env ctx svc command arguments workDoneToken
      = (svc, none, some (.WrapThen (.CodeErr .MethodNotFound)
          (": command handler not found for " ++ env.Quote command))) := by
    unfold WorkspaceExecuteCommand
    have hne : (command == "editor.action.triggerSuggest") = false := by
      simpa using hts
    simp only [hne, hget]
    rfl
  refine ⟨hres, ?_, ?_⟩
  · simp [errorsIs]
  · intro h args hmem
    rw [hres] at hmem
    exact hmem

/-- Witness of C14: the command "notfound" of the handler test. -/
theorem WorkspaceExecuteCommand_unknown_witness :
    WorkspaceExecuteCommand SvcEnv.plain [] Service.fresh "notfound" [] ""
        = (Service.fresh, none, some (.WrapThen (.CodeErr .MethodNotFound)
            (": command handler not found for " ++ SvcEnv.plain.Quote "notfound"))) :=
  (WorkspaceExecuteCommand_unknown SvcEnv.plain [] Service.fresh "notfound" [] ""
    (by decide) (by decide)).1

/-- When the registered names read differently from one another under the prefix, the
lookup of a registered name as it reads under the prefix gives its handler. -/
theorem Handlers.Get_of_mem (env : SvcEnv) (commandPrefix : String)
    (hs : List (cmd.Name × CmdHandlerFn)) (k : cmd.Name) (h : CmdHandlerFn)
    (hmem : (k, h) ∈ hs) (hinj : (Handlers.Names env hs commandPrefix).Nodup) :
    Handlers.Get env hs (env.commandName commandPrefix k) commandPrefix = some h := by
  induction hs with
  | nil => cases hmem
  | cons a rest ih =>
    unfold Handlers.Names at hinj ih
    rw [List.map_cons, List.nodup_cons] at hinj
    unfold Handlers.Get at ih ⊢
    rw [List.find?_cons]
    rcases List.mem_cons.mp hmem with heq | hrest
    · subst heq
      simp
    · have hne : ¬ env.commandName commandPrefix a.1 = env.commandName commandPrefix k := by
        intro hc
        apply hinj.1
        rw [hc]
        exact List.mem_map.mpr ⟨(k, h), hrest, rfl⟩
      have hfalse : (env.commandName commandPrefix a.1 == env.commandName commandPrefix k)
          = false := by simpa using hne
      rw [hfalse]
      exact ih hrest hinj.2

/-- Executing a registered command other than the suggest trigger calls its handler with
the progress token put in the context and the arguments parsed. -/
theorem WorkspaceExecuteCommand_registered (env : SvcEnv) (ctx : Context) (svc : Service)
    (arguments : List String) (workDoneToken : String) (k : cmd.Name) (h : CmdHandlerFn)
    (hmem : (k, h) ∈ cmdHandlers svc)
    (hinj : (Handlers.Names env (cmdHandlers svc) (env.CommandPrefix ctx).1).Nodup)
    (hts : env.commandName (env.CommandPrefix ctx).1 k ≠ "editor.action.triggerSuggest") :
    WorkspaceExecuteCommand env ctx svc (env.commandName (env.CommandPrefix ctx).1 k)
        arguments workDoneToken
      = callHandler env svc h (env.WithProgressToken ctx workDoneToken)
          (env.ParseCommandArgs arguments) := by
  have hget := Handlers.Get_of_mem env (env.CommandPrefix ctx).1 (cmdHandlers svc) k h hmem
    hinj
  have hb : (env.commandName (env.CommandPrefix ctx).1 k == "editor.action.triggerSuggest")
      = false := by simpa using hts
  unfold WorkspaceExecuteCommand
  rw [hb]
  simp only [Bool.false_eq_true, if_false]
  rw [hget]

/-- C15: the names `cmdHandlers` registers are exactly `rootmodules` and the six live
commands module.callers, tofu.init, tofu.validate, module.calls, module.providers and
module.opentofu, each once; `rootmodules` is registered with the handler made by
`removedHandler`, which for every context and argument list returns a nil result and the
JSON-RPC error of code method-not-found whose message is "REMOVED: use module.callers
instead" (its `Error()` text has the code in front); each live command is registered
with a method of the command handler.  When the registered names read differently from
one another under the command prefix of the session, executing `rootmodules` as it reads
under the prefix returns that nil result and that error and calls no handler method,
and executing a live command calls its handler method. -/
theorem cmdHandlers_registered (env : SvcEnv) (ctx : Context) (svc : Service)
    (arguments : List String) (workDoneToken : String) :
    (cmdHandlers svc).map (fun h => h.1)
        = [cmd.Name.mk "rootmodules", cmd.Name.mk "module.callers", cmd.Name.mk "tofu.init",
            cmd.Name.mk "tofu.validate", cmd.Name.mk "module.calls",
            cmd.Name.mk "module.providers", cmd.Name.mk "module.opentofu"]
      ∧ ((cmdHandlers svc).map (fun h => h.1)).Nodup
      ∧ (cmd.Name.mk "rootmodules", CmdHandlerFn.removedHandler "use module.callers instead")
          ∈ cmdHandlers svc
      ∧ (∀ (c : Context) (args : List String),
          removedHandler "use module.callers instead" c args
            = (none, some (.JrpcError .MethodNotFound
                "REMOVED: use module.callers instead" none)))
      ∧ (Error.JrpcError .MethodNotFound "REMOVED: use module.callers instead" none).message
          = "[-32601] REMOVED: use module.callers instead"
      ∧ (∀ name ∈ [cmd.Name.mk "module.callers", cmd.Name.mk "module.calls",
            cmd.Name.mk "module.providers", cmd.Name.mk "module.opentofu",
            cmd.Name.mk "tofu.init", cmd.Name.mk "tofu.validate"],
          ∃ h, (name, h) ∈ cmdHandlers svc ∧ ∀ m, h ≠ .removedHandler m)
      ∧ ((Handlers.Names env (cmdHandlers svc) (env.CommandPrefix ctx).1).Nodup →
          (env.commandName (env.CommandPrefix ctx).1 (cmd.Name.mk "rootmodules")
              ≠ "editor.action.triggerSuggest" →
            WorkspaceExecuteCommand env ctx svc
                (env.commandName (env.CommandPrefix ctx).1 (cmd.Name.mk "rootmodules"))
                arguments workDoneToken
              = (svc, none, some (.JrpcError .MethodNotFound
                  "REMOVED: use module.callers instead" none)))
          ∧ ∀ name h, (name, h) ∈ cmdHandlers svc → name ≠ cmd.Name.mk "rootmodules" →
              env.commandName (env.CommandPrefix ctx).1 name
                ≠ "editor.action.triggerSuggest" →
              WorkspaceExecuteCommand env ctx svc
                  (env.commandName (env.CommandPrefix ctx).1 name) arguments workDoneToken
                = (svc.log (.invoke h (env.ParseCommandArgs arguments)),
                    env.runHandler h (env.WithProgressToken ctx workDoneToken)
                      (env.ParseCommandArgs arguments))) := by
  refine ⟨rfl, by simp [cmdHandlers], by simp [cmdHandlers], fun c args => rfl, by decide,
    ?_, ?_⟩
  · intro name hname
    simp only [List.mem_cons, List.not_mem_nil, or_false] at hname
    rcases hname with rfl | rfl | rfl | rfl | rfl | rfl
    · exact ⟨.ModuleCallersHandler, by simp [cmdHandlers], fun m => by simp⟩
    · exact ⟨.ModuleCallsHandler, by simp [cmdHandlers], fun m => by simp⟩
    · exact ⟨.ModuleProvidersHandler, by simp [cmdHandlers], fun m => by simp⟩
    · exact ⟨.TofuVersionRequestHandler, by simp [cmdHandlers], fun m => by simp⟩
    · exact ⟨.TofuInitHandler, by simp [cmdHandlers], fun m => by simp⟩
    · exact ⟨.TofuValidateHandler, by simp [cmdHandlers], fun m => by simp⟩
  · intro hinj
    constructor
    · intro hts
      rw [WorkspaceExecuteCommand_registered env ctx svc arguments workDoneToken
        (cmd.Name.mk "rootmodules") (.removedHandler "use module.callers instead")
        (by simp [cmdHandlers]) hinj hts]
      rfl
    · intro name h hmem hne hts
      rw [WorkspaceExecuteCommand_registered env ctx svc arguments workDoneToken name h
        hmem hinj hts]
      simp only [cmdHandlers, List.mem_cons, Prod.mk.injEq, List.not_mem_nil,
        or_false] at hmem
      rcases hmem with ⟨h1, _⟩ | ⟨_, rfl⟩ | ⟨_, rfl⟩ | ⟨_, rfl⟩ | ⟨_, rfl⟩ | ⟨_, rfl⟩ |
        ⟨_, rfl⟩
      · exact absurd h1 hne
      all_goals rfl

/-- Witness of C15: the sample session, which has no command prefix: executing
"rootmodules" returns the error of the removed command and calls no handler method;
executing "module.callers" calls the handler method. -/
theorem cmdHandlers_registered_witness :
    WorkspaceExecuteCommand SvcEnv.plain [] Service.fresh "rootmodules" [] ""
        = (Service.fresh, none, some (.JrpcError .MethodNotFound
            "REMOVED: use module.callers instead" none))
      ∧ WorkspaceExecuteCommand SvcEnv.plain [] Service.fresh "module.callers" ["uri=a"] ""
        = (Service.fresh.log (.invoke .ModuleCallersHandler ["uri=a"]), some "done", none) :=
  ⟨((cmdHandlers_registered SvcEnv.plain [] Service.fresh [] "").2.2.2.2.2.2
      (by decide)).1 (by decide),
    ((cmdHandlers_registered SvcEnv.plain [] Service.fresh ["uri=a"] "").2.2.2.2.2.2
      (by decide)).2 (cmd.Name.mk "module.callers") .ModuleCallersHandler (by decide)
      (by decide) (by decide)⟩

/-- A service grows from itself by no step. -/
theorem SvcGrows.same (Q : SvcEvent → Prop) (svc : Service) : SvcGrows Q svc svc :=
  ⟨[], by simp, by simp⟩

/-- Growth composes. -/
theorem SvcGrows.chain {Q : SvcEvent → Prop} {s1 s2 s3 : Service} (h12 : SvcGrows Q s1 s2)
    (h23 : SvcGrows Q s2 s3) : SvcGrows Q s1 s3 := by
  obtain ⟨evs1, ht1, hq1⟩ := h12
  obtain ⟨evs2, ht2, hq2⟩ := h23
  refine ⟨evs1 ++ evs2, by rw [ht2, ht1, List.append_assoc], ?_⟩
  intro e he
  rcases List.mem_append.mp he with h | h
  · exact hq1 e h
  · exact hq2 e h

/-- Logging a step that satisfies the property keeps the growth. -/
theorem SvcGrows.log {Q : SvcEvent → Prop} {svc svc2 : Service} {e : SvcEvent}
    (h : SvcGrows Q svc svc2) (he : Q e) : SvcGrows Q svc (svc2.log e) := by
  obtain ⟨evs, ht, hq⟩ := h
  refine ⟨evs ++ [e], by simp [Service.log, ht], ?_⟩
  intro e2 he2
  rcases List.mem_append.mp he2 with h2 | h2
  · exact hq e2 h2
  · rw [List.mem_singleton.mp h2]
    exact he

/-- A growth by steps of one kind is a growth by steps of any weaker kind. -/
theorem SvcGrows.weaken {Q R : SvcEvent → Prop} {svc svc2 : Service} (h : SvcGrows Q svc svc2)
    (hqr : ∀ e, Q e → R e) : SvcGrows R svc svc2 := by
  obtain ⟨evs, ht, hq⟩ := h
  exact ⟨evs, ht, fun e he => hqr e (hq e he)⟩

/-- The first part of `Initialize` only adds setup steps and leaves the single-file flag
alone. -/
theorem initializeSetup_events (env : SvcEnv) (ctx : Context) (svc : Service)
    (params : InitializeParams) :
    SvcGrows (fun e => setupStep e = true) svc (initializeSetup env ctx svc params).1
      ∧ (initializeSetup env ctx svc params).1.singleFileMode = svc.singleFileMode := by
  unfold initializeSetup
  simp only []
  repeat' split
  all_goals
    refine ⟨?_, rfl⟩
    repeat' (first | exact SvcGrows.same _ _ | rfl | apply SvcGrows.log)

/-- A setup step neither enqueues a walker path nor starts a walker, and is not the
single-file warning. -/
theorem setupStep_not_walker (e : SvcEvent) (h : setupStep e = true) :
    walkerStep e = false ∧ e ≠ SvcEvent.notify .singleFileWarning := by
  cases e with
  | notify m => cases m <;> simp_all [setupStep, walkerStep]
  | _ => simp_all [setupStep, walkerStep]

/-- C16: when the steps of `Initialize` before the root URI check have passed and the
root URI is not empty: if it is a WSL URI, `Initialize` fails with the invalid-params
error carrying the data "INVALID_URI_WSL"; otherwise, if it is not a valid URI, it fails
with the same invalid-params error without data; and in both cases the service is as the
earlier steps left it, so that no walker path was enqueued and no walker was started. -/
theorem Initialize_invalid_root (env : SvcEnv) (ctx : Context) (svc : Service)
    (params : InitializeParams) (svc0 : Service) (caps : InitializeResult)
    (out : DecodedOptions)
    (hsetup : initializeSetup env ctx svc params = (svc0, caps, .ok out))
    (hroot : params.RootURI ≠ "") :
    (env.IsWSLURI params.RootURI = true →
        Initialize env ctx svc params
          = (svc0, caps, some (.JrpcError .InvalidParams
              ("Unsupported or invalid URI: " ++ env.Quote params.RootURI
                ++ " This is most likely client bug, please report it.")
              (some "INVALID_URI_WSL"))))
      ∧ (env.IsWSLURI params.RootURI = false → env.IsURIValid params.RootURI = false →
        Initialize env ctx svc params
          = (svc0, caps, some (.JrpcError .InvalidParams
              ("Unsupported or invalid URI: " ++ env.Quote params.RootURI
                ++ " This is most likely client bug, please report it.")
              none)))
      ∧ (env.IsWSLURI params.RootURI = true ∨ env.IsURIValid params.RootURI = false →
        ∀ e ∈ (Initialize env ctx svc params).1.events, walkerStep e = true →
          e ∈ svc.events) := by
  have hne : (params.RootURI == "") = false := by simpa using hroot
  have hwsl : env.IsWSLURI params.RootURI = true →
      Initialize env ctx svc params
        = (svc0, caps, some (.JrpcError .InvalidParams
            ("Unsupported or invalid URI: " ++ env.Quote params.RootURI
              ++ " This is most likely client bug, please report it.")
            (some "INVALID_URI_WSL"))) := by
    intro h
    simp [Initialize, hsetup, hne, h, Error.WithData]
  have hinv : env.IsWSLURI params.RootURI = false → env.IsURIValid params.RootURI = false →
      Initialize env ctx svc params
        = (svc0, caps, some (.JrpcError .InvalidParams
            ("Unsupported or invalid URI: " ++ env.Quote params.RootURI
              ++ " This is most likely client bug, please report it.")
            none)) := by
    intro h1 h2
    simp [Initialize, hsetup, hne, h1, h2]
  refine ⟨hwsl, hinv, ?_⟩
  intro hcase e hmem hw
  have hsvc : (Initialize env ctx svc params).1 = svc0 := by
    cases h1 : env.IsWSLURI params.RootURI with
    | true => rw [hwsl h1]
    | false =>
      rcases hcase with h | h
      · rw [h1] at h
        cases h
      · rw [hinv h1 h]
  rw [hsvc] at hmem
  obtain ⟨evs, hev, hq⟩ := (initializeSetup_events env ctx svc params).1
  rw [hsetup] at hev
  simp only at hev
  rw [hev] at hmem
  rcases List.mem_append.mp hmem with h | h
  · exact h
  · have := (setupStep_not_walker e (hq e h)).1
    rw [hw] at this
    cases this

/-- Witness of C16: a WSL root URI and a root URI that is no file URI. -/
theorem Initialize_invalid_root_witness :
    (Initialize SvcEnv.plain [] Service.fresh
        (sampleParams "file://wsl%24/Ubuntu/home" "")).2.2
        = some (.JrpcError .InvalidParams
            ("Unsupported or invalid URI: " ++ SvcEnv.plain.Quote "file://wsl%24/Ubuntu/home"
              ++ " This is most likely client bug, please report it.")
            (some "INVALID_URI_WSL"))
      ∧ (Initialize SvcEnv.plain [] Service.fresh (sampleParams "output:extension" "")).2.2
        = some (.JrpcError .InvalidParams
            ("Unsupported or invalid URI: " ++ SvcEnv.plain.Quote "output:extension"
              ++ " This is most likely client bug, please report it.")
            none) :=
  ⟨congrArg (fun r => r.2.2)
      ((Initialize_invalid_root SvcEnv.plain [] Service.fresh
        (sampleParams "file://wsl%24/Ubuntu/home" "") _ _ _ rfl (by decide)).1 (by decide)),
    congrArg (fun r => r.2.2)
      ((Initialize_invalid_root SvcEnv.plain [] Service.fresh
        (sampleParams "output:extension" "") _ _ _ rfl (by decide)).2.1 (by decide)
        (by decide))⟩

/-- The tail of `Initialize` in single-file mode: after the setup steps the service is
put in single-file mode, the warning is sent when the option does not suppress it, and
the walkers are started. -/
theorem Initialize_single_tail (env : SvcEnv) (ctx : Context) (svc : Service)
    (params : InitializeParams) (svc0 : Service) (caps : InitializeResult)
    (out : DecodedOptions)
    (hsetup : initializeSetup env ctx svc params = (svc0, caps, .ok out))
    (hroot : params.RootURI = "") :
    (Initialize env ctx svc params).1.singleFileMode = true
      ∧ ∃ walkers : List WalkerKind,
        (Initialize env ctx svc params).1.events
          = svc0.events
            ++ (if out.Options.IgnoreSingleFileWarning = false
                then [SvcEvent.notify .singleFileWarning] else [])
            ++ walkers.map SvcEvent.startWalking := by
  have he : (params.RootURI == "") = true := by simp [hroot]
  unfold Initialize
  rw [hsetup]
  simp only [he, if_true]
  cases hflag : out.Options.IgnoreSingleFileWarning
  · simp only [beq_self_eq_true, if_true]
    split
    · exact ⟨rfl, [.closedDirWalker], by simp [Service.log]⟩
    · split
      · exact ⟨rfl, [.closedDirWalker, .openDirWalker], by simp [Service.log]⟩
      · exact ⟨rfl, [.closedDirWalker, .openDirWalker], by simp [Service.log]⟩
  · simp only [show (true == false) = false from rfl, Bool.false_eq_true, if_false]
    split
    · exact ⟨rfl, [.closedDirWalker], by simp [Service.log]⟩
    · split
      · exact ⟨rfl, [.closedDirWalker, .openDirWalker], by simp [Service.log]⟩
      · exact ⟨rfl, [.closedDirWalker, .openDirWalker], by simp [Service.log]⟩

/-- C17: when the steps of `Initialize` before the root URI check have passed and the
root URI is empty, the service ends in single-file mode, none of the steps the request
added enqueues a walker path, and the single-file warning is among the added steps
exactly when the option `IgnoreSingleFileWarning` is false. -/
theorem Initialize_single_file (env : SvcEnv) (ctx : Context) (svc : Service)
    (params : InitializeParams) (svc0 : Service) (caps : InitializeResult)
    (out : DecodedOptions)
    (hsetup : initializeSetup env ctx svc params = (svc0, caps, .ok out))
    (hroot : params.RootURI = "") :
    (Initialize env ctx svc params).1.singleFileMode = true
      ∧ ∃ steps : List SvcEvent,
        (Initialize env ctx svc params).1.events = svc.events ++ steps
          ∧ (∀ dir, SvcEvent.enqueueDir dir ∉ steps)
          ∧ (SvcEvent.notify .singleFileWarning ∈ steps
              ↔ out.Options.IgnoreSingleFileWarning = false) := by
  obtain ⟨hmode, walkers, hev⟩ :=
    Initialize_single_tail env ctx svc params svc0 caps out hsetup hroot
  obtain ⟨evs, hsetupEv, hq⟩ := (initializeSetup_events env ctx svc params).1
  rw [hsetup] at hsetupEv
  simp only at hsetupEv
  refine ⟨hmode, evs ++ ((if out.Options.IgnoreSingleFileWarning = false
      then [SvcEvent.notify .singleFileWarning] else [])
      ++ walkers.map SvcEvent.startWalking), ?_, ?_, ?_⟩
  · rw [hev, hsetupEv]
    simp only [List.append_assoc]
  · intro dir hmem
    rcases List.mem_append.mp hmem with h | h
    · have := (setupStep_not_walker _ (hq _ h)).1
      simp [walkerStep] at this
    · rcases List.mem_append.mp h with h | h
      · split at h <;> simp at h
      · simp at h
  · constructor
    · intro hmem
      rcases List.mem_append.mp hmem with h | h
      · exact absurd rfl (setupStep_not_walker _ (hq _ h)).2
      · rcases List.mem_append.mp h with h | h
        · split at h
          · assumption
          · simp at h
        · simp at h
    · intro hflag
      simp [hflag]

/-- Witness of C17: the sample client without a root URI, with the warning enabled and
with the warning suppressed. -/
theorem Initialize_single_file_witness :
    (Initialize SvcEnv.plain [] Service.fresh (sampleParams "" "")).1.singleFileMode = true
      ∧ (Initialize SvcEnv.plain [] Service.fresh
          (sampleParams "" "quiet")).1.singleFileMode = true
      ∧ SvcEvent.notify .singleFileWarning
          ∈ (Initialize SvcEnv.plain [] Service.fresh (sampleParams "" "")).1.events
      ∧ SvcEvent.notify .singleFileWarning
          ∉ (Initialize SvcEnv.plain [] Service.fresh (sampleParams "" "quiet")).1.events :=
  ⟨(Initialize_single_file SvcEnv.plain [] Service.fresh (sampleParams "" "")
      _ _ _ rfl rfl).1,
    (Initialize_single_file SvcEnv.plain [] Service.fresh (sampleParams "" "quiet")
      _ _ _ rfl rfl).1,
    by decide, by decide⟩

/-- C20: for a document with the OpenTofu language id, `TextDocumentLink` lists the
incomplete jobs of the directory of the document; when listing fails, that error is the
error of the request and nothing further is called; when listing gives the ids `jobIds`,
the calls are, in this order, the listing, the wait for exactly `jobIds`, the
construction of the decoder and then, only when the decoder was constructed, the request
for the links of the file; an error of the construction or of the request for links is
the error of the request, and otherwise the converted links are returned. -/
theorem TextDocumentLink_waits (env : SvcEnv) (ctx : Context) (svc : Service) (uri : String)
    (cc : ClientCapabilities) (doc : Document)
    (hcc : env.ClientCapabilitiesOf ctx = .ok cc)
    (hdoc : env.GetDocument svc (env.HandleFromDocumentURI uri) = .ok doc)
    (hlang : doc.LanguageID = OpenTofuLanguageID) :
    (∀ err,
        env.ListIncompleteJobsForDir (svc.log (.getDocument (env.HandleFromDocumentURI uri)))
            (env.HandleFromDocumentURI uri).Dir = .error err →
        (TextDocumentLink env ctx svc uri).2 = (none, some err)
          ∧ (TextDocumentLink env ctx svc uri).1.events
            = svc.events ++ [.getDocument (env.HandleFromDocumentURI uri),
                .listIncompleteJobsForDir (env.HandleFromDocumentURI uri).Dir])
      ∧ (∀ jobIds,
        env.ListIncompleteJobsForDir (svc.log (.getDocument (env.HandleFromDocumentURI uri)))
            (env.HandleFromDocumentURI uri).Dir = .ok jobIds →
        ∃ svc4 : Service,
          svc4.events
              = svc.events ++ [.getDocument (env.HandleFromDocumentURI uri),
                  .listIncompleteJobsForDir (env.HandleFromDocumentURI uri).Dir,
                  .waitForJobs jobIds, .decoderForDocument doc]
            ∧ (∀ err, env.decoderForDocument
                  (((svc.log (.getDocument (env.HandleFromDocumentURI uri))).log
                    (.listIncompleteJobsForDir (env.HandleFromDocumentURI uri).Dir)).log
                    (.waitForJobs jobIds)) doc = some err →
                TextDocumentLink env ctx svc uri = (svc4, none, some err))
            ∧ (env.decoderForDocument
                  (((svc.log (.getDocument (env.HandleFromDocumentURI uri))).log
                    (.listIncompleteJobsForDir (env.HandleFromDocumentURI uri).Dir)).log
                    (.waitForJobs jobIds)) doc = none →
                (∀ err, env.LinksInFile svc4 doc doc.Filename = .error err →
                    TextDocumentLink env ctx svc uri
                      = (svc4.log (.linksInFile doc.Filename), none, some err))
                  ∧ (∀ links, env.LinksInFile svc4 doc doc.Filename = .ok links →
                    TextDocumentLink env ctx svc uri
                      = (svc4.log (.linksInFile doc.Filename),
                          some (env.Links links cc.DocumentLinkTooltip), none)))) := by
  have hne : (doc.LanguageID != OpenTofuLanguageID) = false := by simp [hlang]
  constructor
  · intro err hlist
    unfold TextDocumentLink
    simp only [hcc, hdoc, hne, hlist]
    simp [Service.log]
  · intro jobIds hlist
    refine ⟨(((svc.log (.getDocument (env.HandleFromDocumentURI uri))).log
        (.listIncompleteJobsForDir (env.HandleFromDocumentURI uri).Dir)).log
        (.waitForJobs jobIds)).log (.decoderForDocument doc), by simp [Service.log], ?_, ?_⟩
    · intro err hdec
      unfold TextDocumentLink
      simp only [hcc, hdoc, hne, hlist, hdec]
      simp
    · intro hdec
      constructor
      · intro err hlinks
        unfold TextDocumentLink
        simp only [hcc, hdoc, hne, hlist, hdec, hlinks]
        simp
      · intro links hlinks
        unfold TextDocumentLink
        simp only [hcc, hdoc, hne, hlist, hdec, hlinks]
        simp

/-- Witness of C20: the sample session, where two jobs are incomplete for the directory
of the document. -/
theorem TextDocumentLink_waits_witness :
    ∃ svc4 : Service,
      svc4.events
          = [.getDocument (SvcEnv.plain.HandleFromDocumentURI "file:///a/main.tf"),
              .listIncompleteJobsForDir
                (SvcEnv.plain.HandleFromDocumentURI "file:///a/main.tf").Dir,
              .waitForJobs ["j", "jj"],
              .decoderForDocument ⟨⟨"/a"⟩, "main.tf", OpenTofuLanguageID, 0, ""⟩] :=
  by
    obtain ⟨svc4, hev, _⟩ :=
      (TextDocumentLink_waits SvcEnv.plain [] Service.fresh "file:///a/main.tf"
        sampleCaps ⟨⟨"/a"⟩, "main.tf", OpenTofuLanguageID, 0, ""⟩ rfl rfl rfl).2 ["j", "jj"] rfl
    exact ⟨svc4, by simpa [Service.fresh] using hev⟩

/-- C23: for every directory for which `Store.DeclaredModuleCalls` succeeds,
`decodeDeclaredModuleCalls` returns a nil error, whatever the collaborators answer for
the individual calls (the stat of the target, `Store.Add`, the enqueues of
`decodeModule`). -/
theorem decodeDeclaredModuleCalls_nil_error (env : Env) (ctx : Context) (w : World)
    (dir : DirHandle) (ignoreState : Bool) (declared : List DeclaredModuleCall)
    (hdecl : (ModuleStore.DeclaredModuleCalls env w dir.Path).2 = .ok declared) :
    (decodeDeclaredModuleCalls env ctx w dir ignoreState).2.2 = none := by
  unfold decodeDeclaredModuleCalls
  cases hcalls : ModuleStore.DeclaredModuleCalls env w dir.Path with
  | mk w1 r =>
    rw [hcalls] at hdecl
    simp only at hdecl
    subst hdecl
    rfl

/-- Witness of C23: the sample module calls "sub"; the error is nil when the stat of
"/a/sub" fails, when the insert of its record fails, and when the job store refuses the
jobs of the called module. -/
theorem decodeDeclaredModuleCalls_nil_error_witness :
    (decodeDeclaredModuleCalls Env.deleted [] callerWorld ⟨"/a"⟩ false).2.2 = none
      ∧ (decodeDeclaredModuleCalls Env.faulty [] callerWorld ⟨"/a"⟩ false).2.2 = none
      ∧ (decodeDeclaredModuleCalls Env.refusing [] callerWorld ⟨"/a"⟩ false).2.2 = none
      ∧ Env.deleted.stat "/a/sub" = .error (.Failure "no such file or directory")
      ∧ (ModuleStore.Add Env.faulty callerWorld "/a/sub").2 = some (.Failure "insert failed")
      ∧ (decodeModule Env.refusing [] callerWorld ⟨"/a/sub"⟩ false false).2.2
          = some (.Failure "job store closed") :=
  ⟨decodeDeclaredModuleCalls_nil_error Env.deleted [] callerWorld ⟨"/a"⟩ false
      [sampleCall] (by decide),
    decodeDeclaredModuleCalls_nil_error Env.faulty [] callerWorld ⟨"/a"⟩ false
      [sampleCall] (by decide),
    decodeDeclaredModuleCalls_nil_error Env.refusing [] callerWorld ⟨"/a"⟩ false
      [sampleCall] (by decide),
    by decide, by decide, by decide⟩

/-- C25: whenever `decodeModule` returns no error, for both values of `isFirstLevel`,
the list it returns is exactly the id returned for the parse job followed by the id
returned for the metadata job; at the first level the registry job was enqueued after
them and its id is not put in the list (it is a member only if the job store gave it
the id of one of the two other jobs). -/
theorem decodeModule_returned_ids (env : Env) (ctx : Context) (w : World)
    (dir : DirHandle) (ign first : Bool)
    (hok : (decodeModule env ctx w dir ign first).2.2 = none) :
    ∃ parseId metaId,
      (EnqueueJob env ctx w (parseJob dir ign)).2 = .ok parseId
        ∧ (EnqueueJob env ctx (EnqueueJob env ctx w (parseJob dir ign)).1
            (metadataJob dir ign first (ValidationOptionsOf ctx).1 parseId)).2 = .ok metaId
        ∧ (decodeModule env ctx w dir ign first).2.1 = [parseId, metaId]
        ∧ (first = false →
            newEvents w (decodeModule env ctx w dir ign first).1
              = [Event.enqueue (parseJob dir ign) (.ok parseId),
                  Event.enqueue
                    (metadataJob dir ign first (ValidationOptionsOf ctx).1 parseId)
                    (.ok metaId)])
        ∧ (first = true → ∃ registryId,
            newEvents w (decodeModule env ctx w dir ign first).1
              = [Event.enqueue (parseJob dir ign) (.ok parseId),
                  Event.enqueue
                    (metadataJob dir ign first (ValidationOptionsOf ctx).1 parseId)
                    (.ok metaId),
                  Event.enqueue (registryJob dir metaId) (.ok registryId)]
              ∧ (registryId ≠ parseId → registryId ≠ metaId →
                  registryId ∉ (decodeModule env ctx w dir ign first).2.1)) := by
  rcases decodeModule_cases env ctx w dir ign first with
    ⟨err, _, hres, _⟩ | ⟨p, err, _, _, hres, _⟩ | ⟨p, m, h1, h2, hf, hres, hev⟩ |
    ⟨p, m, r, h1, h2, hf, hres, hev⟩
  · rw [hres] at hok
    cases hok
  · rw [hres] at hok
    cases hok
  · refine ⟨p, m, h1, h2, by rw [hres], fun _ => hev, ?_⟩
    intro ht
    rw [hf] at ht
    cases ht
  · cases r with
    | error err =>
      rw [hres] at hok
      cases hok
    | ok registryId =>
      refine ⟨p, m, h1, h2, by rw [hres], ?_, ?_⟩
      · intro hfalse
        rw [hf] at hfalse
        cases hfalse
      · intro _
        refine ⟨registryId, hev, ?_⟩
        intro hp hm hmem
        rw [hres] at hmem
        simp only [List.mem_cons, List.mem_singleton, List.not_mem_nil, or_false] at hmem
        rcases hmem with h | h
        · exact hp h
        · exact hm h

/-- Witness of C25: the sample module at the first level and as a called module; at the
first level three jobs were enqueued and two ids are returned. -/
theorem decodeModule_returned_ids_witness :
    (∃ parseId metaId,
        (decodeModule Env.quiet [] (sampleWorld .OpStateUnknown) ⟨"/a"⟩ false true).2.1
          = [parseId, metaId])
      ∧ (∃ parseId metaId,
        (decodeModule Env.quiet [] (sampleWorld .OpStateUnknown) ⟨"/a"⟩ false false).2.1
          = [parseId, metaId])
      ∧ (decodeModule Env.quiet [] (sampleWorld .OpStateUnknown) ⟨"/a"⟩ false true).2.1
        = ["", "j"]
      ∧ (decodeModule Env.quiet [] (sampleWorld .OpStateUnknown) ⟨"/a"⟩ false true).1.trace.length
        = 3 := by
  obtain ⟨p, m, _, _, hids, _⟩ :=
    decodeModule_returned_ids Env.quiet [] (sampleWorld .OpStateUnknown) ⟨"/a"⟩ false true
      (by decide)
  obtain ⟨p2, m2, _, _, hids2, _⟩ :=
    decodeModule_returned_ids Env.quiet [] (sampleWorld .OpStateUnknown) ⟨"/a"⟩ false false
      (by decide)
  exact ⟨⟨p, m, hids⟩, ⟨p2, m2, hids2⟩, by decide, by decide⟩

/-- The ids and the events of the enqueues of the metadata continuation when it returns
no error: the ids of preload, reference targets and reference origins are appended, in
this order, and the ids of the two validation jobs are not. -/
theorem deferEnqueues_ids (env : Env) (d : DeferFn) (ctx : Context) (w : World)
    (modCalls deferIds : List ID)
    (hok : (deferEnqueues env d ctx w modCalls deferIds).2.2 = none) :
    ∃ e t o,
      (deferEnqueues env d ctx w modCalls deferIds).2.1 = deferIds ++ [e, t, o]
        ∧ ((d.isFirstLevel && d.validationOptions.EnableEnhancedValidation) = false →
            newEvents w (deferEnqueues env d ctx w modCalls deferIds).1
              = [Event.enqueue (preloadJob d.dir d.ignoreState) (.ok e),
                  Event.enqueue (refTargetsJob d.dir d.ignoreState modCalls e) (.ok t),
                  Event.enqueue (refOriginsJob d.dir d.ignoreState modCalls e) (.ok o)])
        ∧ ((d.isFirstLevel && d.validationOptions.EnableEnhancedValidation) = true →
            ∃ sv rv,
              newEvents w (deferEnqueues env d ctx w modCalls deferIds).1
                = [Event.enqueue (preloadJob d.dir d.ignoreState) (.ok e),
                    Event.enqueue (refTargetsJob d.dir d.ignoreState modCalls e) (.ok t),
                    Event.enqueue (refOriginsJob d.dir d.ignoreState modCalls e) (.ok o),
                    Event.enqueue (schemaValidationJob d.dir d.ignoreState modCalls e)
                      (.ok sv),
                    Event.enqueue (referenceValidationJob d.dir d.ignoreState o t)
                      (.ok rv)]) := by
  revert hok
  unfold deferEnqueues
  simp only [EnqueueJob]
  cases env.enqueue ctx w (preloadJob d.dir d.ignoreState) with
  | error err => simp
  | ok e =>
    simp only
    cases env.enqueue ctx _ (refTargetsJob d.dir d.ignoreState modCalls e) with
    | error err => simp
    | ok t =>
      simp only
      cases env.enqueue ctx _ (refOriginsJob d.dir d.ignoreState modCalls e) with
      | error err => simp
      | ok o =>
        simp only
        cases hg : (d.isFirstLevel && d.validationOptions.EnableEnhancedValidation) with
        | false =>
          intro _
          exact ⟨e, t, o, by simp, by simp [newEvents], by simp⟩
        | true =>
          simp only [if_true]
          cases env.enqueue ctx _ (schemaValidationJob d.dir d.ignoreState modCalls e) with
          | error err => simp
          | ok sv =>
            simp only
            cases env.enqueue ctx _ (referenceValidationJob d.dir d.ignoreState o t) with
            | error err => simp
            | ok rv =>
              intro _
              exact ⟨e, t, o, by simp, by simp, fun _ => ⟨sv, rv, by simp [newEvents]⟩⟩

/-- The ids that the first part of the continuation puts in `deferIds` are the
module-call ids. -/
theorem deferModuleCalls_deferIds (env : Env) (d : DeferFn) (ctx : Context) (w : World) :
    (deferModuleCalls env d ctx w).2.2 = (deferModuleCalls env d ctx w).2.1 := by
  unfold deferModuleCalls
  cases d.isFirstLevel <;> simp

/-- C26: for every job error passed to it, whenever the metadata continuation returns no
error, the list it returns is exactly the module-call job ids (those returned by
`decodeDeclaredModuleCalls` at the first level, none otherwise) followed by the ids
returned for the preload, the reference-targets and the reference-origins job, in this
order; the two validation jobs, when the gate lets them be enqueued, come after these
and their ids are not appended.  The continuation does the same for every job error. -/
theorem metadataDefer_returned_ids (env : Env) (d : DeferFn) (ctx : Context) (w : World)
    (jobErr : Option Error)
    (hok : (metadataDefer env d ctx w jobErr).2.2 = none) :
    metadataDefer env d ctx w jobErr = metadataDefer env d ctx w none
      ∧ (deferModuleCalls env d ctx w).2.1
          = (if d.isFirstLevel then
              (decodeDeclaredModuleCalls env ctx w d.dir d.ignoreState).2.1
            else [])
      ∧ ∃ e t o,
        (metadataDefer env d ctx w jobErr).2.1
            = (deferModuleCalls env d ctx w).2.1 ++ [e, t, o]
          ∧ ((d.isFirstLevel && d.validationOptions.EnableEnhancedValidation) = false →
              newEvents (deferModuleCalls env d ctx w).1
                  (metadataDefer env d ctx w jobErr).1
                = [Event.enqueue (preloadJob d.dir d.ignoreState) (.ok e),
                    Event.enqueue
                      (refTargetsJob d.dir d.ignoreState (deferModuleCalls env d ctx w).2.1 e)
                      (.ok t),
                    Event.enqueue
                      (refOriginsJob d.dir d.ignoreState (deferModuleCalls env d ctx w).2.1 e)
                      (.ok o)])
          ∧ ((d.isFirstLevel && d.validationOptions.EnableEnhancedValidation) = true →
              ∃ sv rv,
                newEvents (deferModuleCalls env d ctx w).1
                    (metadataDefer env d ctx w jobErr).1
                  = [Event.enqueue (preloadJob d.dir d.ignoreState) (.ok e),
                      Event.enqueue
                        (refTargetsJob d.dir d.ignoreState
                          (deferModuleCalls env d ctx w).2.1 e) (.ok t),
                      Event.enqueue
                        (refOriginsJob d.dir d.ignoreState
                          (deferModuleCalls env d ctx w).2.1 e) (.ok o),
                      Event.enqueue
                        (schemaValidationJob d.dir d.ignoreState
                          (deferModuleCalls env d ctx w).2.1 e) (.ok sv),
                      Event.enqueue (referenceValidationJob d.dir d.ignoreState o t)
                        (.ok rv)]) := by
  refine ⟨rfl, deferModuleCalls_ids env d ctx w, ?_⟩
  have hres := deferEnqueues_ids env d ctx (deferModuleCalls env d ctx w).1
    (deferModuleCalls env d ctx w).2.1 (deferModuleCalls env d ctx w).2.2 hok
  rw [deferModuleCalls_deferIds] at hres
  have hmd : metadataDefer env d ctx w jobErr
      = deferEnqueues env d ctx (deferModuleCalls env d ctx w).1
          (deferModuleCalls env d ctx w).2.1 (deferModuleCalls env d ctx w).2.1 := by
    unfold metadataDefer
    simp only [deferModuleCalls_deferIds]
  rw [hmd]
  exact hres

/-- Witness of C26: the continuation of the first-level sample module "/a", which calls
"sub", with enhanced validation enabled and a job error passed in: seven jobs are
enqueued and five ids are returned, the two of the called module first. -/
theorem metadataDefer_returned_ids_witness :
    (∃ e t o,
        (metadataDefer Env.quiet sampleDefer [] callerWorld
            (some (.Diagnostics ["unsupported argument"]))).2.1
          = (deferModuleCalls Env.quiet sampleDefer [] callerWorld).2.1 ++ [e, t, o])
      ∧ (deferModuleCalls Env.quiet sampleDefer [] callerWorld).2.1.length = 2
      ∧ (metadataDefer Env.quiet sampleDefer [] callerWorld
            (some (.Diagnostics ["unsupported argument"]))).2.1.length = 5
      ∧ (okTypes (metadataDefer Env.quiet sampleDefer [] callerWorld
            (some (.Diagnostics ["unsupported argument"]))).1.trace).length = 7 := by
  obtain ⟨_, _, e, t, o, hids, _⟩ :=
    metadataDefer_returned_ids Env.quiet sampleDefer [] callerWorld
      (some (.Diagnostics ["unsupported argument"])) (by decide)
  exact ⟨⟨e, t, o, hids⟩, by decide, by decide, by decide⟩

/-- The second half of `didChangeWatched` returns an empty id list and a nil error. -/
theorem didChangeWatchedChanged_result (env : Env) (ctx : Context) (w : World)
    (rawPath : String) (changeType : FileChangeType) (isDir : Bool) :
    (didChangeWatchedChanged env ctx w rawPath changeType isDir).2 = ([], none) := by
  unfold didChangeWatchedChanged
  dsimp only
  split
  · split
    · rfl
    · split <;> rfl
  · rfl

/-- C28: for every path, change type and `isDir` flag, and every state of the store and
answer of the collaborators, `didChangeWatched` returns an empty id list and a nil
error; on the branch of a changed or created path whose directory has open documents
and a module record, the world it leaves is the one `decodeModule` leaves, so the jobs
that call enqueued and the error it returned are not reported. -/
theorem didChangeWatched_reports_nothing (env : Env) (ctx : Context) (w : World)
    (rawPath : String) (changeType : FileChangeType) (isDir : Bool) :
    (didChangeWatched env ctx w rawPath changeType isDir).2 = ([], none)
      ∧ (changeType = .Changed ∨ changeType = .Created →
          ∀ dir : DirHandle,
            dir = (if isDir then DirHandleFromPath rawPath
              else DirHandleFromPath (env.pathDir rawPath)) →
            (HasOpenDocuments env w dir).2.1 = true →
            (ModuleStore.Exists env (HasOpenDocuments env w dir).1 dir.Path).2 = true →
            (didChangeWatched env ctx w rawPath changeType isDir).1
              = (decodeModule env ctx
                  (ModuleStore.Exists env (HasOpenDocuments env w dir).1 dir.Path).1
                  dir true true).1) := by
  constructor
  · unfold didChangeWatched
    dsimp only
    split
    · split
      · rfl
      · split
        · rfl
        · split
          · split <;> rfl
          · rfl
          · split
            · rfl
            · exact didChangeWatchedChanged_result env ctx _ rawPath changeType isDir
    · exact didChangeWatchedChanged_result env ctx w rawPath changeType isDir
  · intro hct dir hdir hopen hex
    have hnd : changeType ≠ .Deleted := by
      rcases hct with h | h <;> rw [h] <;> decide
    subst hdir
    unfold didChangeWatched
    rw [if_neg hnd]
    unfold didChangeWatchedChanged
    rw [if_pos hct]
    simp only
    split
    · rename_i w1 b heq
      rw [heq] at hopen
      cases hopen
    · rename_i w1 b heq
      rw [heq] at hex
      simp only at hex
      split
      · rename_i w2 heq2
        rw [heq2] at hex
        cases hex
      · rename_i w2 heq2
        rw [heq, heq2]

/-- Witness of C28: a change of "/a/main.tf" while "/a" has open documents and a record:
three jobs are enqueued and nothing is reported; and when the job store refuses the
parse job, the error of `decodeModule` is not reported either. -/
theorem didChangeWatched_reports_nothing_witness :
    (didChangeWatched Env.opened [] callerWorld "/a/main.tf" .Changed false).2 = ([], none)
      ∧ okTypes (didChangeWatched Env.opened [] callerWorld "/a/main.tf" .Changed false).1.trace
        = [OpType.OpTypeParseModuleConfiguration.String,
            OpType.OpTypeLoadModuleMetadata.String,
            OpType.OpTypeGetModuleDataFromRegistry.String]
      ∧ (didChangeWatched Env.refusing [] callerWorld "/a/main.tf" .Changed false).2
        = ([], none)
      ∧ failedTypes
          (didChangeWatched Env.refusing [] callerWorld "/a/main.tf" .Changed false).1.trace
        = [OpType.OpTypeParseModuleConfiguration.String]
      ∧ (didChangeWatched Env.opened [] callerWorld "/a/main.tf" .Changed false).1
        = (decodeModule Env.opened []
            (ModuleStore.Exists Env.opened
              (HasOpenDocuments Env.opened callerWorld ⟨"/a"⟩).1 "/a").1
            ⟨"/a"⟩ true true).1 :=
  ⟨(didChangeWatched_reports_nothing Env.opened [] callerWorld "/a/main.tf" .Changed
      false).1,
    by decide,
    (didChangeWatched_reports_nothing Env.refusing [] callerWorld "/a/main.tf" .Changed
      false).1,
    by decide,
    (didChangeWatched_reports_nothing Env.opened [] callerWorld "/a/main.tf" .Changed
      false).2 (Or.inl rfl) ⟨"/a"⟩ (by decide) (by decide) (by decide)⟩

/-- C29: for every context and boolean, `IgnoreState` of the context made by
`WithIgnoreState` is that boolean; when `WithIgnoreState` is applied twice the inner
application (the one applied last) wins; values stored under other keys on top do not
hide the flag; and `IgnoreState` is false for every context that holds no value under
the ignore-state key, which only `WithIgnoreState` can store. -/
theorem IgnoreState_round_trip (ctx : Context) (b : Bool) :
    IgnoreState (WithIgnoreState ctx b) = b
      ∧ (∀ b0, IgnoreState (WithIgnoreState (WithIgnoreState ctx b0) b) = b)
      ∧ (∀ o, IgnoreState (CtxValue.validationOptions o :: WithIgnoreState ctx b) = b)
      ∧ (∀ dc, IgnoreState (CtxValue.document dc :: WithIgnoreState ctx b) = b)
      ∧ ((∀ v, CtxValue.ignoreState v ∉ ctx) → IgnoreState ctx = false) := by
  refine ⟨?_, ?_, ?_, ?_, ?_⟩
  · cases b <;> rfl
  · intro b0
    cases b <;> rfl
  · intro o
    cases b <;> rfl
  · intro dc
    cases b <;> rfl
  · intro h
    have hnone : ctx.valueIgnoreState = none := by
      induction ctx with
      | nil => rfl
      | cons c rest ih =>
        cases c with
        | ignoreState v => exact absurd (List.mem_cons_self _ _) (h v)
        | validationOptions o =>
          exact ih (fun v hv => h v (List.mem_cons_of_mem _ hv))
        | document dc =>
          exact ih (fun v hv => h v (List.mem_cons_of_mem _ hv))
    unfold IgnoreState
    rw [hnone]

/-- Witness of C29: a context that carries validation options and a document but no
ignore-state value. -/
theorem IgnoreState_round_trip_witness :
    IgnoreState [CtxValue.validationOptions ⟨true⟩,
      CtxValue.document ⟨"textDocument/didChange", "opentofu", "file:///a/main.tf"⟩] = false :=
  (IgnoreState_round_trip
    [CtxValue.validationOptions ⟨true⟩,
      CtxValue.document ⟨"textDocument/didChange", "opentofu", "file:///a/main.tf"⟩]
    true).2.2.2.2 (by decide)

/-- Reading a key of a map with one more entry in front. -/
theorem mapGet_cons {κ ν : Type} [DecidableEq κ] (a : κ × ν) (m : List (κ × ν)) (k : κ) :
    mapGet (a :: m) k = if a.1 = k then some a.2 else mapGet m k := by
  unfold mapGet
  by_cases h : a.1 = k
  · simp [List.find?_cons, h]
  · simp [List.find?_cons, h]

/-- Replacing the entries of a key that is present makes it read as the new value. -/
theorem mapGet_replace_self {κ ν : Type} [DecidableEq κ] (m : List (κ × ν)) (k : κ) (v : ν)
    (h : m.any (fun e => e.1 == k) = true) :
    mapGet (m.map (fun e => if e.1 == k then (k, v) else e)) k = some v := by
  induction m with
  | nil => simp at h
  | cons a rest ih =>
    rw [List.map_cons, mapGet_cons]
    by_cases ha : a.1 = k
    · simp [ha]
    · have hrest : rest.any (fun e => e.1 == k) = true := by
        simpa [ha] using h
      have := ih hrest
      simp only [beq_iff_eq] at this
      simp [ha, this]

/-- Replacing the entries of a key leaves the other keys as they read. -/
theorem mapGet_replace_other {κ ν : Type} [DecidableEq κ] (m : List (κ × ν)) (k k2 : κ)
    (v : ν) (hne : k2 ≠ k) :
    mapGet (m.map (fun e => if e.1 == k then (k, v) else e)) k2 = mapGet m k2 := by
  induction m with
  | nil => rfl
  | cons a rest ih =>
    rw [List.map_cons, mapGet_cons, mapGet_cons, ih]
    by_cases ha : a.1 = k
    · have h1 : ¬ k = k2 := fun h => hne h.symm
      have h2 : ¬ a.1 = k2 := fun h => hne (h.symm.trans ha)
      simp [ha, h1]
    · simp [ha]

/-- Reading a key of two maps put one after the other. -/
theorem mapGet_append {κ ν : Type} [DecidableEq κ] (m n : List (κ × ν)) (k : κ) :
    mapGet (m ++ n) k = (mapGet m k).or (mapGet n k) := by
  induction m with
  | nil => simp [mapGet]
  | cons a rest ih =>
    rw [List.cons_append, mapGet_cons, mapGet_cons, ih]
    by_cases ha : a.1 = k <;> simp [ha]

/-- A key that no entry has reads as absent. -/
theorem mapGet_none_of_not_any {κ ν : Type} [DecidableEq κ] (m : List (κ × ν)) (k : κ)
    (h : m.any (fun e => e.1 == k) = false) : mapGet m k = none := by
  induction m with
  | nil => rfl
  | cons a rest ih =>
    rw [mapGet_cons]
    simp only [List.any_cons, Bool.or_eq_false_iff, beq_eq_false_iff_ne, ne_eq] at h
    simp [h.1, ih h.2]

/-- Writing a key makes it read as the value written. -/
theorem mapGet_mapSet_self {κ ν : Type} [DecidableEq κ] (m : List (κ × ν)) (k : κ) (v : ν) :
    mapGet (mapSet m k v) k = some v := by
  unfold mapSet
  cases h : m.any (fun e => e.1 == k) with
  | true => simpa using mapGet_replace_self m k v h
  | false =>
    simp only [Bool.false_eq_true, if_false]
    rw [mapGet_append, mapGet_none_of_not_any m k h]
    simp [mapGet]

/-- Writing a key leaves every other key as it read before. -/
theorem mapGet_mapSet_other {κ ν : Type} [DecidableEq κ] (m : List (κ × ν)) (k k2 : κ)
    (v : ν) (hne : k2 ≠ k) : mapGet (mapSet m k v) k2 = mapGet m k2 := by
  unfold mapSet
  cases h : m.any (fun e => e.1 == k) with
  | true => simpa using mapGet_replace_other m k k2 v hne
  | false =>
    simp only [Bool.false_eq_true, if_false]
    rw [mapGet_append]
    have : mapGet [(k, v)] k2 = none := by
      have h1 : ¬ k = k2 := fun h => hne h.symm
      rw [mapGet_cons]
      simp [h1, mapGet]
    rw [this]
    cases mapGet m k2 <;> rfl

/-- The path context lookup appends exactly its record lookup to the trace. -/
theorem PathContext_trace (env : Env) (w : World) (path : String) :
    (PathReader.PathContext env w path).1.trace
      = w.trace ++ [Event.store (.ModuleRecordByPath path)] := by
  have hw := ModuleRecordByPath_world env w path
  unfold PathReader.PathContext
  rcases hr : ModuleStore.ModuleRecordByPath env w path with ⟨w1, r⟩
  rw [hr] at hw
  simp only at hw
  subst hw
  cases r <;> rfl

/-- The store calls that `SchemaModuleValidation` makes for a change of one document of
a configuration language, once the record was found. -/
theorem SchemaModuleValidation_didChange_trace (env : Env) (ctx : Context) (w : World)
    (modPath : String) (mod : ModuleRecord)
    (hrec : (ModuleStore.ModuleRecordByPath env w modPath).2 = .ok mod)
    (hmethod : (DocumentContext ctx).Method = "textDocument/didChange")
    (hlang : env.IsValidConfigLanguage (DocumentContext ctx).LanguageID = true) :
    (SchemaModuleValidation env ctx w modPath).1.trace
      = w.trace ++ Event.store (.ModuleRecordByPath modPath) ::
          (if (stateOf mod.ModuleDiagnosticsState .SchemaValidationSource != .OpStateUnknown
              && !IgnoreState ctx) = true then []
            else
              Event.store (.SetModuleDiagnosticsState modPath .SchemaValidationSource
                  .OpStateLoading) ::
                (if (ModuleStore.SetModuleDiagnosticsState env
                        (logCall w (.ModuleRecordByPath modPath)) modPath
                        .SchemaValidationSource .OpStateLoading).2 = none then
                  Event.store (.ModuleRecordByPath modPath) ::
                    (if (PathReader.PathContext env
                          (ModuleStore.SetModuleDiagnosticsState env
                            (logCall w (.ModuleRecordByPath modPath)) modPath
                            .SchemaValidationSource .OpStateLoading).1 modPath).2 = none then
                      [Event.store (.UpdateModuleDiagnostics modPath .SchemaValidationSource
                        (mapSet
                          ((mapGet mod.ModuleDiagnostics .SchemaValidationSource).getD [])
                          (env.pathBase (DocumentContext ctx).URI)
                          (env.ValidateFile
                            (PathReader.PathContext env
                              (ModuleStore.SetModuleDiagnosticsState env
                                (logCall w (.ModuleRecordByPath modPath)) modPath
                                .SchemaValidationSource .OpStateLoading).1 modPath).1
                            modPath (env.pathBase (DocumentContext ctx).URI)).1))]
                    else [])
                else [])) := by
  have hw := ModuleRecordByPath_world env w modPath
  have hpair : ModuleStore.ModuleRecordByPath env w modPath
      = (logCall w (.ModuleRecordByPath modPath), .ok mod) := by
    rw [← hw, ← hrec]
  unfold SchemaModuleValidation
  rw [hpair]
  simp only
  by_cases hskip : (stateOf mod.ModuleDiagnosticsState .SchemaValidationSource
      != .OpStateUnknown && !IgnoreState ctx) = true
  · rw [if_pos hskip, if_pos hskip]
    rfl
  · rw [if_neg hskip, if_neg hskip]
    have hset : (ModuleStore.SetModuleDiagnosticsState env
        (logCall w (.ModuleRecordByPath modPath)) modPath .SchemaValidationSource
        .OpStateLoading).1.trace
        = w.trace ++ [Event.store (.ModuleRecordByPath modPath),
            Event.store (.SetModuleDiagnosticsState modPath .SchemaValidationSource
              .OpStateLoading)] := by
      unfold ModuleStore.SetModuleDiagnosticsState
      rw [update_trace]
      simp [logCall]
    generalize ModuleStore.SetModuleDiagnosticsState env
        (logCall w (.ModuleRecordByPath modPath)) modPath .SchemaValidationSource
        .OpStateLoading = r at hset ⊢
    obtain ⟨w2, e2⟩ := r
    cases e2 with
    | some err => simp at hset ⊢; exact hset
    | none =>
      simp only at hset ⊢
      have hpc := PathContext_trace env w2 modPath
      rw [hset] at hpc
      generalize PathReader.PathContext env w2 modPath = rp at hpc ⊢
      obtain ⟨wp, ep⟩ := rp
      cases ep with
      | some err => simp at hpc ⊢; exact hpc
      | none =>
        simp only at hpc ⊢
        have hcond : ((DocumentContext ctx).Method == "textDocument/didChange"
            && env.IsValidConfigLanguage (DocumentContext ctx).LanguageID) = true := by
          simp [hmethod, hlang]
        simp only [hcond, if_true]
        have hprev : (match mapGet mod.ModuleDiagnostics .SchemaValidationSource with
            | some d => d
            | none => ([] : ModDiags))
            = (mapGet mod.ModuleDiagnostics .SchemaValidationSource).getD [] := by
          cases mapGet mod.ModuleDiagnostics .SchemaValidationSource <;> rfl
        rw [hprev]
        have hupd := update_trace env wp
          (.UpdateModuleDiagnostics modPath .SchemaValidationSource
            (mapSet ((mapGet mod.ModuleDiagnostics .SchemaValidationSource).getD [])
              (env.pathBase (DocumentContext ctx).URI)
              (env.ValidateFile wp modPath (env.pathBase (DocumentContext ctx).URI)).1))
          modPath
          (fun m => { m with
            ModuleDiagnostics := mapSet m.ModuleDiagnostics .SchemaValidationSource
              (mapSet ((mapGet mod.ModuleDiagnostics .SchemaValidationSource).getD [])
                (env.pathBase (DocumentContext ctx).URI)
                (env.ValidateFile wp modPath (env.pathBase (DocumentContext ctx).URI)).1)
            ModuleDiagnosticsState :=
              mapSet m.ModuleDiagnosticsState .SchemaValidationSource .OpStateLoadedOk })
        unfold ModuleStore.UpdateModuleDiagnostics
        split
        · rename_i w3 sErr heq
          have h3 := congrArg (fun r => r.1.trace) heq
          simp only at h3
          rw [hupd] at h3
          simp [← h3, hpc]
        · rename_i w3 heq
          have h3 := congrArg (fun r => r.1.trace) heq
          simp only at h3
          rw [hupd] at h3
          simp [← h3, hpc]

/-- C24: when `SchemaModuleValidation` runs for a `textDocument/didChange` of a document
of a configuration language and the record is found, every diagnostics map it passes to
`UpdateModuleDiagnostics` for the schema-validation source is the map the record had for
that source (empty when it had none) with the entry of the base name of the changed
document set to the diagnostics of `ValidateFile`: that name reads as the new
diagnostics and every other file name reads as before.  The map is stored whenever the
run is not skipped, the state was set to Loading and the decoder for the path was
built. -/
theorem SchemaModuleValidation_single_file (env : Env) (ctx : Context) (w : World)
    (modPath : String) (mod : ModuleRecord)
    (hrec : (ModuleStore.ModuleRecordByPath env w modPath).2 = .ok mod)
    (hmethod : (DocumentContext ctx).Method = "textDocument/didChange")
    (hlang : env.IsValidConfigLanguage (DocumentContext ctx).LanguageID = true) :
    (∀ diags,
        Event.store (.UpdateModuleDiagnostics modPath .SchemaValidationSource diags)
            ∈ newEvents w (SchemaModuleValidation env ctx w modPath).1 →
          diags
              = mapSet ((mapGet mod.ModuleDiagnostics .SchemaValidationSource).getD [])
                  (env.pathBase (DocumentContext ctx).URI)
                  (env.ValidateFile
                    (PathReader.PathContext env
                      (ModuleStore.SetModuleDiagnosticsState env
                        (logCall w (.ModuleRecordByPath modPath)) modPath
                        .SchemaValidationSource .OpStateLoading).1 modPath).1 modPath
                    (env.pathBase (DocumentContext ctx).URI)).1
            ∧ mapGet diags (env.pathBase (DocumentContext ctx).URI)
              = some (env.ValidateFile
                  (PathReader.PathContext env
                    (ModuleStore.SetModuleDiagnosticsState env
                      (logCall w (.ModuleRecordByPath modPath)) modPath
                      .SchemaValidationSource .OpStateLoading).1 modPath).1 modPath
                  (env.pathBase (DocumentContext ctx).URI)).1
            ∧ ∀ other, other ≠ env.pathBase (DocumentContext ctx).URI →
                mapGet diags other
                  = mapGet ((mapGet mod.ModuleDiagnostics .SchemaValidationSource).getD [])
                      other)
      ∧ ((stateOf mod.ModuleDiagnosticsState .SchemaValidationSource = .OpStateUnknown
            ∨ IgnoreState ctx = true) →
          (ModuleStore.SetModuleDiagnosticsState env
              (logCall w (.ModuleRecordByPath modPath)) modPath
              .SchemaValidationSource .OpStateLoading).2 = none →
          (PathReader.PathContext env
              (ModuleStore.SetModuleDiagnosticsState env
                (logCall w (.ModuleRecordByPath modPath)) modPath
                .SchemaValidationSource .OpStateLoading).1 modPath).2 = none →
          Event.store (.UpdateModuleDiagnostics modPath .SchemaValidationSource
              (mapSet ((mapGet mod.ModuleDiagnostics .SchemaValidationSource).getD [])
                (env.pathBase (DocumentContext ctx).URI)
                (env.ValidateFile
                  (PathReader.PathContext env
                    (ModuleStore.SetModuleDiagnosticsState env
                      (logCall w (.ModuleRecordByPath modPath)) modPath
                      .SchemaValidationSource .OpStateLoading).1 modPath).1 modPath
                  (env.pathBase (DocumentContext ctx).URI)).1))
            ∈ newEvents w (SchemaModuleValidation env ctx w modPath).1) := by
  have htrace := SchemaModuleValidation_didChange_trace env ctx w modPath mod hrec hmethod
    hlang
  have hnew := newEvents_of_trace w _ _ htrace
  rw [hnew]
  constructor
  · intro diags hmem
    have hd : diags
        = mapSet ((mapGet mod.ModuleDiagnostics .SchemaValidationSource).getD [])
            (env.pathBase (DocumentContext ctx).URI)
            (env.ValidateFile
              (PathReader.PathContext env
                (ModuleStore.SetModuleDiagnosticsState env
                  (logCall w (.ModuleRecordByPath modPath)) modPath
                  .SchemaValidationSource .OpStateLoading).1 modPath).1 modPath
              (env.pathBase (DocumentContext ctx).URI)).1 := by
      simp only [List.mem_cons, Event.store.injEq, reduceCtorEq, false_or] at hmem
      split at hmem
      · simp at hmem
      · simp only [List.mem_cons, Event.store.injEq, reduceCtorEq, false_or] at hmem
        split at hmem
        · simp only [List.mem_cons, Event.store.injEq, reduceCtorEq, false_or] at hmem
          split at hmem
          · simp only [List.mem_singleton, Event.store.injEq,
              StoreCall.UpdateModuleDiagnostics.injEq, true_and] at hmem
            exact hmem
          · simp at hmem
        · simp at hmem
    refine ⟨hd, ?_, ?_⟩
    · rw [hd]
      exact mapGet_mapSet_self _ _ _
    · intro other hne
      rw [hd]
      exact mapGet_mapSet_other _ _ _ _ hne
  · intro hrun hset hdp
    have hskip : ¬ (stateOf mod.ModuleDiagnosticsState .SchemaValidationSource
        != .OpStateUnknown && !IgnoreState ctx) = true := by
      rcases hrun with h | h <;> simp [h]
    rw [if_neg hskip, if_pos hset, if_pos hdp]
    simp

/-- Witness of C24: the sample module has diagnostics for "main.tf" and "variables.tf";
after a change of "main.tf" the stored map has the new diagnostics for "main.tf" and
the old ones for "variables.tf". -/
theorem SchemaModuleValidation_single_file_witness :
    Event.store (.UpdateModuleDiagnostics "/a" .SchemaValidationSource
        [("main.tf", ["unsupported block"]), ("variables.tf", ["unknown type"])])
        ∈ newEvents diagnosedWorld
            (SchemaModuleValidation Env.validating didChangeCtx diagnosedWorld "/a").1
      ∧ (SchemaModuleValidation Env.validating didChangeCtx diagnosedWorld "/a").1.modules.map
          (fun m => mapGet m.ModuleDiagnostics .SchemaValidationSource)
        = [some [("main.tf", ["unsupported block"]), ("variables.tf", ["unknown type"])]] :=
  ⟨(SchemaModuleValidation_single_file Env.validating didChangeCtx diagnosedWorld "/a"
      diagnosedModule (by decide) (by decide) (by decide)).2 (Or.inl (by decide))
      (by decide) (by decide),
    by decide⟩

/-- The loop over a list sorted from the greatest down returns a member that passes the
check and that no other member passing the check exceeds. -/
theorem firstMatching_some (c : Client) (con : String) (lt : Version → Version → Prop)
    (l : List Version) (v : Version)
    (hsorted : l.Pairwise (fun a b => ¬ lt a b))
    (h : firstMatching c con l = some v) :
    v ∈ l ∧ c.Check con v = true
      ∧ ∀ u ∈ l, c.Check con u = true → u ≠ v → ¬ lt v u := by
  induction l with
  | nil => simp [firstMatching] at h
  | cons a rest ih =>
    rw [List.pairwise_cons] at hsorted
    unfold firstMatching at h
    by_cases ha : c.Check con a = true
    · rw [if_pos ha] at h
      cases h
      refine ⟨List.mem_cons_self _ _, ha, ?_⟩
      intro u hu _ hne
      rcases List.mem_cons.mp hu with h1 | h1
      · exact absurd h1 hne
      · exact hsorted.1 u h1
    · rw [if_neg ha] at h
      obtain ⟨hmem, hcheck, hmax⟩ := ih hsorted.2 h
      refine ⟨List.mem_cons_of_mem _ hmem, hcheck, ?_⟩
      intro u hu hcu hne
      rcases List.mem_cons.mp hu with h1 | h1
      · rw [h1] at hcu
        exact absurd hcu ha
      · exact hmax u h1 hcu hne

/-- The loop finds nothing exactly when no member passes the check. -/
theorem firstMatching_none (c : Client) (con : String) (l : List Version) :
    firstMatching c con l = none ↔ ∀ u ∈ l, c.Check con u = false := by
  induction l with
  | nil => simp [firstMatching]
  | cons a rest ih =>
    unfold firstMatching
    by_cases ha : c.Check con a = true
    · simp [ha]
    · simp [ha, ih]

/-- C27: when the versions request succeeds (the request is built and sent, the status
is 200 and the body decodes to the version strings `entries`), and the sort leaves the
parsed versions in descending order of a relation `lt`: the found versions are the
parseable entries only; a version that `GetMatchingModuleVersion` returns parses from an
entry and satisfies the constraint, and no other version parsed from an entry that
satisfies the constraint is greater; and an error is returned if and only if no version
parsed from an entry satisfies the constraint. -/
theorem GetMatchingModuleVersion_greatest (c : Client) (addr : ModuleAddr) (con : String)
    (resp : HttpResponse) (entries : List String) (lt : Version → Version → Prop)
    (hreq : c.NewRequest (c.versionsURL addr) = none)
    (hdo : c.Do (c.versionsURL addr) = .ok resp)
    (hstatus : resp.StatusCode = 200)
    (hdec : c.decodeVersions resp = .ok entries)
    (hperm : (c.sortReverse (entries.filterMap c.NewVersion)).Perm
      (entries.filterMap c.NewVersion))
    (hsorted : (c.sortReverse (entries.filterMap c.NewVersion)).Pairwise
      (fun a b => ¬ lt a b)) :
    c.GetModuleVersions addr = .ok (c.sortReverse (entries.filterMap c.NewVersion))
      ∧ (∀ v, c.GetMatchingModuleVersion addr con = .ok v →
          (∃ s ∈ entries, c.NewVersion s = some v)
            ∧ c.Check con v = true
            ∧ ∀ s ∈ entries, ∀ u, c.NewVersion s = some u → c.Check con u = true →
                u ≠ v → ¬ lt v u)
      ∧ ((∃ err, c.GetMatchingModuleVersion addr con = .error err)
          ↔ ¬ ∃ s ∈ entries, ∃ u, c.NewVersion s = some u ∧ c.Check con u = true) := by
  have hvers : c.GetModuleVersions addr
      = .ok (c.sortReverse (entries.filterMap c.NewVersion)) := by
    simp [Client.GetModuleVersions, hreq, hdo, hstatus, hdec]
  have hmem : ∀ u, u ∈ c.sortReverse (entries.filterMap c.NewVersion)
      ↔ ∃ s ∈ entries, c.NewVersion s = some u := by
    intro u
    rw [hperm.mem_iff, List.mem_filterMap]
  refine ⟨hvers, ?_, ?_⟩
  · intro v hv
    unfold Client.GetMatchingModuleVersion at hv
    rw [hvers] at hv
    simp only at hv
    cases hfm : firstMatching c con (c.sortReverse (entries.filterMap c.NewVersion)) with
    | none =>
      rw [hfm] at hv
      cases hv
    | some fv =>
      rw [hfm] at hv
      simp only [Except.ok.injEq] at hv
      subst hv
      obtain ⟨h1, h2, h3⟩ := firstMatching_some c con lt _ fv hsorted hfm
      refine ⟨(hmem fv).mp h1, h2, ?_⟩
      intro s hs u hu hcu hne
      exact h3 u ((hmem u).mpr ⟨s, hs, hu⟩) hcu hne
  · unfold Client.GetMatchingModuleVersion
    rw [hvers]
    simp only
    cases hfm : firstMatching c con (c.sortReverse (entries.filterMap c.NewVersion)) with
    | none =>
      have hnone := (firstMatching_none c con _).mp hfm
      constructor
      · rintro _ ⟨s, hs, u, hu, hcu⟩
        have := hnone u ((hmem u).mpr ⟨s, hs, hu⟩)
        rw [hcu] at this
        cases this
      · intro _
        exact ⟨_, rfl⟩
    | some fv =>
      obtain ⟨h1, h2, _⟩ := firstMatching_some c con lt _ fv hsorted hfm
      constructor
      · rintro ⟨err, herr⟩
        cases herr
      · intro hno
        obtain ⟨s, hs, hu⟩ := (hmem fv).mp h1
        exact absurd ⟨s, hs, fv, hu, h2⟩ hno

/-- Witness of C27: the sample registry lists "1.0.0", an entry that is no version, and
"1.2.0"; the found versions are 1.2.0 and 1.0.0, the version returned for "< 1.2.0" is
1.0.0, and ">= 2.0.0" gives an error. -/
theorem GetMatchingModuleVersion_greatest_witness :
    constrainedClient.GetModuleVersions sampleAddr = .ok [[1, 2, 0], [1, 0, 0]]
      ∧ constrainedClient.GetMatchingModuleVersion sampleAddr "< 1.2.0" = .ok [1, 0, 0]
      ∧ constrainedClient.GetMatchingModuleVersion sampleAddr ">= 1.0" = .ok [1, 2, 0]
      ∧ ∃ err, constrainedClient.GetMatchingModuleVersion sampleAddr ">= 2.0.0"
          = .error err :=
  ⟨(GetMatchingModuleVersion_greatest constrainedClient sampleAddr "< 1.2.0"
      ⟨200, "", none⟩ ["1.0.0", "bad", "1.2.0"] (fun a b => a < b)
      (by decide) (by decide) (by decide) (by decide) (by decide) (by decide)).1,
    by decide, by decide,
    (GetMatchingModuleVersion_greatest constrainedClient sampleAddr ">= 2.0.0"
      ⟨200, "", none⟩ ["1.0.0", "bad", "1.2.0"] (fun a b => a < b)
      (by decide) (by decide) (by decide) (by decide) (by decide) (by decide)).2.2.mpr
      (by decide)⟩

/-- An address without a row is the address of no row. -/
theorem txnFirst_none (rows : List ProviderIds) (addr : String)
    (h : txnFirst rows addr = none) :
    rows.any (fun r => r.Address == addr) = false ∧ addr ∉ rows.map ProviderIds.Address := by
  unfold txnFirst at h
  rw [List.find?_eq_none] at h
  constructor
  · rw [List.any_eq_false]
    intro r hr
    exact h r hr
  · intro hmem
    obtain ⟨r, hr, hra⟩ := List.mem_map.mp hmem
    exact h r hr (by simp [hra])

/-- An insert under an address without a row adds the row at the end. -/
theorem txnInsert_new (rows : List ProviderIds) (row : ProviderIds)
    (h : txnFirst rows row.Address = none) : txnInsert rows row = rows ++ [row] := by
  unfold txnInsert
  rw [(txnFirst_none rows row.Address h).1]
  rfl

/-- The ways a `GetProviderID` call can go. -/
theorem GetProviderID_cases (env : DbEnv) (s : ProviderSchemaStore) (addr : String) :
    (∃ err, GetProviderID env s addr = (s, .error err))
      ∨ (∃ obj, txnFirst s.providerIds addr = some obj
          ∧ GetProviderID env s addr = (s, .ok obj.ID))
      ∨ (∃ newId, txnFirst s.providerIds addr = none
          ∧ env.GenerateUUID s = .ok newId
          ∧ GetProviderID env s addr
            = (⟨s.providerIds ++ [⟨addr, newId⟩]⟩, .ok newId)) := by
  unfold GetProviderID
  cases env.firstErr s addr with
  | some err => exact Or.inl ⟨err, rfl⟩
  | none =>
    cases hfirst : txnFirst s.providerIds addr with
    | some obj => exact Or.inr (Or.inl ⟨obj, rfl, by simp [hfirst]⟩)
    | none =>
      cases hgen : env.GenerateUUID s with
      | error err => exact Or.inl ⟨err, by simp [hfirst]⟩
      | ok newId =>
        cases hins : env.insertErr s ⟨addr, newId⟩ with
        | some err => exact Or.inl ⟨err, by simp [hfirst, hins]⟩
        | none =>
          refine Or.inr (Or.inr ⟨newId, rfl, rfl, ?_⟩)
          have := txnInsert_new s.providerIds ⟨addr, newId⟩ hfirst
          simp [hfirst, hins, this]

/-- A row found under an address is still the row found there after any call. -/
theorem GetProviderID_keeps (env : DbEnv) (s : ProviderSchemaStore) (a addr : String)
    (row : ProviderIds) (h : txnFirst s.providerIds addr = some row) :
    txnFirst (GetProviderID env s a).1.providerIds addr = some row := by
  rcases GetProviderID_cases env s a with
    ⟨err, hres⟩ | ⟨obj, _, hres⟩ | ⟨newId, _, _, hres⟩
  · rw [hres]
    exact h
  · rw [hres]
    exact h
  · rw [hres]
    unfold txnFirst at h ⊢
    simp [List.find?_append, h]

/-- A row found under an address is still the row found there after any sequence of
calls. -/
theorem GetProviderIDs_keeps (env : DbEnv) (addrs : List String) (s : ProviderSchemaStore)
    (addr : String) (row : ProviderIds) (h : txnFirst s.providerIds addr = some row) :
    txnFirst (GetProviderIDs env s addrs).providerIds addr = some row := by
  induction addrs generalizing s with
  | nil => exact h
  | cons a rest ih =>
    unfold GetProviderIDs
    rw [List.foldl_cons]
    exact ih _ (GetProviderID_keeps env s a addr row h)

/-- A call keeps the addresses of the rows distinct. -/
theorem GetProviderID_nodup (env : DbEnv) (s : ProviderSchemaStore) (a : String)
    (h : (s.providerIds.map ProviderIds.Address).Nodup) :
    ((GetProviderID env s a).1.providerIds.map ProviderIds.Address).Nodup := by
  rcases GetProviderID_cases env s a with
    ⟨err, hres⟩ | ⟨obj, _, hres⟩ | ⟨newId, hnone, _, hres⟩
  · rw [hres]
    exact h
  · rw [hres]
    exact h
  · rw [hres]
    simp only [List.map_append, List.map_cons, List.map_nil]
    rw [List.nodup_append]
    refine ⟨h, List.nodup_singleton _, ?_⟩
    intro x hx hx2
    rw [List.mem_singleton] at hx2
    rw [hx2] at hx
    exact (txnFirst_none s.providerIds a hnone).2 hx

/-- Any sequence of calls keeps the addresses of the rows distinct. -/
theorem GetProviderIDs_nodup (env : DbEnv) (addrs : List String) (s : ProviderSchemaStore)
    (h : (s.providerIds.map ProviderIds.Address).Nodup) :
    ((GetProviderIDs env s addrs).providerIds.map ProviderIds.Address).Nodup := by
  induction addrs generalizing s with
  | nil => exact h
  | cons a rest ih =>
    unfold GetProviderIDs
    rw [List.foldl_cons]
    exact ih _ (GetProviderID_nodup env s a h)

/-- C30: for every provider address: a successful `GetProviderID` call for an address
without a row adds exactly one row, which holds the address and the generated id, and
returns that id; after a successful call, every later successful call for the same
address, whatever calls were made in between, returns the same id and leaves the table
as it was; any sequence of calls keeps the addresses of the rows distinct, in particular
from the empty table; and a call that fails (the lookup, the id generation or the
insert) leaves the table as it was. -/
theorem GetProviderID_stable (env : DbEnv) (s : ProviderSchemaStore) (addr : String) :
    (txnFirst s.providerIds addr = none →
        ∀ id, (GetProviderID env s addr).2 = .ok id →
          env.GenerateUUID s = .ok id
            ∧ (GetProviderID env s addr).1.providerIds = s.providerIds ++ [⟨addr, id⟩])
      ∧ (∀ id, (GetProviderID env s addr).2 = .ok id →
          ∀ (later : DbEnv) (between : List String) (id2 : String),
            (GetProviderID later
                (GetProviderIDs later (GetProviderID env s addr).1 between) addr).2
              = .ok id2 →
            id2 = id
              ∧ (GetProviderID later
                  (GetProviderIDs later (GetProviderID env s addr).1 between) addr).1
                = GetProviderIDs later (GetProviderID env s addr).1 between)
      ∧ ((s.providerIds.map ProviderIds.Address).Nodup →
          ∀ calls : List String,
            ((GetProviderIDs env s calls).providerIds.map ProviderIds.Address).Nodup)
      ∧ (∀ err, (GetProviderID env s addr).2 = .error err →
          (GetProviderID env s addr).1 = s) := by
  refine ⟨?_, ?_, ?_, ?_⟩
  · intro hnone id hok
    rcases GetProviderID_cases env s addr with
      ⟨err, hres⟩ | ⟨obj, hsome, _⟩ | ⟨newId, _, hgen, hres⟩
    · rw [hres] at hok
      cases hok
    · rw [hnone] at hsome
      cases hsome
    · rw [hres] at hok ⊢
      simp only [Except.ok.injEq] at hok
      subst hok
      exact ⟨hgen, rfl⟩
  · intro id hok later between id2 hok2
    have hrow : ∃ row, txnFirst (GetProviderID env s addr).1.providerIds addr = some row
        ∧ row.ID = id := by
      rcases GetProviderID_cases env s addr with
        ⟨err, hres⟩ | ⟨obj, hsome, hres⟩ | ⟨newId, hnone, _, hres⟩
      · rw [hres] at hok
        cases hok
      · rw [hres] at hok ⊢
        simp only [Except.ok.injEq] at hok
        exact ⟨obj, hsome, hok⟩
      · rw [hres] at hok ⊢
        simp only [Except.ok.injEq] at hok
        refine ⟨⟨addr, newId⟩, ?_, hok⟩
        unfold txnFirst at hnone ⊢
        simp [List.find?_append, hnone]
    obtain ⟨row, hfirst, hid⟩ := hrow
    have hkept := GetProviderIDs_keeps later between _ addr row hfirst
    rcases GetProviderID_cases later
        (GetProviderIDs later (GetProviderID env s addr).1 between) addr with
      ⟨err, hres⟩ | ⟨obj, hsome, hres⟩ | ⟨newId, hnone, _, _⟩
    · rw [hres] at hok2
      cases hok2
    · rw [hres] at hok2 ⊢
      simp only [Except.ok.injEq] at hok2
      rw [hkept] at hsome
      simp only [Option.some.injEq] at hsome
      rw [← hok2, ← hsome, hid]
      exact ⟨rfl, rfl⟩
    · rw [hkept] at hnone
      cases hnone
  · intro hnodup calls
    exact GetProviderIDs_nodup env calls s hnodup
  · intro err herr
    rcases GetProviderID_cases env s addr with
      ⟨err2, hres⟩ | ⟨obj, _, hres⟩ | ⟨newId, _, _, hres⟩
    · rw [hres]
    · rw [hres] at herr
      cases herr
    · rw [hres] at herr
      cases herr

/-- Witness of C30: from the empty table, the first call for "registry/acme/aws" adds
one row; after a call for another address the same id is returned and the table stays;
with a failing id generator or a refused insert the table stays empty. -/
theorem GetProviderID_stable_witness :
    (GetProviderID DbEnv.plain ⟨[]⟩ "registry/acme/aws")
        = (⟨[⟨"registry/acme/aws", "u"⟩]⟩, .ok "u")
      ∧ GetProviderID DbEnv.plain
          (GetProviderIDs DbEnv.plain ⟨[⟨"registry/acme/aws", "u"⟩]⟩ ["registry/acme/gcp"])
          "registry/acme/aws"
        = (⟨[⟨"registry/acme/aws", "u"⟩, ⟨"registry/acme/gcp", "uu"⟩]⟩, .ok "u")
      ∧ (GetProviderID DbEnv.noEntropy ⟨[]⟩ "registry/acme/aws").1 = ⟨[]⟩
      ∧ (GetProviderID DbEnv.readOnly ⟨[]⟩ "registry/acme/aws").1 = ⟨[]⟩
      ∧ ((GetProviderIDs DbEnv.plain ⟨[]⟩
          ["registry/acme/aws", "registry/acme/gcp", "registry/acme/aws"]).providerIds.map
            ProviderIds.Address).Nodup :=
  ⟨by decide, by decide,
    (GetProviderID_stable DbEnv.noEntropy ⟨[]⟩ "registry/acme/aws").2.2.2
      (.Failure "failed to read random bytes") (by decide),
    (GetProviderID_stable DbEnv.readOnly ⟨[]⟩ "registry/acme/aws").2.2.2
      (.Failure "insert failed") (by decide),
    (GetProviderID_stable DbEnv.plain ⟨[]⟩ "registry/acme/aws").2.2.1 (by decide) _⟩

end TofuLS
